import Mathlib

/-! # BriefSync: the keyword processing coordinator and the fetch stage

A shallow embedding of `src/server/services/NewsAggregator.js` and
`src/server/services/agents/CrawlerAgent.js`.

* JavaScript values that occur in options objects and article fields are the
  type `JsVal`; a `Map` keyed by strings is an association list in insertion
  order (`JsMap`).
* `processKeyword` is an `async` function.  Its body up to `await
  processingPromise` runs without interruption, and so does the continuation
  after the `await`; the embedding has one transition for each
  (`processKeyword`, `resumeProcessKeyword`), one for the moment the pipeline
  promise settles (`settlePipeline`) and one for `clearCache`.
* Clock readings (`Date.now()`), request ids and the outcomes of the external
  stages are arguments of the transitions.
-/

namespace BriefSync

/-! ## JavaScript values -/

/-- A JavaScript value as found in an options object or an article field.
Numbers are integers. -/
inductive JsVal where
  | undefined
  | null
  | bool (b : Bool)
  | num (n : Int)
  | str (s : String)
  deriving DecidableEq, Repr

namespace JsVal

/-- The truthiness test of `if (v)`, `v || w` and `!v`. -/
def truthy : JsVal → Bool
  | undefined => false
  | null => false
  | bool b => b
  | num n => n != 0
  | str s => s != ""

/-- The operator `a || b`. -/
def or (a b : JsVal) : JsVal := if a.truthy then a else b

end JsVal

/-! ## `Map` with string keys -/

/-- A JavaScript `Map` with string keys: its entries in insertion order. -/
abbrev JsMap (V : Type) := List (String × V)

namespace JsMap

variable {V : Type}

/-- The lookup `m.get(k)`, with `none` for `undefined`. -/
def get? : JsMap V → String → Option V
  | [], _ => none
  | (k', v) :: m, k => if k' = k then some v else get? m k

/-- The test `m.has(k)`. -/
def has (m : JsMap V) (k : String) : Bool := (get? m k).isSome

/-- The update `m.set(k, v)`: an existing key keeps its place, a new key goes last. -/
def set : JsMap V → String → V → JsMap V
  | [], k, v => [(k, v)]
  | (k', v') :: m, k, v => if k' = k then (k', v) :: m else (k', v') :: set m k v

/-- The removal `m.delete(k)`. -/
def delete (m : JsMap V) (k : String) : JsMap V := m.filter (fun e => e.1 ≠ k)

/-- The call `m.clear()`. -/
def clear (_ : JsMap V) : JsMap V := []

/-- The property `m.size`. -/
def size (m : JsMap V) : Nat := m.length

/-- The keys in insertion order, `Array.from(m.keys())`. -/
def keys (m : JsMap V) : List String := m.map Prod.fst

end JsMap

/-! ## The cache key -/

/-- An options object: its own enumerable properties in property order. -/
abbrev Options := List (String × JsVal)

/-! ## Lower case

`String.prototype.toLowerCase` applies the default case conversion of Unicode:
the lower-case mapping of each code point, with two mappings that are not one
code point to one code point. The capital sigma becomes a final sigma when it
ends a word, and the capital I with a dot above becomes an `i` and a combining
dot. The tables are those of Unicode 14. -/

/-- The lower-case mappings of single code points outside ASCII (Unicode 14):
`(first, last, step, target)` maps the code points `first`, `first + step`, ...
up to `last` to `target`, `target + step`, ... -/
def lowerCaseRanges : List (Nat × Nat × Nat × Nat) :=
  [(0xC0, 0xD6, 1, 0xE0), (0xD8, 0xDE, 1, 0xF8), (0x100, 0x12E, 2, 0x101),
   (0x132, 0x136, 2, 0x133), (0x139, 0x147, 2, 0x13A), (0x14A, 0x176, 2, 0x14B),
   (0x178, 0x178, 1, 0xFF), (0x179, 0x17D, 2, 0x17A), (0x181, 0x181, 1, 0x253),
   (0x182, 0x184, 2, 0x183), (0x186, 0x186, 1, 0x254), (0x187, 0x187, 1, 0x188),
   (0x189, 0x18A, 1, 0x256), (0x18B, 0x18B, 1, 0x18C), (0x18E, 0x18E, 1, 0x1DD),
   (0x18F, 0x18F, 1, 0x259), (0x190, 0x190, 1, 0x25B), (0x191, 0x191, 1, 0x192),
   (0x193, 0x193, 1, 0x260), (0x194, 0x194, 1, 0x263), (0x196, 0x196, 1, 0x269),
   (0x197, 0x197, 1, 0x268), (0x198, 0x198, 1, 0x199), (0x19C, 0x19C, 1, 0x26F),
   (0x19D, 0x19D, 1, 0x272), (0x19F, 0x19F, 1, 0x275), (0x1A0, 0x1A4, 2, 0x1A1),
   (0x1A6, 0x1A6, 1, 0x280), (0x1A7, 0x1A7, 1, 0x1A8), (0x1A9, 0x1A9, 1, 0x283),
   (0x1AC, 0x1AC, 1, 0x1AD), (0x1AE, 0x1AE, 1, 0x288), (0x1AF, 0x1AF, 1, 0x1B0),
   (0x1B1, 0x1B2, 1, 0x28A), (0x1B3, 0x1B5, 2, 0x1B4), (0x1B7, 0x1B7, 1, 0x292),
   (0x1B8, 0x1B8, 1, 0x1B9), (0x1BC, 0x1BC, 1, 0x1BD), (0x1C4, 0x1C4, 1, 0x1C6),
   (0x1C5, 0x1C5, 1, 0x1C6), (0x1C7, 0x1C7, 1, 0x1C9), (0x1C8, 0x1C8, 1, 0x1C9),
   (0x1CA, 0x1CA, 1, 0x1CC), (0x1CB, 0x1DB, 2, 0x1CC), (0x1DE, 0x1EE, 2, 0x1DF),
   (0x1F1, 0x1F1, 1, 0x1F3), (0x1F2, 0x1F4, 2, 0x1F3), (0x1F6, 0x1F6, 1, 0x195),
   (0x1F7, 0x1F7, 1, 0x1BF), (0x1F8, 0x21E, 2, 0x1F9), (0x220, 0x220, 1, 0x19E),
   (0x222, 0x232, 2, 0x223), (0x23A, 0x23A, 1, 0x2C65), (0x23B, 0x23B, 1, 0x23C),
   (0x23D, 0x23D, 1, 0x19A), (0x23E, 0x23E, 1, 0x2C66), (0x241, 0x241, 1, 0x242),
   (0x243, 0x243, 1, 0x180), (0x244, 0x244, 1, 0x289), (0x245, 0x245, 1, 0x28C),
   (0x246, 0x24E, 2, 0x247), (0x370, 0x372, 2, 0x371), (0x376, 0x376, 1, 0x377),
   (0x37F, 0x37F, 1, 0x3F3), (0x386, 0x386, 1, 0x3AC), (0x388, 0x38A, 1, 0x3AD),
   (0x38C, 0x38C, 1, 0x3CC), (0x38E, 0x38F, 1, 0x3CD), (0x391, 0x3A1, 1, 0x3B1),
   (0x3A3, 0x3AB, 1, 0x3C3), (0x3CF, 0x3CF, 1, 0x3D7), (0x3D8, 0x3EE, 2, 0x3D9),
   (0x3F4, 0x3F4, 1, 0x3B8), (0x3F7, 0x3F7, 1, 0x3F8), (0x3F9, 0x3F9, 1, 0x3F2),
   (0x3FA, 0x3FA, 1, 0x3FB), (0x3FD, 0x3FF, 1, 0x37B), (0x400, 0x40F, 1, 0x450),
   (0x410, 0x42F, 1, 0x430), (0x460, 0x480, 2, 0x461), (0x48A, 0x4BE, 2, 0x48B),
   (0x4C0, 0x4C0, 1, 0x4CF), (0x4C1, 0x4CD, 2, 0x4C2), (0x4D0, 0x52E, 2, 0x4D1),
   (0x531, 0x556, 1, 0x561), (0x10A0, 0x10C5, 1, 0x2D00), (0x10C7, 0x10C7, 1, 0x2D27),
   (0x10CD, 0x10CD, 1, 0x2D2D), (0x13A0, 0x13EF, 1, 0xAB70), (0x13F0, 0x13F5, 1, 0x13F8),
   (0x1C90, 0x1CBA, 1, 0x10D0), (0x1CBD, 0x1CBF, 1, 0x10FD), (0x1E00, 0x1E94, 2, 0x1E01),
   (0x1E9E, 0x1E9E, 1, 0xDF), (0x1EA0, 0x1EFE, 2, 0x1EA1), (0x1F08, 0x1F0F, 1, 0x1F00),
   (0x1F18, 0x1F1D, 1, 0x1F10), (0x1F28, 0x1F2F, 1, 0x1F20), (0x1F38, 0x1F3F, 1, 0x1F30),
   (0x1F48, 0x1F4D, 1, 0x1F40), (0x1F59, 0x1F5F, 2, 0x1F51), (0x1F68, 0x1F6F, 1, 0x1F60),
   (0x1F88, 0x1F8F, 1, 0x1F80), (0x1F98, 0x1F9F, 1, 0x1F90), (0x1FA8, 0x1FAF, 1, 0x1FA0),
   (0x1FB8, 0x1FB9, 1, 0x1FB0), (0x1FBA, 0x1FBB, 1, 0x1F70), (0x1FBC, 0x1FBC, 1, 0x1FB3),
   (0x1FC8, 0x1FCB, 1, 0x1F72), (0x1FCC, 0x1FCC, 1, 0x1FC3), (0x1FD8, 0x1FD9, 1, 0x1FD0),
   (0x1FDA, 0x1FDB, 1, 0x1F76), (0x1FE8, 0x1FE9, 1, 0x1FE0), (0x1FEA, 0x1FEB, 1, 0x1F7A),
   (0x1FEC, 0x1FEC, 1, 0x1FE5), (0x1FF8, 0x1FF9, 1, 0x1F78), (0x1FFA, 0x1FFB, 1, 0x1F7C),
   (0x1FFC, 0x1FFC, 1, 0x1FF3), (0x2126, 0x2126, 1, 0x3C9), (0x212A, 0x212A, 1, 0x6B),
   (0x212B, 0x212B, 1, 0xE5), (0x2132, 0x2132, 1, 0x214E), (0x2160, 0x216F, 1, 0x2170),
   (0x2183, 0x2183, 1, 0x2184), (0x24B6, 0x24CF, 1, 0x24D0), (0x2C00, 0x2C2F, 1, 0x2C30),
   (0x2C60, 0x2C60, 1, 0x2C61), (0x2C62, 0x2C62, 1, 0x26B), (0x2C63, 0x2C63, 1, 0x1D7D),
   (0x2C64, 0x2C64, 1, 0x27D), (0x2C67, 0x2C6B, 2, 0x2C68), (0x2C6D, 0x2C6D, 1, 0x251),
   (0x2C6E, 0x2C6E, 1, 0x271), (0x2C6F, 0x2C6F, 1, 0x250), (0x2C70, 0x2C70, 1, 0x252),
   (0x2C72, 0x2C72, 1, 0x2C73), (0x2C75, 0x2C75, 1, 0x2C76), (0x2C7E, 0x2C7F, 1, 0x23F),
   (0x2C80, 0x2CE2, 2, 0x2C81), (0x2CEB, 0x2CED, 2, 0x2CEC), (0x2CF2, 0x2CF2, 1, 0x2CF3),
   (0xA640, 0xA66C, 2, 0xA641), (0xA680, 0xA69A, 2, 0xA681), (0xA722, 0xA72E, 2, 0xA723),
   (0xA732, 0xA76E, 2, 0xA733), (0xA779, 0xA77B, 2, 0xA77A), (0xA77D, 0xA77D, 1, 0x1D79),
   (0xA77E, 0xA786, 2, 0xA77F), (0xA78B, 0xA78B, 1, 0xA78C), (0xA78D, 0xA78D, 1, 0x265),
   (0xA790, 0xA792, 2, 0xA791), (0xA796, 0xA7A8, 2, 0xA797), (0xA7AA, 0xA7AA, 1, 0x266),
   (0xA7AB, 0xA7AB, 1, 0x25C), (0xA7AC, 0xA7AC, 1, 0x261), (0xA7AD, 0xA7AD, 1, 0x26C),
   (0xA7AE, 0xA7AE, 1, 0x26A), (0xA7B0, 0xA7B0, 1, 0x29E), (0xA7B1, 0xA7B1, 1, 0x287),
   (0xA7B2, 0xA7B2, 1, 0x29D), (0xA7B3, 0xA7B3, 1, 0xAB53), (0xA7B4, 0xA7C2, 2, 0xA7B5),
   (0xA7C4, 0xA7C4, 1, 0xA794), (0xA7C5, 0xA7C5, 1, 0x282), (0xA7C6, 0xA7C6, 1, 0x1D8E),
   (0xA7C7, 0xA7C9, 2, 0xA7C8), (0xA7D0, 0xA7D0, 1, 0xA7D1), (0xA7D6, 0xA7D8, 2, 0xA7D7),
   (0xA7F5, 0xA7F5, 1, 0xA7F6), (0xFF21, 0xFF3A, 1, 0xFF41), (0x10400, 0x10427, 1, 0x10428),
   (0x104B0, 0x104D3, 1, 0x104D8), (0x10570, 0x1057A, 1, 0x10597),
   (0x1057C, 0x1058A, 1, 0x105A3), (0x1058C, 0x10592, 1, 0x105B3),
   (0x10594, 0x10595, 1, 0x105BB), (0x10C80, 0x10CB2, 1, 0x10CC0),
   (0x118A0, 0x118BF, 1, 0x118C0), (0x16E40, 0x16E5F, 1, 0x16E60),
   (0x1E900, 0x1E921, 1, 0x1E922)]

/-- The ranges of the cased code points that are not case-ignorable
(Unicode 14). -/
def casedRanges : List (Nat × Nat) :=
  [(0x41, 0x5A), (0x61, 0x7A), (0xAA, 0xAA), (0xB5, 0xB5), (0xBA, 0xBA), (0xC0, 0xD6),
   (0xD8, 0xF6), (0xF8, 0x1BA), (0x1BC, 0x1BF), (0x1C4, 0x293), (0x295, 0x2AF), (0x370, 0x373),
   (0x376, 0x377), (0x37B, 0x37D), (0x37F, 0x37F), (0x386, 0x386), (0x388, 0x38A),
   (0x38C, 0x38C), (0x38E, 0x3A1), (0x3A3, 0x3F5), (0x3F7, 0x481), (0x48A, 0x52F),
   (0x531, 0x556), (0x560, 0x588), (0x10A0, 0x10C5), (0x10C7, 0x10C7), (0x10CD, 0x10CD),
   (0x10D0, 0x10FA), (0x10FD, 0x10FF), (0x13A0, 0x13F5), (0x13F8, 0x13FD), (0x1C80, 0x1C88),
   (0x1C90, 0x1CBA), (0x1CBD, 0x1CBF), (0x1D00, 0x1D2B), (0x1D6B, 0x1D77), (0x1D79, 0x1D9A),
   (0x1E00, 0x1F15), (0x1F18, 0x1F1D), (0x1F20, 0x1F45), (0x1F48, 0x1F4D), (0x1F50, 0x1F57),
   (0x1F59, 0x1F59), (0x1F5B, 0x1F5B), (0x1F5D, 0x1F5D), (0x1F5F, 0x1F7D), (0x1F80, 0x1FB4),
   (0x1FB6, 0x1FBC), (0x1FBE, 0x1FBE), (0x1FC2, 0x1FC4), (0x1FC6, 0x1FCC), (0x1FD0, 0x1FD3),
   (0x1FD6, 0x1FDB), (0x1FE0, 0x1FEC), (0x1FF2, 0x1FF4), (0x1FF6, 0x1FFC), (0x2102, 0x2102),
   (0x2107, 0x2107), (0x210A, 0x2113), (0x2115, 0x2115), (0x2119, 0x211D), (0x2124, 0x2124),
   (0x2126, 0x2126), (0x2128, 0x2128), (0x212A, 0x212D), (0x212F, 0x2134), (0x2139, 0x2139),
   (0x213C, 0x213F), (0x2145, 0x2149), (0x214E, 0x214E), (0x2160, 0x217F), (0x2183, 0x2184),
   (0x24B6, 0x24E9), (0x2C00, 0x2C7B), (0x2C7E, 0x2CE4), (0x2CEB, 0x2CEE), (0x2CF2, 0x2CF3),
   (0x2D00, 0x2D25), (0x2D27, 0x2D27), (0x2D2D, 0x2D2D), (0xA640, 0xA66D), (0xA680, 0xA69B),
   (0xA722, 0xA76F), (0xA771, 0xA787), (0xA78B, 0xA78E), (0xA790, 0xA7CA), (0xA7D0, 0xA7D1),
   (0xA7D3, 0xA7D3), (0xA7D5, 0xA7D9), (0xA7F5, 0xA7F6), (0xA7FA, 0xA7FA), (0xAB30, 0xAB5A),
   (0xAB60, 0xAB68), (0xAB70, 0xABBF), (0xFB00, 0xFB06), (0xFB13, 0xFB17), (0xFF21, 0xFF3A),
   (0xFF41, 0xFF5A), (0x10400, 0x1044F), (0x104B0, 0x104D3), (0x104D8, 0x104FB),
   (0x10570, 0x1057A), (0x1057C, 0x1058A), (0x1058C, 0x10592), (0x10594, 0x10595),
   (0x10597, 0x105A1), (0x105A3, 0x105B1), (0x105B3, 0x105B9), (0x105BB, 0x105BC),
   (0x10C80, 0x10CB2), (0x10CC0, 0x10CF2), (0x118A0, 0x118DF), (0x16E40, 0x16E7F),
   (0x1D400, 0x1D454), (0x1D456, 0x1D49C), (0x1D49E, 0x1D49F), (0x1D4A2, 0x1D4A2),
   (0x1D4A5, 0x1D4A6), (0x1D4A9, 0x1D4AC), (0x1D4AE, 0x1D4B9), (0x1D4BB, 0x1D4BB),
   (0x1D4BD, 0x1D4C3), (0x1D4C5, 0x1D505), (0x1D507, 0x1D50A), (0x1D50D, 0x1D514),
   (0x1D516, 0x1D51C), (0x1D51E, 0x1D539), (0x1D53B, 0x1D53E), (0x1D540, 0x1D544),
   (0x1D546, 0x1D546), (0x1D54A, 0x1D550), (0x1D552, 0x1D6A5), (0x1D6A8, 0x1D6C0),
   (0x1D6C2, 0x1D6DA), (0x1D6DC, 0x1D6FA), (0x1D6FC, 0x1D714), (0x1D716, 0x1D734),
   (0x1D736, 0x1D74E), (0x1D750, 0x1D76E), (0x1D770, 0x1D788), (0x1D78A, 0x1D7A8),
   (0x1D7AA, 0x1D7C2), (0x1D7C4, 0x1D7CB), (0x1DF00, 0x1DF09), (0x1DF0B, 0x1DF1E),
   (0x1E900, 0x1E943), (0x1F130, 0x1F149), (0x1F150, 0x1F169), (0x1F170, 0x1F189)]

/-- The ranges of the case-ignorable code points (Unicode 14). -/
def caseIgnorableRanges : List (Nat × Nat) :=
  [(0x27, 0x27), (0x2E, 0x2E), (0x3A, 0x3A), (0x5E, 0x5E), (0x60, 0x60), (0xA8, 0xA8),
   (0xAD, 0xAD), (0xAF, 0xAF), (0xB4, 0xB4), (0xB7, 0xB8), (0x2B0, 0x36F), (0x374, 0x375),
   (0x37A, 0x37A), (0x384, 0x385), (0x387, 0x387), (0x483, 0x489), (0x559, 0x559),
   (0x55F, 0x55F), (0x591, 0x5BD), (0x5BF, 0x5BF), (0x5C1, 0x5C2), (0x5C4, 0x5C5),
   (0x5C7, 0x5C7), (0x5F4, 0x5F4), (0x600, 0x605), (0x610, 0x61A), (0x61C, 0x61C),
   (0x640, 0x640), (0x64B, 0x65F), (0x670, 0x670), (0x6D6, 0x6DD), (0x6DF, 0x6E8),
   (0x6EA, 0x6ED), (0x70F, 0x70F), (0x711, 0x711), (0x730, 0x74A), (0x7A6, 0x7B0),
   (0x7EB, 0x7F5), (0x7FA, 0x7FA), (0x7FD, 0x7FD), (0x816, 0x82D), (0x859, 0x85B),
   (0x888, 0x888), (0x890, 0x891), (0x898, 0x89F), (0x8C9, 0x902), (0x93A, 0x93A),
   (0x93C, 0x93C), (0x941, 0x948), (0x94D, 0x94D), (0x951, 0x957), (0x962, 0x963),
   (0x971, 0x971), (0x981, 0x981), (0x9BC, 0x9BC), (0x9C1, 0x9C4), (0x9CD, 0x9CD),
   (0x9E2, 0x9E3), (0x9FE, 0x9FE), (0xA01, 0xA02), (0xA3C, 0xA3C), (0xA41, 0xA42),
   (0xA47, 0xA48), (0xA4B, 0xA4D), (0xA51, 0xA51), (0xA70, 0xA71), (0xA75, 0xA75),
   (0xA81, 0xA82), (0xABC, 0xABC), (0xAC1, 0xAC5), (0xAC7, 0xAC8), (0xACD, 0xACD),
   (0xAE2, 0xAE3), (0xAFA, 0xAFF), (0xB01, 0xB01), (0xB3C, 0xB3C), (0xB3F, 0xB3F),
   (0xB41, 0xB44), (0xB4D, 0xB4D), (0xB55, 0xB56), (0xB62, 0xB63), (0xB82, 0xB82),
   (0xBC0, 0xBC0), (0xBCD, 0xBCD), (0xC00, 0xC00), (0xC04, 0xC04), (0xC3C, 0xC3C),
   (0xC3E, 0xC40), (0xC46, 0xC48), (0xC4A, 0xC4D), (0xC55, 0xC56), (0xC62, 0xC63),
   (0xC81, 0xC81), (0xCBC, 0xCBC), (0xCBF, 0xCBF), (0xCC6, 0xCC6), (0xCCC, 0xCCD),
   (0xCE2, 0xCE3), (0xD00, 0xD01), (0xD3B, 0xD3C), (0xD41, 0xD44), (0xD4D, 0xD4D),
   (0xD62, 0xD63), (0xD81, 0xD81), (0xDCA, 0xDCA), (0xDD2, 0xDD4), (0xDD6, 0xDD6),
   (0xE31, 0xE31), (0xE34, 0xE3A), (0xE46, 0xE4E), (0xEB1, 0xEB1), (0xEB4, 0xEBC),
   (0xEC6, 0xEC6), (0xEC8, 0xECD), (0xF18, 0xF19), (0xF35, 0xF35), (0xF37, 0xF37),
   (0xF39, 0xF39), (0xF71, 0xF7E), (0xF80, 0xF84), (0xF86, 0xF87), (0xF8D, 0xF97),
   (0xF99, 0xFBC), (0xFC6, 0xFC6), (0x102D, 0x1030), (0x1032, 0x1037), (0x1039, 0x103A),
   (0x103D, 0x103E), (0x1058, 0x1059), (0x105E, 0x1060), (0x1071, 0x1074), (0x1082, 0x1082),
   (0x1085, 0x1086), (0x108D, 0x108D), (0x109D, 0x109D), (0x10FC, 0x10FC), (0x135D, 0x135F),
   (0x1712, 0x1714), (0x1732, 0x1733), (0x1752, 0x1753), (0x1772, 0x1773), (0x17B4, 0x17B5),
   (0x17B7, 0x17BD), (0x17C6, 0x17C6), (0x17C9, 0x17D3), (0x17D7, 0x17D7), (0x17DD, 0x17DD),
   (0x180B, 0x180F), (0x1843, 0x1843), (0x1885, 0x1886), (0x18A9, 0x18A9), (0x1920, 0x1922),
   (0x1927, 0x1928), (0x1932, 0x1932), (0x1939, 0x193B), (0x1A17, 0x1A18), (0x1A1B, 0x1A1B),
   (0x1A56, 0x1A56), (0x1A58, 0x1A5E), (0x1A60, 0x1A60), (0x1A62, 0x1A62), (0x1A65, 0x1A6C),
   (0x1A73, 0x1A7C), (0x1A7F, 0x1A7F), (0x1AA7, 0x1AA7), (0x1AB0, 0x1ACE), (0x1B00, 0x1B03),
   (0x1B34, 0x1B34), (0x1B36, 0x1B3A), (0x1B3C, 0x1B3C), (0x1B42, 0x1B42), (0x1B6B, 0x1B73),
   (0x1B80, 0x1B81), (0x1BA2, 0x1BA5), (0x1BA8, 0x1BA9), (0x1BAB, 0x1BAD), (0x1BE6, 0x1BE6),
   (0x1BE8, 0x1BE9), (0x1BED, 0x1BED), (0x1BEF, 0x1BF1), (0x1C2C, 0x1C33), (0x1C36, 0x1C37),
   (0x1C78, 0x1C7D), (0x1CD0, 0x1CD2), (0x1CD4, 0x1CE0), (0x1CE2, 0x1CE8), (0x1CED, 0x1CED),
   (0x1CF4, 0x1CF4), (0x1CF8, 0x1CF9), (0x1D2C, 0x1D6A), (0x1D78, 0x1D78), (0x1D9B, 0x1DFF),
   (0x1FBD, 0x1FBD), (0x1FBF, 0x1FC1), (0x1FCD, 0x1FCF), (0x1FDD, 0x1FDF), (0x1FED, 0x1FEF),
   (0x1FFD, 0x1FFE), (0x200B, 0x200F), (0x2018, 0x2019), (0x2024, 0x2024), (0x2027, 0x2027),
   (0x202A, 0x202E), (0x2060, 0x2064), (0x2066, 0x206F), (0x2071, 0x2071), (0x207F, 0x207F),
   (0x2090, 0x209C), (0x20D0, 0x20F0), (0x2C7C, 0x2C7D), (0x2CEF, 0x2CF1), (0x2D6F, 0x2D6F),
   (0x2D7F, 0x2D7F), (0x2DE0, 0x2DFF), (0x2E2F, 0x2E2F), (0x3005, 0x3005), (0x302A, 0x302D),
   (0x3031, 0x3035), (0x303B, 0x303B), (0x3099, 0x309E), (0x30FC, 0x30FE), (0xA015, 0xA015),
   (0xA4F8, 0xA4FD), (0xA60C, 0xA60C), (0xA66F, 0xA672), (0xA674, 0xA67D), (0xA67F, 0xA67F),
   (0xA69C, 0xA69F), (0xA6F0, 0xA6F1), (0xA700, 0xA721), (0xA770, 0xA770), (0xA788, 0xA78A),
   (0xA7F2, 0xA7F4), (0xA7F8, 0xA7F9), (0xA802, 0xA802), (0xA806, 0xA806), (0xA80B, 0xA80B),
   (0xA825, 0xA826), (0xA82C, 0xA82C), (0xA8C4, 0xA8C5), (0xA8E0, 0xA8F1), (0xA8FF, 0xA8FF),
   (0xA926, 0xA92D), (0xA947, 0xA951), (0xA980, 0xA982), (0xA9B3, 0xA9B3), (0xA9B6, 0xA9B9),
   (0xA9BC, 0xA9BD), (0xA9CF, 0xA9CF), (0xA9E5, 0xA9E6), (0xAA29, 0xAA2E), (0xAA31, 0xAA32),
   (0xAA35, 0xAA36), (0xAA43, 0xAA43), (0xAA4C, 0xAA4C), (0xAA70, 0xAA70), (0xAA7C, 0xAA7C),
   (0xAAB0, 0xAAB0), (0xAAB2, 0xAAB4), (0xAAB7, 0xAAB8), (0xAABE, 0xAABF), (0xAAC1, 0xAAC1),
   (0xAADD, 0xAADD), (0xAAEC, 0xAAED), (0xAAF3, 0xAAF4), (0xAAF6, 0xAAF6), (0xAB5B, 0xAB5F),
   (0xAB69, 0xAB6B), (0xABE5, 0xABE5), (0xABE8, 0xABE8), (0xABED, 0xABED), (0xFB1E, 0xFB1E),
   (0xFBB2, 0xFBC2), (0xFE00, 0xFE0F), (0xFE13, 0xFE13), (0xFE20, 0xFE2F), (0xFE52, 0xFE52),
   (0xFE55, 0xFE55), (0xFEFF, 0xFEFF), (0xFF07, 0xFF07), (0xFF0E, 0xFF0E), (0xFF1A, 0xFF1A),
   (0xFF3E, 0xFF3E), (0xFF40, 0xFF40), (0xFF70, 0xFF70), (0xFF9E, 0xFF9F), (0xFFE3, 0xFFE3),
   (0xFFF9, 0xFFFB), (0x101FD, 0x101FD), (0x102E0, 0x102E0), (0x10376, 0x1037A),
   (0x10780, 0x10785), (0x10787, 0x107B0), (0x107B2, 0x107BA), (0x10A01, 0x10A03),
   (0x10A05, 0x10A06), (0x10A0C, 0x10A0F), (0x10A38, 0x10A3A), (0x10A3F, 0x10A3F),
   (0x10AE5, 0x10AE6), (0x10D24, 0x10D27), (0x10EAB, 0x10EAC), (0x10F46, 0x10F50),
   (0x10F82, 0x10F85), (0x11001, 0x11001), (0x11038, 0x11046), (0x11070, 0x11070),
   (0x11073, 0x11074), (0x1107F, 0x11081), (0x110B3, 0x110B6), (0x110B9, 0x110BA),
   (0x110BD, 0x110BD), (0x110C2, 0x110C2), (0x110CD, 0x110CD), (0x11100, 0x11102),
   (0x11127, 0x1112B), (0x1112D, 0x11134), (0x11173, 0x11173), (0x11180, 0x11181),
   (0x111B6, 0x111BE), (0x111C9, 0x111CC), (0x111CF, 0x111CF), (0x1122F, 0x11231),
   (0x11234, 0x11234), (0x11236, 0x11237), (0x1123E, 0x1123E), (0x112DF, 0x112DF),
   (0x112E3, 0x112EA), (0x11300, 0x11301), (0x1133B, 0x1133C), (0x11340, 0x11340),
   (0x11366, 0x1136C), (0x11370, 0x11374), (0x11438, 0x1143F), (0x11442, 0x11444),
   (0x11446, 0x11446), (0x1145E, 0x1145E), (0x114B3, 0x114B8), (0x114BA, 0x114BA),
   (0x114BF, 0x114C0), (0x114C2, 0x114C3), (0x115B2, 0x115B5), (0x115BC, 0x115BD),
   (0x115BF, 0x115C0), (0x115DC, 0x115DD), (0x11633, 0x1163A), (0x1163D, 0x1163D),
   (0x1163F, 0x11640), (0x116AB, 0x116AB), (0x116AD, 0x116AD), (0x116B0, 0x116B5),
   (0x116B7, 0x116B7), (0x1171D, 0x1171F), (0x11722, 0x11725), (0x11727, 0x1172B),
   (0x1182F, 0x11837), (0x11839, 0x1183A), (0x1193B, 0x1193C), (0x1193E, 0x1193E),
   (0x11943, 0x11943), (0x119D4, 0x119D7), (0x119DA, 0x119DB), (0x119E0, 0x119E0),
   (0x11A01, 0x11A0A), (0x11A33, 0x11A38), (0x11A3B, 0x11A3E), (0x11A47, 0x11A47),
   (0x11A51, 0x11A56), (0x11A59, 0x11A5B), (0x11A8A, 0x11A96), (0x11A98, 0x11A99),
   (0x11C30, 0x11C36), (0x11C38, 0x11C3D), (0x11C3F, 0x11C3F), (0x11C92, 0x11CA7),
   (0x11CAA, 0x11CB0), (0x11CB2, 0x11CB3), (0x11CB5, 0x11CB6), (0x11D31, 0x11D36),
   (0x11D3A, 0x11D3A), (0x11D3C, 0x11D3D), (0x11D3F, 0x11D45), (0x11D47, 0x11D47),
   (0x11D90, 0x11D91), (0x11D95, 0x11D95), (0x11D97, 0x11D97), (0x11EF3, 0x11EF4),
   (0x13430, 0x13438), (0x16AF0, 0x16AF4), (0x16B30, 0x16B36), (0x16B40, 0x16B43),
   (0x16F4F, 0x16F4F), (0x16F8F, 0x16F9F), (0x16FE0, 0x16FE1), (0x16FE3, 0x16FE4),
   (0x1AFF0, 0x1AFF3), (0x1AFF5, 0x1AFFB), (0x1AFFD, 0x1AFFE), (0x1BC9D, 0x1BC9E),
   (0x1BCA0, 0x1BCA3), (0x1CF00, 0x1CF2D), (0x1CF30, 0x1CF46), (0x1D167, 0x1D169),
   (0x1D173, 0x1D182), (0x1D185, 0x1D18B), (0x1D1AA, 0x1D1AD), (0x1D242, 0x1D244),
   (0x1DA00, 0x1DA36), (0x1DA3B, 0x1DA6C), (0x1DA75, 0x1DA75), (0x1DA84, 0x1DA84),
   (0x1DA9B, 0x1DA9F), (0x1DAA1, 0x1DAAF), (0x1E000, 0x1E006), (0x1E008, 0x1E018),
   (0x1E01B, 0x1E021), (0x1E023, 0x1E024), (0x1E026, 0x1E02A), (0x1E130, 0x1E13D),
   (0x1E2AE, 0x1E2AE), (0x1E2EC, 0x1E2EF), (0x1E8D0, 0x1E8D6), (0x1E944, 0x1E94B),
   (0x1F3FB, 0x1F3FF), (0xE0001, 0xE0001), (0xE0020, 0xE007F), (0xE0100, 0xE01EF)]

/-- The code point lies in one of the ranges. -/
def inRanges (ranges : List (Nat × Nat)) (n : Nat) : Bool :=
  ranges.any (fun r => r.1 ≤ n && n ≤ r.2)

/-- The lower-case mapping of a code point that maps to one code point. -/
def lowerCode (n : Nat) : Nat :=
  if n < 128 then (if 65 ≤ n ∧ n ≤ 90 then n + 32 else n)
  else
    match lowerCaseRanges.find?
      (fun r => r.1 ≤ n && n ≤ r.2.1 && (n - r.1) % r.2.2.1 == 0) with
    | some r => r.2.2.2 + (n - r.1)
    | none => n

/-- The character is case-ignorable. -/
def isCaseIgnorable (c : Char) : Bool := inRanges caseIgnorableRanges c.toNat

/-- The character is cased and not case-ignorable. -/
def isCased (c : Char) : Bool := inRanges casedRanges c.toNat

/-- The context `Final_Sigma` of a capital sigma: `before` holds the
characters before it, the nearest first, and `after` the characters after it.
Going back over case-ignorable characters there is a cased letter, and going
on over case-ignorable characters there is none. -/
def finalSigma (before after : List Char) : Bool :=
  (match before.dropWhile isCaseIgnorable with
    | c :: _ => isCased c
    | [] => false) &&
  (match after.dropWhile isCaseIgnorable with
    | c :: _ => !isCased c
    | [] => true)

/-- The lower-case form of the characters of a string that follow the
characters `before` (the nearest first). -/
def toLowerCaseFrom (before : List Char) : List Char → List Char
  | [] => []
  | c :: rest =>
    (if c.toNat = 0x3A3 then [Char.ofNat (if finalSigma before rest then 0x3C2 else 0x3C3)]
      else if c.toNat = 0x130 then [Char.ofNat 0x69, Char.ofNat 0x307]
      else [Char.ofNat (lowerCode c.toNat)]) ++ toLowerCaseFrom (c :: before) rest

/-- The call `keyword.toLowerCase()`. -/
def toLowerCase (s : String) : String := ⟨toLowerCaseFrom [] s.data⟩

namespace JSON

/-- The lower-case hexadecimal digit of `n < 16`. -/
def hexDigit (n : Nat) : Char := "0123456789abcdef".data.getD n (Char.ofNat 48)

/-- The escape of one character inside a JSON string (`QuoteJSONString`). -/
def escapeChar (c : Char) : List Char :=
  if c = Char.ofNat 8 then [Char.ofNat 92, Char.ofNat 98]
  else if c = Char.ofNat 9 then [Char.ofNat 92, Char.ofNat 116]
  else if c = Char.ofNat 10 then [Char.ofNat 92, Char.ofNat 110]
  else if c = Char.ofNat 12 then [Char.ofNat 92, Char.ofNat 102]
  else if c = Char.ofNat 13 then [Char.ofNat 92, Char.ofNat 114]
  else if c = Char.ofNat 34 then [Char.ofNat 92, Char.ofNat 34]
  else if c = Char.ofNat 92 then [Char.ofNat 92, Char.ofNat 92]
  else if c.toNat < 32 then
    [Char.ofNat 92, Char.ofNat 117, Char.ofNat 48, Char.ofNat 48,
      hexDigit (c.toNat / 16), hexDigit (c.toNat % 16)]
  else [c]

/-- A string in double quotes with its characters escaped. -/
def quote (s : String) : String :=
  ⟨Char.ofNat 34 :: (s.data.flatMap escapeChar ++ [Char.ofNat 34])⟩

/-- The JSON text of a property value; `none` when the property is left out
(its value is `undefined`). -/
def stringifyValue : JsVal → Option String
  | .undefined => none
  | .null => some "null"
  | .bool true => some "true"
  | .bool false => some "false"
  | .num n => some (toString n)
  | .str s => some (quote s)

/-- The JSON text of one property, `"name":value`. -/
def stringifyField (f : String × JsVal) : Option String :=
  (stringifyValue f.2).map (fun v => quote f.1 ++ ":" ++ v)

/-- The call `JSON.stringify(options)` for an options object. -/
def stringify (options : Options) : String :=
  "\x7b" ++ ",".intercalate (options.filterMap stringifyField) ++ "\x7d"

end JSON

/-- The key computed at the head of `processKeyword`:
the lower-cased keyword, an underscore, and the JSON text of the options. -/
def cacheKey (keyword : String) (options : Options) : String :=
  toLowerCase keyword ++ "_" ++ JSON.stringify options

/-! ## The coordinator -/

/-- A value of the `cache` map: `{ data, timestamp }`. -/
structure CacheEntry (ρ : Type) where
  data : ρ
  timestamp : Int
  deriving DecidableEq, Repr

/-- The state of a promise returned by `executeProcessingPipeline`. -/
inductive PromiseState (ρ : Type) where
  | pending
  | fulfilled (result : ρ)
  | rejected (error : String)
  deriving DecidableEq, Repr

/-- One call of `executeProcessingPipeline` together with the activation of
`processKeyword` that made it. `id` identifies the promise; `awaiting` says
that the activation is still suspended at `await processingPromise`. -/
structure Execution (ρ : Type) where
  id : Nat
  cacheKey : String
  keyword : String
  options : Options
  requestId : String
  promise : PromiseState ρ
  awaiting : Bool
  deriving DecidableEq, Repr

/-- The `NewsAggregator` object: its two maps, and the pipeline executions
started so far (an execution sits at the index of its promise id). -/
structure NewsAggregator (ρ : Type) where
  cache : JsMap (CacheEntry ρ)
  processingQueue : JsMap Nat
  executions : List (Execution ρ)
  deriving DecidableEq, Repr

/-- The state built by the constructor. -/
def NewsAggregator.new (ρ : Type) : NewsAggregator ρ := ⟨[], [], []⟩

/-- The cache lifetime, `30 * 60 * 1000` milliseconds. -/
def cacheTTL : Int := 30 * 60 * 1000

/-- What a call of `processKeyword` hands to its caller when it returns or
suspends: cached data, the promise found in `processingQueue`, or the
caller's own promise, which settles as the pipeline promise it started. -/
inductive Returned (ρ : Type) where
  | cached (data : ρ)
  | queued (promise : Nat)
  | started (promise : Nat)
  deriving DecidableEq, Repr

/-- The pipeline promise a caller ends up waiting on, if any. -/
def Returned.promise? {ρ : Type} : Returned ρ → Option Nat
  | .cached _ => none
  | .queued p => some p
  | .started p => some p

/-- The cache check at the head of `processKeyword`: the data of the entry
for `key` when there is one and `Date.now() - cached.timestamp` is below the
lifetime; `now` is the reading of `Date.now()`. -/
def liveEntry {ρ : Type} (s : NewsAggregator ρ) (key : String) (now : Int) : Option ρ :=
  match s.cache.get? key with
  | some cached => if now - cached.timestamp < cacheTTL then some cached.data else none
  | none => none

/-- The part of `processKeyword` that runs until it returns or reaches
`await processingPromise`; `now` is the reading of `Date.now()`. -/
def processKeyword {ρ : Type} (s : NewsAggregator ρ) (keyword : String) (options : Options)
    (requestId : String) (now : Int) : NewsAggregator ρ × Returned ρ :=
  let key := cacheKey keyword options
  match liveEntry s key now with
  | some data => (s, .cached data)
  | none =>
    match s.processingQueue.get? key with
    | some promise => (s, .queued promise)
    | none =>
      let promise := s.executions.length
      ({ s with
          processingQueue := s.processingQueue.set key promise
          executions := s.executions ++
            [⟨promise, key, keyword, options, requestId, .pending, true⟩] },
        .started promise)

/-- The settled state of a promise that ends with `outcome`. -/
def PromiseState.ofOutcome {ρ : Type} : Except String ρ → PromiseState ρ
  | .ok result => .fulfilled result
  | .error err => .rejected err

/-- The execution `x` after promise `promise` has settled as `settled`. -/
def Execution.settle {ρ : Type} (promise : Nat) (settled : PromiseState ρ) (x : Execution ρ) :
    Execution ρ :=
  if x.id = promise then { x with promise := settled } else x

/-- The execution `x` after the activation that awaited `promise` has run on. -/
def Execution.finish {ρ : Type} (promise : Nat) (x : Execution ρ) : Execution ρ :=
  if x.id = promise then { x with awaiting := false } else x

/-- The promise of execution `promise`, still pending, settles with `outcome`:
the pipeline run is over. -/
def settlePipeline {ρ : Type} (s : NewsAggregator ρ) (promise : Nat)
    (outcome : Except String ρ) : Option (NewsAggregator ρ) :=
  match s.executions[promise]? with
  | some e =>
    match e.promise with
    | .pending =>
      some { s with
        executions := s.executions.map (Execution.settle promise (.ofOutcome outcome)) }
    | _ => none
  | none => none

/-- The rest of `processKeyword` after `await processingPromise`: on success
the cache entry is written and the result returned, on failure the error is
rethrown, and in both cases the `finally` block deletes the queue entry.
`now` is the reading of `Date.now()`. -/
def resumeProcessKeyword {ρ : Type} (s : NewsAggregator ρ) (promise : Nat) (now : Int) :
    Option (NewsAggregator ρ × Except String ρ) :=
  match s.executions[promise]? with
  | some e =>
    if e.awaiting then
      match e.promise with
      | .pending => none
      | .fulfilled result =>
        some ({ cache := s.cache.set e.cacheKey ⟨result, now⟩
                processingQueue := s.processingQueue.delete e.cacheKey
                executions := s.executions.map (Execution.finish promise) }, .ok result)
      | .rejected err =>
        some ({ cache := s.cache
                processingQueue := s.processingQueue.delete e.cacheKey
                executions := s.executions.map (Execution.finish promise) }, .error err)
    else none
  | none => none

/-- The method `clearCache()`. -/
def clearCache {ρ : Type} (s : NewsAggregator ρ) : NewsAggregator ρ :=
  { s with cache := s.cache.clear }

/-- The object returned by `getCacheStats()`. -/
structure CacheStats where
  size : Nat
  queueSize : Nat
  keys : List String
  deriving DecidableEq, Repr

/-- The method `getCacheStats()`. -/
def getCacheStats {ρ : Type} (s : NewsAggregator ρ) : CacheStats :=
  { size := s.cache.size, queueSize := s.processingQueue.size, keys := s.cache.keys }

/-- What can happen to the coordinator. -/
inductive Event (ρ : Type) where
  | call (keyword : String) (options : Options) (requestId : String) (now : Int)
  | settle (promise : Nat) (outcome : Except String ρ)
  | resume (promise : Nat) (now : Int)
  | clear

/-- One transition; `none` when the event cannot happen in `s`. -/
def step {ρ : Type} (s : NewsAggregator ρ) : Event ρ → Option (NewsAggregator ρ)
  | .call keyword options requestId now => some (processKeyword s keyword options requestId now).1
  | .settle promise outcome => settlePipeline s promise outcome
  | .resume promise now => (resumeProcessKeyword s promise now).map Prod.fst
  | .clear => some (clearCache s)

/-- The states the coordinator can be in: those reached from the constructor
by any sequence of events. -/
inductive Reachable {ρ : Type} : NewsAggregator ρ → Prop where
  | init : Reachable (NewsAggregator.new ρ)
  | next {s s' : NewsAggregator ρ} (e : Event ρ) : Reachable s → step s e = some s' → Reachable s'

/-- Running a list of events in order. -/
def run {ρ : Type} (s : NewsAggregator ρ) : List (Event ρ) → Option (NewsAggregator ρ)
  | [] => some s
  | e :: es => (step s e).bind (fun s' => run s' es)

/-- The state after `processKeyword` has started a pipeline execution. -/
def startedState {ρ : Type} (s : NewsAggregator ρ) (keyword : String) (options : Options)
    (requestId : String) : NewsAggregator ρ :=
  { cache := s.cache
    processingQueue := s.processingQueue.set (cacheKey keyword options) s.executions.length
    executions := s.executions ++
      [⟨s.executions.length, cacheKey keyword options, keyword, options, requestId,
        .pending, true⟩] }

/-- A batch of calls of `processKeyword` with the same keyword and options,
made one after the other with nothing in between; each call brings its request
id and its clock reading. The results are listed in call order. -/
def processKeywordAll {ρ : Type} (s : NewsAggregator ρ) (keyword : String) (options : Options) :
    List (String × Int) → NewsAggregator ρ × List (Returned ρ)
  | [] => (s, [])
  | (requestId, now) :: rest =>
    let r := processKeyword s keyword options requestId now
    let rs := processKeywordAll r.1 keyword options rest
    (rs.1, r.2 :: rs.2)

/-! ## The pipeline -/

/-- The stages of `executeProcessingPipeline`. -/
inductive Stage where
  | fetch
  | summarize
  | sentiment
  | present
  deriving DecidableEq, Repr

/-- An article as built by the provider adapters of `CrawlerAgent`. -/
structure Article where
  id : JsVal
  title : JsVal
  description : JsVal
  content : JsVal
  url : JsVal
  source : JsVal
  author : JsVal
  publishedAt : JsVal
  urlToImage : JsVal
  sourceType : JsVal
  deriving DecidableEq, Repr

/-- The object returned by `PresenterAgent.formatResults`, with the types of
its parts left open. -/
structure Presentation (σ α τ ν ι μ : Type) where
  summary : σ
  articles : α
  statistics : τ
  sentiment : ν
  insights : ι
  metadata : μ

/-- The object returned by `executeProcessingPipeline`. -/
structure Report (σ α τ ν : Type) where
  keyword : String
  requestId : String
  timestamp : String
  summary : σ
  articles : α
  statistics : τ
  sentiment : ν
  deriving DecidableEq, Repr

/-- The four agents as `executeProcessingPipeline` sees them: each method
either returns a value or throws an error with a message. `fetchNews` may
return a missing list (`none`, for `null` or `undefined`). `A` and `B` are the
types of the summarised and of the scored articles. -/
structure Agents (A B σ α τ ν ι μ : Type) where
  fetchNews : String → Options → Except String (Option (List Article))
  summarizeArticles : List Article → String → Except String A
  analyzeSentiment : A → String → Except String B
  formatResults : B → String → String → Except String (Presentation σ α τ ν ι μ)

/-- The method `executeProcessingPipeline(keyword, options, requestId)`: the stages that
were invoked, in order, and the result or the error thrown. `isoNow` is the
value of `new Date().toISOString()` at the end of the run. -/
def executeProcessingPipeline {A B σ α τ ν ι μ : Type} (agents : Agents A B σ α τ ν ι μ)
    (keyword : String) (options : Options) (requestId : String) (isoNow : String) :
    List Stage × Except String (Report σ α τ ν) :=
  match agents.fetchNews keyword options with
  | .error err => ([.fetch], .error err)
  | .ok none => ([.fetch], .error "No articles found for the given keyword")
  | .ok (some articles) =>
    if articles.length = 0 then
      ([.fetch], .error "No articles found for the given keyword")
    else
      match agents.summarizeArticles articles requestId with
      | .error err => ([.fetch, .summarize], .error err)
      | .ok summarizedArticles =>
        match agents.analyzeSentiment summarizedArticles requestId with
        | .error err => ([.fetch, .summarize, .sentiment], .error err)
        | .ok articlesWithSentiment =>
          match agents.formatResults articlesWithSentiment keyword requestId with
          | .error err => ([.fetch, .summarize, .sentiment, .present], .error err)
          | .ok presentation =>
            ([.fetch, .summarize, .sentiment, .present],
              .ok { keyword := keyword
                    requestId := requestId
                    timestamp := isoNow
                    summary := presentation.summary
                    articles := presentation.articles
                    statistics := presentation.statistics
                    sentiment := presentation.sentiment })

/-- Agents whose crawler finds nothing, for a concrete run of the pipeline. -/
def noArticlesAgents : Agents Unit Unit Unit Unit Unit Unit Unit Unit where
  fetchNews := fun _ _ => .ok (some [])
  summarizeArticles := fun _ _ => .ok ()
  analyzeSentiment := fun _ _ => .ok ()
  formatResults := fun _ _ _ => .ok ⟨(), (), (), (), (), ()⟩

/-! ## The fetch stage -/

/-- The identity key of `removeDuplicates`: `article.url || article.id`. -/
def identityKey (article : Article) : JsVal := article.url.or article.id

/-- The `filter` of `removeDuplicates`, with the set `seen` of the keys met so
far. -/
def removeDuplicatesFrom (seen : List JsVal) : List Article → List Article
  | [] => []
  | article :: rest =>
    if seen.contains (identityKey article) then removeDuplicatesFrom seen rest
    else article :: removeDuplicatesFrom (identityKey article :: seen) rest

/-- The method `removeDuplicates(articles)`. -/
def removeDuplicates (articles : List Article) : List Article :=
  removeDuplicatesFrom [] articles

/-- The value of `new Date(b.publishedAt) - new Date(a.publishedAt)`, with
`none` for `NaN`. `time` is the runtime's reading of a publication date in
milliseconds, `none` when the date is invalid. -/
def compareByDate (time : JsVal → Option Int) (a b : Article) : Option Int :=
  match time b.publishedAt, time a.publishedAt with
  | some tb, some ta => some (tb - ta)
  | _, _ => none

/-- The comparator does not ask for `b` before `a`: its value is not positive
(`NaN` counts as zero). -/
def keepsOrder (time : JsVal → Option Int) (a b : Article) : Bool :=
  match compareByDate time a b with
  | some d => decide (d ≤ 0)
  | none => true

/-- The value of a comparator as `sort` reads it: `NaN` (`none`) counts as
zero. -/
def comparison {α : Type} (compare : α → α → Option Int) (a b : α) : Int :=
  (compare a b).getD 0

/-- The comparator does not ask for `b` before `a`: its value is not positive. -/
def notAfter {α : Type} (compare : α → α → Option Int) (a b : α) : Bool :=
  decide (comparison compare a b ≤ 0)

/-- The comparator is a consistent comparator for the elements of the list, in
the words of the language specification: every element equals itself, equality
is symmetric and transitive, and so are `less than` and `greater than`. -/
def Consistent {α : Type} (compare : α → α → Option Int) (l : List α) : Prop :=
  (∀ a ∈ l, comparison compare a a = 0) ∧
  (∀ a ∈ l, ∀ b ∈ l, comparison compare a b = 0 → comparison compare b a = 0) ∧
  (∀ a ∈ l, ∀ b ∈ l, ∀ c ∈ l, comparison compare a b = 0 → comparison compare b c = 0 →
    comparison compare a c = 0) ∧
  (∀ a ∈ l, ∀ b ∈ l, ∀ c ∈ l, comparison compare a b < 0 → comparison compare b c < 0 →
    comparison compare a c < 0) ∧
  (∀ a ∈ l, ∀ b ∈ l, ∀ c ∈ l, 0 < comparison compare a b → 0 < comparison compare b c →
    0 < comparison compare a c)

/-- The method `Array.prototype.sort` of the runtime, with what the language
specification says of it: the result holds the elements of the array, and for
a consistent comparator it is the stable sorted order, which is the one that
an insertion sort gives. For a comparator that is not consistent the order is
left to the runtime. -/
structure ArraySort where
  sort : {α : Type} → (α → α → Option Int) → List α → List α
  perm : ∀ {α : Type} (compare : α → α → Option Int) (l : List α), (sort compare l).Perm l
  stable : ∀ {α : Type} (compare : α → α → Option Int) (l : List α), Consistent compare l →
    sort compare l = l.insertionSort (fun a b => notAfter compare a b = true)

/-- A runtime whose sort is an insertion sort, for concrete runs. -/
def ArraySort.insertion : ArraySort where
  sort := fun compare l => l.insertionSort (fun a b => notAfter compare a b = true)
  perm := fun _ _ => List.perm_insertionSort _ _
  stable := fun _ _ _ => rfl

/-- The call `articles.sort((a, b) => new Date(b.publishedAt) - new
Date(a.publishedAt))`: newest first when the dates are valid. When some date
is invalid the comparator need not be consistent. -/
def sortByDate (engine : ArraySort) (time : JsVal → Option Int) (articles : List Article) :
    List Article :=
  engine.sort (compareByDate time) articles

/-- The call `articles.slice(0, pageSize)` for an integer `pageSize`. -/
def sliceTo (articles : List Article) (pageSize : Int) : List Article :=
  if pageSize < 0 then articles.take (articles.length + pageSize).toNat
  else articles.take pageSize.toNat

/-- The options object as `fetchNews` destructures it; `undefined` stands for
an absent property, and `pageSize` is an integer or absent. -/
structure FetchOptions where
  language : JsVal := .undefined
  sortBy : JsVal := .undefined
  pageSize : Option Int := none
  fromDate : JsVal := .undefined
  toDate : JsVal := .undefined
  deriving DecidableEq, Repr

/-- The options passed to `fetchFromNewsAPI`. -/
structure NewsApiOptions where
  language : JsVal
  sortBy : JsVal
  pageSize : Int
  fromDate : JsVal
  toDate : JsVal
  deriving DecidableEq, Repr

/-- The options passed to `fetchFromGuardian` and `fetchFromNYT`. -/
structure DateRange where
  fromDate : JsVal
  toDate : JsVal
  deriving DecidableEq, Repr

/-- An element of the array produced by `Promise.allSettled`: a fulfilled
promise with its value, which is an array or, written `none`, `null` or
`undefined` (an adapter returns an array or throws), or a rejected promise
with its reason. -/
inductive Settled where
  | fulfilled (value : Option (List Article))
  | rejected (reason : String)
  deriving DecidableEq, Repr

/-- The crawler: its three credentials, and the way each adapter call ends. -/
structure CrawlerAgent where
  newsApiKey : JsVal
  guardianApiKey : JsVal
  nytApiKey : JsVal
  fetchFromNewsAPI : String → NewsApiOptions → Settled
  fetchFromGuardian : String → DateRange → Settled
  fetchFromNYT : String → DateRange → Settled

/-- A destructuring default: the default replaces `undefined` only. -/
def orDefault (v d : JsVal) : JsVal :=
  match v with
  | .undefined => d
  | _ => v

/-- The body of the `forEach` over the settled results. -/
def collect (allArticles : List Article) (result : Settled) : List Article :=
  match result with
  | .fulfilled (some value) => allArticles ++ value
  | _ => allArticles

/-- The method `fetchNews(keyword, options)`. `weekAgo` and `today` are the values of
`getDateDaysAgo(7)` and of today's date, `time` reads publication dates. -/
def fetchNews (agent : CrawlerAgent) (engine : ArraySort) (time : JsVal → Option Int)
    (weekAgo today : String)
    (keyword : String) (options : FetchOptions) : Except String (List Article) :=
  let language := orDefault options.language (.str "en")
  let sortBy := orDefault options.sortBy (.str "publishedAt")
  let pageSize := options.pageSize.getD 20
  let fromDate := orDefault options.fromDate (.str weekAgo)
  let toDate := orDefault options.toDate (.str today)
  let promises : List Settled :=
    (if agent.newsApiKey.truthy then
      [agent.fetchFromNewsAPI keyword ⟨language, sortBy, pageSize, fromDate, toDate⟩] else []) ++
    (if agent.guardianApiKey.truthy then
      [agent.fetchFromGuardian keyword ⟨fromDate, toDate⟩] else []) ++
    (if agent.nytApiKey.truthy then
      [agent.fetchFromNYT keyword ⟨fromDate, toDate⟩] else [])
  let allArticles := promises.foldl collect []
  let uniqueArticles := removeDuplicates allArticles
  let sortedArticles := sortByDate engine time uniqueArticles
  .ok (sliceTo sortedArticles pageSize)

/-- The lists that reach the merge, in the order NewsAPI, Guardian, NYT: the
value of a settled result that is fulfilled with a list, nothing for any
other result. -/
def fulfilledArticles : Settled → List Article
  | .fulfilled (some value) => value
  | _ => []

/-- The concatenation, in the order NewsAPI, Guardian, NYT, of the lists of
the enabled adapters that succeeded, for the adapter calls `fetchNews` makes. -/
def mergedArticles (agent : CrawlerAgent) (weekAgo today : String) (keyword : String)
    (options : FetchOptions) : List Article :=
  let fromDate := orDefault options.fromDate (.str weekAgo)
  let toDate := orDefault options.toDate (.str today)
  (if agent.newsApiKey.truthy then
    fulfilledArticles (agent.fetchFromNewsAPI keyword
      ⟨orDefault options.language (.str "en"), orDefault options.sortBy (.str "publishedAt"),
        options.pageSize.getD 20, fromDate, toDate⟩)
   else []) ++
  (if agent.guardianApiKey.truthy then
    fulfilledArticles (agent.fetchFromGuardian keyword ⟨fromDate, toDate⟩) else []) ++
  (if agent.nytApiKey.truthy then
    fulfilledArticles (agent.fetchFromNYT keyword ⟨fromDate, toDate⟩) else [])

/-! ## The callers of `processKeyword` -/

/-- The white space and line terminators removed by `String.prototype.trim`. -/
def isWhiteSpace (c : Char) : Bool :=
  c.toNat = 0x09 || c.toNat = 0x0A || c.toNat = 0x0B || c.toNat = 0x0C || c.toNat = 0x0D ||
  c.toNat = 0x20 || c.toNat = 0xA0 || c.toNat = 0x1680 ||
  (0x2000 ≤ c.toNat && c.toNat ≤ 0x200A) ||
  c.toNat = 0x2028 || c.toNat = 0x2029 || c.toNat = 0x202F || c.toNat = 0x205F ||
  c.toNat = 0x3000 || c.toNat = 0xFEFF

/-- The call `keyword.trim()`. -/
def trim (s : String) : String :=
  ⟨((s.data.dropWhile isWhiteSpace).reverse.dropWhile isWhiteSpace).reverse⟩

/-- The cache key of the call `newsAggregator.processKeyword(keyword.trim(),
options)` made by the `/search` route and by the socket handler. -/
def routeCacheKey (keyword : String) (options : Options) : String :=
  cacheKey (trim keyword) options

/-! ## The invariant of the coordinator -/

/-- What holds in every reachable state: the execution at index `i` has
promise id `i`; an execution whose activation is still suspended owns the
queue entry of its key; a pending execution has its activation suspended. -/
structure Invariant {ρ : Type} (s : NewsAggregator ρ) : Prop where
  atIndex : ∀ (i : Nat) (e : Execution ρ), s.executions[i]? = some e → e.id = i
  queued : ∀ e ∈ s.executions, e.awaiting = true →
    s.processingQueue.get? e.cacheKey = some e.id
  suspended : ∀ e ∈ s.executions, e.promise = .pending → e.awaiting = true

/-! ## Numbers and parsed JSON -/

/-- The rounding of double-precision arithmetic: `rd x` is the double nearest
to the exact value `x`. What is used of it is that it is monotone and leaves
integers of magnitude up to `2 ^ 53` as they are. -/
structure Float64 where
  rd : ℚ → ℚ
  rd_mono : ∀ x y : ℚ, x ≤ y → rd x ≤ rd y
  rd_int : ∀ z : ℤ, |z| ≤ 2 ^ 53 → rd z = z

namespace Float64

/-- Arithmetic without rounding error. -/
def exact : Float64 where
  rd := fun x => x
  rd_mono := fun _ _ h => h
  rd_int := fun _ _ => rfl

/-- The quotient `a / b` of two doubles. -/
def div (F : Float64) (a b : ℚ) : ℚ := F.rd (a / b)

/-- The product `a * b` of two doubles. -/
def mul (F : Float64) (a b : ℚ) : ℚ := F.rd (a * b)

/-- The sum `a + b` of two doubles. -/
def add (F : Float64) (a b : ℚ) : ℚ := F.rd (a + b)

end Float64

/-- Rounding to the nearest integer, a tie going to the even one. -/
def roundHalfEven (x : ℚ) : ℤ :=
  if x - ⌊x⌋ < 1 / 2 then ⌊x⌋
  else if 1 / 2 < x - ⌊x⌋ then ⌊x⌋ + 1
  else if ⌊x⌋ % 2 = 0 then ⌊x⌋
  else ⌊x⌋ + 1

/-- The double nearest to a positive value `x`: with `2 ^ e ≤ x < 2 ^ (e + 1)`
the doubles around `x` are the multiples of `2 ^ (e - 52)`, and `x` goes to
the nearest one, a tie to the one with an even multiplier. -/
def doubleOfPositive (x : ℚ) : ℚ :=
  roundHalfEven (x / 2 ^ (Int.log 2 x - 52)) * 2 ^ (Int.log 2 x - 52)

/-- The arithmetic of IEEE 754 doubles, rounding to nearest with ties to even,
for values in the range of the normal doubles (overflow and gradual underflow
are left aside). -/
def Float64.double : Float64 where
  rd := fun x => if x = 0 then 0 else if 0 < x then doubleOfPositive x else -doubleOfPositive (-x)
  rd_mono := by
    have rne_int : ∀ z : ℤ, roundHalfEven (z : ℚ) = z := fun z => by simp [roundHalfEven]
    have rne_bounds : ∀ a : ℚ, ⌊a⌋ ≤ roundHalfEven a ∧ roundHalfEven a ≤ ⌊a⌋ + 1 := by
      intro a
      unfold roundHalfEven
      split_ifs <;> constructor <;> omega
    have rne_mono : ∀ a b : ℚ, a ≤ b → roundHalfEven a ≤ roundHalfEven b := by
      intro a b h
      have hf : ⌊a⌋ ≤ ⌊b⌋ := Int.floor_mono h
      rcases lt_or_eq_of_le hf with hlt | heq
      · have h1 := (rne_bounds a).2
        have h2 := (rne_bounds b).1
        omega
      · unfold roundHalfEven
        rw [heq]
        have hab : a - (⌊b⌋ : ℚ) ≤ b - (⌊b⌋ : ℚ) := by linarith
        split_ifs <;> first | omega | (exfalso; linarith)
    have log_bounds : ∀ x : ℚ, 0 < x →
        (2 : ℚ) ^ (Int.log 2 x) ≤ x ∧ x < (2 : ℚ) ^ (Int.log 2 x + 1) := by
      intro x hx
      have h1 := Int.zpow_log_le_self (b := 2) (r := x) (by norm_num) hx
      have h2 := Int.lt_zpow_succ_log_self (b := 2) (by norm_num) x
      simp only [Nat.cast_ofNat] at h1 h2
      exact ⟨h1, h2⟩
    have split52 : ∀ e : ℤ, (2 : ℚ) ^ e = 2 ^ (52 : ℕ) * 2 ^ (e - 52) := by
      intro e
      rw [← zpow_natCast, ← zpow_add₀ (by norm_num)]
      congr 1
      omega
    have split53 : ∀ e : ℤ, (2 : ℚ) ^ (e + 1) = 2 ^ (53 : ℕ) * 2 ^ (e - 52) := by
      intro e
      rw [← zpow_natCast, ← zpow_add₀ (by norm_num)]
      congr 1
      omega
    have dpos_bounds : ∀ x : ℚ, 0 < x →
        (2 : ℚ) ^ (Int.log 2 x) ≤ doubleOfPositive x ∧
        doubleOfPositive x ≤ (2 : ℚ) ^ (Int.log 2 x + 1) := by
      intro x hx
      obtain ⟨h1, h2⟩ := log_bounds x hx
      have hq : (0 : ℚ) < 2 ^ (Int.log 2 x - 52) := zpow_pos (by norm_num) _
      have s1 : (2 : ℚ) ^ (52 : ℕ) ≤ x / 2 ^ (Int.log 2 x - 52) := by
        rw [le_div_iff₀ hq, ← split52]
        exact h1
      have s2 : x / 2 ^ (Int.log 2 x - 52) ≤ (2 : ℚ) ^ (53 : ℕ) := by
        rw [div_le_iff₀ hq, ← split53]
        exact h2.le
      have r1 : ((2 ^ 52 : ℤ) : ℚ) ≤ roundHalfEven (x / 2 ^ (Int.log 2 x - 52)) := by
        have := rne_mono ((2 ^ 52 : ℤ) : ℚ) _ (by push_cast; exact s1)
        rw [rne_int] at this
        exact_mod_cast this
      have r2 : (roundHalfEven (x / 2 ^ (Int.log 2 x - 52)) : ℚ) ≤ ((2 ^ 53 : ℤ) : ℚ) := by
        have := rne_mono _ ((2 ^ 53 : ℤ) : ℚ) (by push_cast; exact s2)
        rw [rne_int] at this
        exact_mod_cast this
      unfold doubleOfPositive
      constructor
      · rw [split52]
        push_cast at r1
        exact mul_le_mul_of_nonneg_right r1 hq.le
      · rw [split53]
        push_cast at r2
        exact mul_le_mul_of_nonneg_right r2 hq.le
    have dpos_pos : ∀ x : ℚ, 0 < x → 0 < doubleOfPositive x := fun x hx =>
      lt_of_lt_of_le (zpow_pos (by norm_num) _) (dpos_bounds x hx).1
    have dpos_mono : ∀ x y : ℚ, 0 < x → x ≤ y → doubleOfPositive x ≤ doubleOfPositive y := by
      intro x y hx h
      have hy : 0 < y := lt_of_lt_of_le hx h
      have hlog : Int.log 2 x ≤ Int.log 2 y := Int.log_mono_right hx h
      rcases lt_or_eq_of_le hlog with hlt | heq
      · have b1 := (dpos_bounds x hx).2
        have b2 := (dpos_bounds y hy).1
        have : (2 : ℚ) ^ (Int.log 2 x + 1) ≤ 2 ^ (Int.log 2 y) :=
          zpow_le_zpow_right₀ (by norm_num) (by omega)
        linarith
      · unfold doubleOfPositive
        rw [heq]
        have hq : (0 : ℚ) < 2 ^ (Int.log 2 y - 52) := zpow_pos (by norm_num) _
        have := rne_mono (x / 2 ^ (Int.log 2 y - 52)) (y / 2 ^ (Int.log 2 y - 52))
          (div_le_div_of_nonneg_right h hq.le)
        exact mul_le_mul_of_nonneg_right (by exact_mod_cast this) hq.le
    intro x y h
    rcases lt_trichotomy x 0 with hx | hx | hx <;> rcases lt_trichotomy y 0 with hy | hy | hy
    · have a : ¬ x = 0 := ne_of_lt hx
      have b : ¬ 0 < x := not_lt.mpr hx.le
      have c : ¬ y = 0 := ne_of_lt hy
      have d : ¬ 0 < y := not_lt.mpr hy.le
      simp only [a, b, c, d, if_false]
      have := dpos_mono (-y) (-x) (by linarith) (by linarith)
      linarith
    · have a : ¬ x = 0 := ne_of_lt hx
      have b : ¬ 0 < x := not_lt.mpr hx.le
      simp only [a, b, hy, if_false, if_true]
      have := dpos_pos (-x) (by linarith)
      linarith
    · have a : ¬ x = 0 := ne_of_lt hx
      have b : ¬ 0 < x := not_lt.mpr hx.le
      have c : ¬ y = 0 := ne_of_gt hy
      simp only [a, b, c, hy, if_false, if_true]
      have := dpos_pos (-x) (by linarith)
      have := dpos_pos y hy
      linarith
    · exfalso; linarith
    · simp [hx, hy]
    · have c : ¬ y = 0 := ne_of_gt hy
      simp only [hx, c, hy, if_false, if_true]
      exact (dpos_pos y hy).le
    · exfalso; linarith
    · exfalso; linarith
    · have a : ¬ x = 0 := ne_of_gt hx
      have c : ¬ y = 0 := ne_of_gt hy
      simp only [a, c, hx, hy, if_false, if_true]
      exact dpos_mono x y hx h
  rd_int := by
    have rne_int : ∀ z : ℤ, roundHalfEven (z : ℚ) = z := fun z => by simp [roundHalfEven]
    have dpos_int : ∀ n : ℤ, 0 < n → n ≤ 2 ^ 53 → doubleOfPositive (n : ℚ) = n := by
      intro n hn hle
      have hx : (0 : ℚ) < n := by exact_mod_cast hn
      have h1 : (2 : ℚ) ^ (Int.log 2 (n : ℚ)) ≤ n := by
        have := Int.zpow_log_le_self (b := 2) (r := (n : ℚ)) (by norm_num) hx
        simpa using this
      have he0 : 0 ≤ Int.log 2 (n : ℚ) :=
        (Int.zpow_le_iff_le_log (b := 2) (by norm_num) (x := 0) hx).mp (by
          simp only [zpow_zero]
          exact_mod_cast hn)
      have he53 : Int.log 2 (n : ℚ) < 54 :=
        (Int.lt_zpow_iff_log_lt (b := 2) (by norm_num) (x := 54) hx).mp (by
          have : (n : ℚ) ≤ 2 ^ 53 := by exact_mod_cast hle
          norm_num at this ⊢
          linarith)
      unfold doubleOfPositive
      rcases lt_or_le (Int.log 2 (n : ℚ)) 53 with hlt | hge
      · obtain ⟨k, hk⟩ : ∃ k : ℕ, Int.log 2 (n : ℚ) - 52 = -(k : ℤ) :=
          ⟨(52 - Int.log 2 (n : ℚ)).toNat, by omega⟩
        rw [hk, zpow_neg, zpow_natCast, div_inv_eq_mul]
        have : (n : ℚ) * 2 ^ k = ((n * 2 ^ k : ℤ) : ℚ) := by push_cast; ring
        rw [this, rne_int]
        push_cast
        field_simp
      · have he : Int.log 2 (n : ℚ) = 53 := by omega
        rw [he] at h1
        have hn53 : n = 2 ^ 53 := by
          have h' : ((2 ^ 53 : ℤ) : ℚ) ≤ n := by
            norm_num at h1 ⊢
            exact h1
          have : (2 ^ 53 : ℤ) ≤ n := by exact_mod_cast h'
          omega
        rw [he, hn53]
        norm_num [roundHalfEven]
    intro z h
    have hb := abs_le.mp h
    rcases lt_trichotomy z 0 with hz | hz | hz
    · have a : ¬ (z : ℚ) = 0 := by exact_mod_cast ne_of_lt hz
      have b : ¬ (0 : ℚ) < z := by exact_mod_cast not_lt.mpr hz.le
      simp only [a, b, if_false]
      have := dpos_int (-z) (by omega) (by omega)
      push_cast at this
      rw [this]
      ring
    · simp [hz]
    · have a : ¬ (z : ℚ) = 0 := by exact_mod_cast ne_of_gt hz
      have c : (0 : ℚ) < z := by exact_mod_cast hz
      simp only [a, c, if_false, if_true]
      exact dpos_int z hz (by omega)

/-- The function `Math.round`: the nearest integer, a tie going up. -/
def Math.round (x : ℚ) : ℤ := ⌊x + 1 / 2⌋

/-- A value produced by `JSON.parse`, or written as a literal in a result
object. -/
inductive Json where
  | null
  | bool (b : Bool)
  | num (q : ℚ)
  | str (s : String)
  | arr (items : List Json)
  | obj (props : List (String × Json))

/-- The text of a value inside a template literal. -/
def JsVal.toStr : JsVal → String
  | .undefined => "undefined"
  | .null => "null"
  | .bool true => "true"
  | .bool false => "false"
  | .num n => toString n
  | .str s => s

/-- The expression `article.content || article.description || ''`. -/
def bodyOf (article : Article) : JsVal :=
  (article.content.or article.description).or (.str "")

/-- The test `text.includes(word)`: `word` occurs in `text` as a substring. -/
def includes (text word : String) : Bool :=
  text.data.tails.any (fun rest => word.data.isPrefixOf rest)

/-! ## The sentiment agent: the deterministic strategies -/

/-- The result object of a sentiment strategy: its properties in order. -/
abbrev Sentiment := JsMap Json

/-- The list `newsSentimentWords.positive`. -/
def positiveWords : List String :=
  ["breakthrough", "innovation", "success", "growth", "improvement", "recovery",
   "positive", "optimistic", "hopeful", "promising", "excellent", "outstanding",
   "achievement", "victory", "win", "gain", "profit", "surge", "rise", "boost"]

/-- The list `newsSentimentWords.negative`. -/
def negativeWords : List String :=
  ["crisis", "disaster", "failure", "loss", "decline", "drop", "fall", "crash",
   "negative", "pessimistic", "worried", "concerned", "fear", "anxiety",
   "problem", "issue", "challenge", "threat", "risk", "danger", "conflict"]

/-- The method `getSentimentLabel(score)`. -/
def getSentimentLabel (score : ℚ) : String :=
  if score ≥ 70 then "positive"
  else if score ≥ 40 then "neutral"
  else if score ≥ 20 then "mixed"
  else "negative"

/-- The three counters of `nlpSentimentAnalysis`. -/
structure Tally where
  score : Int
  positiveCount : Nat
  negativeCount : Nat
  deriving DecidableEq, Repr

/-- The body of the `forEach` over the tokens. -/
def tallyToken (t : Tally) (token : String) : Tally :=
  if positiveWords.contains token then
    { t with score := t.score + 1, positiveCount := t.positiveCount + 1 }
  else if negativeWords.contains token then
    { t with score := t.score - 1, negativeCount := t.negativeCount + 1 }
  else t

/-- The text scored by the two deterministic strategies: title, a space and
the body, in lower case. -/
def scoredText (article : Article) : String :=
  toLowerCase (article.title.toStr ++ " " ++ (bodyOf article).toStr)

/-- The value of `normalizedScore` for the final counters. -/
def normalizedScore (F : Float64) (t : Tally) : ℚ :=
  let totalRelevantTokens := t.positiveCount + t.negativeCount
  if totalRelevantTokens > 0 then
    F.add (F.mul (F.div t.score totalRelevantTokens) 50) 50
  else 50

/-- The method `nlpSentimentAnalysis(article)`. `tokenize` is the method of the
word tokenizer of the `natural` library. -/
def nlpSentimentAnalysis (F : Float64) (tokenize : String → List String) (article : Article) :
    Sentiment :=
  let tokens := tokenize (scoredText article)
  let t := tokens.foldl tallyToken ⟨0, 0, 0⟩
  [("method", .str "nlp"),
   ("sentiment", .str (getSentimentLabel (normalizedScore F t))),
   ("score", .num (Math.round (normalizedScore F t))),
   ("confidence", .str "medium"),
   ("indicators", .arr []),
   ("explanation",
     .str ("NLP analysis based on " ++ toString tokens.length ++ " tokens with custom scoring"))]

/-- The list `positiveWords` of `fallbackSentimentAnalysis`. -/
def fallbackPositiveWords : List String :=
  ["good", "great", "excellent", "positive", "success", "growth"]

/-- The list `negativeWords` of `fallbackSentimentAnalysis`. -/
def fallbackNegativeWords : List String :=
  ["bad", "terrible", "negative", "failure", "loss", "crisis"]

/-- The value of `score` in `fallbackSentimentAnalysis` after the two loops. -/
def fallbackScore (text : String) : Int :=
  let afterPositive := fallbackPositiveWords.foldl
    (fun score word => if includes text word then score + 10 else score) (50 : Int)
  fallbackNegativeWords.foldl
    (fun score word => if includes text word then score - 10 else score) afterPositive

/-- The method `fallbackSentimentAnalysis(article)`. -/
def fallbackSentimentAnalysis (article : Article) : Sentiment :=
  let score := fallbackScore (scoredText article)
  [("method", .str "fallback"),
   ("sentiment", .str (getSentimentLabel score)),
   ("score", .num (max 0 (min 100 score) : Int)),
   ("confidence", .str "low"),
   ("indicators", .arr []),
   ("explanation", .str "Fallback keyword-based analysis")]

/-! ## The enriched articles -/

/-- An article as pushed by `summarizeArticles`: the article spread, then
`summary`, `summarizedAt`, `requestId`, and `summaryError` when the summary
is the fallback one. -/
structure SummarizedArticle extends Article where
  summary : String
  summarizedAt : String
  requestId : String
  summaryError : Option String
  deriving DecidableEq, Repr

/-- An article as pushed by `analyzeSentiment`: the summarised article spread,
then `sentiment`, `sentimentAnalyzedAt`, `requestId`, and `sentimentError`
when the sentiment is the last-resort one. -/
structure ScoredArticle extends SummarizedArticle where
  sentiment : Sentiment
  sentimentAnalyzedAt : String
  sentimentError : Option String

/-! ## The sentiment agent: the language model and the batch -/

/-- The sentiment agent with what it runs on. `llm` is `this.llm`: `none` for
`null`, else the outcome of the `i`-th call `llm.invoke(prompt)` of a batch,
the text of `result.content` or a failure (also when the content is no text).
`tokenize` is the word tokenizer, `jsonParse` is `JSON.parse` (`none` when it
throws), `float` the double arithmetic. -/
structure SentimentAgent where
  llm : Option (Nat → String → Except String String)
  tokenize : String → List String
  jsonParse : String → Option Json
  float : Float64

/-- The prompt built by `ollamaSentimentAnalysis`. -/
def sentimentPrompt (article : SummarizedArticle) : String :=
  "You are an expert sentiment analyst. Analyze the sentiment of the following news article " ++
  "and provide a detailed analysis in JSON format with keys: sentiment " ++
  "(positive/negative/neutral/mixed), score (0-100), confidence (high/medium/low), " ++
  "indicators (array), explanation (string).\n\nTitle: " ++ article.title.toStr ++
  "\nSummary: " ++ article.summary ++
  "\nContent: " ++ (bodyOf article.toArticle).toStr

/-- The call `text.indexOf(c)`, with `-1` when `c` does not occur. -/
def indexOf (text : List Char) (c : Char) : Int :=
  if c ∈ text then (text.indexOf c : Int) else -1

/-- The call `text.lastIndexOf(c)`, with `-1` when `c` does not occur. -/
def lastIndexOf (text : List Char) (c : Char) : Int :=
  if c ∈ text then (text.length : Int) - 1 - (text.reverse.indexOf c : Int) else -1

/-- The call `text.substring(a, b)`: both ends are brought into the text, and
swapped when they come in the wrong order. -/
def substring (text : List Char) (a b : Int) : List Char :=
  let a' := (min (max a 0) text.length).toNat
  let b' := (min (max b 0) text.length).toNat
  (text.drop (min a' b')).take (max a' b' - min a' b')

/-- The string handed to `JSON.parse`: from the first opening brace to the
last closing brace of the text. -/
def extractJson (text : String) : String :=
  ⟨substring text.data (indexOf text.data (Char.ofNat 123))
    (lastIndexOf text.data (Char.ofNat 125) + 1)⟩

/-- The own enumerable properties of a parsed value, as an object spread
copies them: the properties of an object, the index properties of an array
or a string, none for the other values. -/
def Json.ownProps : Json → List (String × Json)
  | .obj props => props
  | .arr items => items.enum.map (fun e => (toString e.1, e.2))
  | .str s => s.data.enum.map (fun e => (toString e.1, Json.str (String.singleton e.2)))
  | _ => []

/-- An object literal that ends with the spread of `data`: each property of
`data` replaces the property of that name or is added after the others. -/
def spread (base : Sentiment) (data : Json) : Sentiment :=
  data.ownProps.foldl (fun o kv => o.set kv.1 kv.2) base

/-- The method `ollamaSentimentAnalysis(article)` for an agent whose model
call ends as `invoke` says. -/
def ollamaSentimentAnalysis (jsonParse : String → Option Json)
    (invoke : String → Except String String) (article : SummarizedArticle) :
    Except String Sentiment :=
  match invoke (sentimentPrompt article) with
  | .error err => .error err
  | .ok content =>
    let text := trim content
    match jsonParse (extractJson text) with
    | some sentimentData => .ok (spread [("method", .str "ollama")] sentimentData)
    | none =>
      .ok [("method", .str "ollama"),
           ("sentiment", .str "neutral"),
           ("score", .num 50),
           ("confidence", .str "low"),
           ("indicators", .arr []),
           ("explanation", .str text)]

/-- The method `analyzeSingleArticle(article, requestId)` for the `i`-th
article of a batch. -/
def analyzeSingleArticle (agent : SentimentAgent) (i : Nat) (article : SummarizedArticle) :
    Except String Sentiment :=
  match agent.llm with
  | some llm =>
    match ollamaSentimentAnalysis agent.jsonParse (llm i) article with
    | .ok sentiment => .ok sentiment
    | .error _ => .ok (nlpSentimentAnalysis agent.float agent.tokenize article.toArticle)
  | none => .ok (nlpSentimentAnalysis agent.float agent.tokenize article.toArticle)

/-- The body of the loop of `analyzeSentiment` for the `i`-th article: what is
pushed, in the `try` branch or in the `catch` branch. `clock i` is the value
of `new Date().toISOString()` at that moment. -/
def scoreArticle (agent : SentimentAgent) (clock : Nat → String) (requestId : String)
    (i : Nat) (article : SummarizedArticle) : ScoredArticle :=
  match analyzeSingleArticle agent i article with
  | .ok sentiment =>
    { article with
      sentiment := sentiment
      sentimentAnalyzedAt := clock i
      requestId := requestId
      sentimentError := none }
  | .error message =>
    { article with
      sentiment := fallbackSentimentAnalysis article.toArticle
      sentimentAnalyzedAt := clock i
      requestId := requestId
      sentimentError := some message }

/-- The loop of `analyzeSentiment` from the `i`-th article on. -/
def analyzeSentimentFrom (agent : SentimentAgent) (clock : Nat → String) (requestId : String) :
    Nat → List SummarizedArticle → List ScoredArticle
  | _, [] => []
  | i, article :: rest =>
    scoreArticle agent clock requestId i article ::
      analyzeSentimentFrom agent clock requestId (i + 1) rest

/-- The method `analyzeSentiment(articles, requestId)`. -/
def analyzeSentiment (agent : SentimentAgent) (clock : Nat → String)
    (articles : List SummarizedArticle) (requestId : String) :
    Except String (List ScoredArticle) :=
  .ok (analyzeSentimentFrom agent clock requestId 0 articles)

/-- The property `sentiment.method` of a scored article. -/
def ScoredArticle.method (a : ScoredArticle) : Option Json := a.sentiment.get? "method"

/-! ## The summarizer agent -/

/-- The characters of the class `[.!?]`. -/
def isSentenceEnd (c : Char) : Bool :=
  c = Char.ofNat 46 || c = Char.ofNat 33 || c = Char.ofNat 63

/-- The pieces of a text between the maximal runs of characters that satisfy
`p`; `current` holds the piece being read, in reverse, and `inRun` says that
the last character read was a separator. -/
def splitOnRunsFrom (p : Char → Bool) (current : List Char) (inRun : Bool) :
    List Char → List String
  | [] => [⟨current.reverse⟩]
  | c :: rest =>
    if p c then
      if inRun then splitOnRunsFrom p [] true rest
      else ⟨current.reverse⟩ :: splitOnRunsFrom p [] true rest
    else splitOnRunsFrom p (c :: current) false rest

/-- The call `content.split(/[.!?]+/)`. -/
def splitSentences (content : String) : List String :=
  splitOnRunsFrom isSentenceEnd [] false content.data

/-- The property `s.length`: the number of UTF-16 code units. -/
def jsLength (s : String) : Nat :=
  (s.data.map (fun c => if c.toNat < 0x10000 then 1 else 2)).sum

/-- The call `parts.join(sep)`. -/
def join (sep : String) (parts : List String) : String :=
  ⟨List.intercalate sep.data (parts.map String.data)⟩

/-- The test `s.endsWith('.')`. -/
def endsWithPeriod (s : String) : Bool :=
  s.data.getLast? = some (Char.ofNat 46)

/-- The fragments kept by `extractiveSummarization`: the pieces of the content
whose trimmed length exceeds 10. -/
def usableSentences (content : String) : List String :=
  (splitSentences content).filter (fun s => jsLength (trim s) > 10)

/-- The method `extractiveSummarization(title, content)`. A content that is
no string has no `split` method: the call throws. -/
def extractiveSummarization (title content : JsVal) : Except String String :=
  match content with
  | .str body =>
    let sentences := usableSentences body
    if sentences.length = 0 then
      .ok ("Article about " ++ title.toStr ++ ". No detailed content available.")
    else
      let summarySentences := sentences.take (min 3 sentences.length)
      let summary := trim (join ". " summarySentences)
      if !endsWithPeriod summary then .ok (summary ++ ".") else .ok summary
  | _ => .error "content.split is not a function"

/-- The summarizer agent with what it runs on. `llm` is `this.llm`, as for the
sentiment agent; `localeDate` is the value of
`new Date(publishedAt).toLocaleDateString()`. -/
structure SummarizerAgent where
  llm : Option (Nat → String → Except String String)
  localeDate : JsVal → String

/-- The method `generateFallbackSummary(article)`. -/
def generateFallbackSummary (agent : SummarizerAgent) (article : Article) : String :=
  let title := article.title.or (.str "Unknown title")
  let source := article.source.or (.str "Unknown source")
  let date := if article.publishedAt.truthy then agent.localeDate article.publishedAt
    else "Unknown date"
  "Article from " ++ source.toStr ++ " published on " ++ date ++ " about " ++ title.toStr ++
  ". This article discusses developments and news related to the topic."

/-- The prompt built by `summarizeSingleArticle`. -/
def summaryPrompt (article : Article) : String :=
  "Summarize the following news article in 2-4 sentences.\n\nTitle: " ++
  article.title.toStr ++ "\nContent: " ++ (bodyOf article).toStr

/-- The method `summarizeSingleArticle(article, requestId)` for the `i`-th
article of a batch. -/
def summarizeSingleArticle (agent : SummarizerAgent) (i : Nat) (article : Article) :
    Except String String :=
  match agent.llm with
  | some llm =>
    match llm i (summaryPrompt article) with
    | .ok content => .ok (trim content)
    | .error _ => extractiveSummarization article.title (bodyOf article)
  | none => extractiveSummarization article.title (bodyOf article)

/-- The body of the loop of `summarizeArticles` for the `i`-th article: what
is pushed, in the `try` branch or in the `catch` branch. -/
def summarizeArticle (agent : SummarizerAgent) (clock : Nat → String) (requestId : String)
    (i : Nat) (article : Article) : SummarizedArticle :=
  match summarizeSingleArticle agent i article with
  | .ok summary =>
    { article with
      summary := summary
      summarizedAt := clock i
      requestId := requestId
      summaryError := none }
  | .error message =>
    { article with
      summary := generateFallbackSummary agent article
      summarizedAt := clock i
      requestId := requestId
      summaryError := some message }

/-- The loop of `summarizeArticles` from the `i`-th article on. -/
def summarizeArticlesFrom (agent : SummarizerAgent) (clock : Nat → String) (requestId : String) :
    Nat → List Article → List SummarizedArticle
  | _, [] => []
  | i, article :: rest =>
    summarizeArticle agent clock requestId i article ::
      summarizeArticlesFrom agent clock requestId (i + 1) rest

/-- The method `summarizeArticles(articles, requestId)`. -/
def summarizeArticles (agent : SummarizerAgent) (clock : Nat → String)
    (articles : List Article) (requestId : String) : Except String (List SummarizedArticle) :=
  .ok (summarizeArticlesFrom agent clock requestId 0 articles)

/-! ## Words for the results of the sentiment agent -/

/-- The number of tokens of the lower-cased title and body of an article that
occur in the positive-word list. -/
def positiveTokens (tokenize : String → List String) (article : Article) : Nat :=
  (tokenize (scoredText article)).countP (fun token => positiveWords.contains token)

/-- The number of tokens of the lower-cased title and body of an article that
occur in the negative-word list. -/
def negativeTokens (tokenize : String → List String) (article : Article) : Nat :=
  (tokenize (scoredText article)).countP (fun token => negativeWords.contains token)

/-- The value of `normalizedScore` in `nlpSentimentAnalysis(article)`. -/
def nlpNormalizedScore (F : Float64) (tokenize : String → List String) (article : Article) : ℚ :=
  normalizedScore F ((tokenize (scoredText article)).foldl tallyToken ⟨0, 0, 0⟩)

/-- The number of keywords of a list that occur in a text as substrings. -/
def keywordHits (text : String) (keywords : List String) : Nat :=
  keywords.countP (fun word => includes text word)

/-- The four sentiment labels. -/
def sentimentLabels : List String := ["positive", "negative", "neutral", "mixed"]

/-- A sentiment result is well formed: its label is one of the four labels
and its score is an integer between 0 and 100. -/
def WellFormed (sentiment : Sentiment) : Prop :=
  (∃ label ∈ sentimentLabels, sentiment.get? "sentiment" = some (.str label)) ∧
  ∃ score : ℤ, 0 ≤ score ∧ score ≤ 100 ∧ sentiment.get? "score" = some (.num score)

/-- The characters kept in a token by the word tokenizer of `natural`: Latin
and Cyrillic letters, digits and the underscore. -/
def isWordChar (c : Char) : Bool :=
  (65 ≤ c.toNat && c.toNat ≤ 90) || (97 ≤ c.toNat && c.toNat ≤ 122) ||
  (48 ≤ c.toNat && c.toNat ≤ 57) || c.toNat = 95 ||
  (0x410 ≤ c.toNat && c.toNat ≤ 0x44F)

/-- A word tokenizer for concrete runs: the pieces between runs of characters
that are no word characters, the empty pieces left out. -/
def wordTokenize (text : String) : List String :=
  (splitOnRunsFrom (fun c => !isWordChar c) [] false text.data).filter (fun t => t ≠ "")

/-- An article with the given title and no body, for concrete runs. -/
def titledArticle (title : String) : Article where
  id := .str "1"
  title := .str title
  description := .null
  content := .null
  url := .str "https://example.com/1"
  source := .str "Example"
  author := .null
  publishedAt := .str "2024-01-01T00:00:00Z"
  urlToImage := .null
  sourceType := .str "NewsAPI"

/-- A title with three words of the positive list and one of the negative
list. -/
def threeToOne : String := "Profit surge and growth despite one loss"

/-- A title with sixteen words of the positive list and seven of the negative
list. -/
def sixteenToSeven : String :=
  "win win win win win win win win win win win win win win win win " ++
  "loss loss loss loss loss loss loss"

/-- A title with nine words of the positive list and thirty-one of the
negative list. -/
def nineToThirtyOne : String :=
  "win win win win win win win win win " ++
  "loss loss loss loss loss loss loss loss loss loss loss loss loss loss loss loss " ++
  "loss loss loss loss loss loss loss loss loss loss loss loss loss loss loss"

/-- A summarised article for concrete runs. -/
def summarizedSample : SummarizedArticle :=
  { titledArticle "Markets rally" with
    summary := "Markets rally."
    summarizedAt := "2024-01-01T00:00:01.000Z"
    requestId := "req_1"
    summaryError := none }

/-- A model reply whose JSON carries a `method` key of its own:
`\x7b"method":"gpt","sentiment":"positive","score":90\x7d`. -/
def replyWithMethod : String :=
  "\x7b\"method\":\"gpt\",\"sentiment\":\"positive\",\"score\":90\x7d"

/-- A model reply with a label outside the four labels and a score above 100:
`\x7b"sentiment":"joyful","score":150\x7d`. -/
def replyOutOfRange : String :=
  "\x7b\"sentiment\":\"joyful\",\"score\":150\x7d"

/-- The values of `JSON.parse` on the two replies above; what it does on other
texts is of no account in the runs below and is set to a failure. -/
def parseSampleReply (text : String) : Option Json :=
  if text = replyWithMethod then
    some (.obj [("method", .str "gpt"), ("sentiment", .str "positive"), ("score", .num 90)])
  else if text = replyOutOfRange then
    some (.obj [("sentiment", .str "joyful"), ("score", .num 150)])
  else none

/-- A sentiment agent whose model answers every call with `reply`. -/
def agentReplying (reply : String) : SentimentAgent where
  llm := some (fun _ _ => .ok reply)
  tokenize := wordTokenize
  jsonParse := parseSampleReply
  float := Float64.exact

/-- The string of a parsed value that is a string. -/
def Json.str? : Json → Option String
  | .str s => some s
  | _ => none

/-- The number of a parsed value that is a number. -/
def Json.num? : Json → Option ℚ
  | .num q => some q
  | _ => none

/-! ## Words for the results of the fetch stage -/

/-- The sorted deduplicated list of a call of `fetchNews`: the merged list
after `removeDuplicates` and the sort by date. -/
def sortedUnique (agent : CrawlerAgent) (engine : ArraySort) (time : JsVal → Option Int)
    (weekAgo today : String)
    (keyword : String) (options : FetchOptions) : List Article :=
  sortByDate engine time (removeDuplicates (mergedArticles agent weekAgo today keyword options))

/-- Both articles carry a valid publication date and `a` is published no
earlier than `b`. -/
def publishedNoEarlier (time : JsVal → Option Int) (a b : Article) : Prop :=
  ∃ ta tb, time a.publishedAt = some ta ∧ time b.publishedAt = some tb ∧ tb ≤ ta

/-- A reading of publication dates given as numbers of milliseconds:
`new Date(n).getTime()` is `n`, and `new Date(undefined)` is invalid. -/
def timeOfNumber : JsVal → Option Int
  | .num n => some n
  | _ => none

/-- A crawler without any credential. -/
def noCredentials : CrawlerAgent where
  newsApiKey := .undefined
  guardianApiKey := .undefined
  nytApiKey := .undefined
  fetchFromNewsAPI := fun _ _ => .fulfilled (some [])
  fetchFromGuardian := fun _ _ => .fulfilled (some [])
  fetchFromNYT := fun _ _ => .fulfilled (some [])

/-- An article with the given url and publication date, for concrete runs. -/
def sampleArticle (url : String) (publishedAt : Int) : Article where
  id := .str url
  title := .str "title"
  description := .null
  content := .null
  url := .str url
  source := .str "NewsAPI source"
  author := .null
  publishedAt := .num publishedAt
  urlToImage := .null
  sourceType := .str "NewsAPI"

/-- A crawler with the NewsAPI credential only, whose adapter returns three
articles published at times 1, 3 and 2. -/
def newsApiOnly : CrawlerAgent where
  newsApiKey := .str "key"
  guardianApiKey := .undefined
  nytApiKey := .undefined
  fetchFromNewsAPI := fun _ _ =>
    .fulfilled (some [sampleArticle "a" 1, sampleArticle "b" 3, sampleArticle "c" 2])
  fetchFromGuardian := fun _ _ => .rejected "not configured"
  fetchFromNYT := fun _ _ => .rejected "not configured"

/-- An article with the given url and no publication date, for concrete
runs. -/
def undatedArticle (url : String) : Article where
  id := .str url
  title := .str "title"
  description := .null
  content := .null
  url := .str url
  source := .str "NewsAPI source"
  author := .null
  publishedAt := .undefined
  urlToImage := .null
  sourceType := .str "NewsAPI"

/-- A crawler with the NewsAPI credential only, whose adapter returns an
article published at time 1, an article without a publication date and an
article published at time 5. -/
def undatedInTheMiddle : CrawlerAgent where
  newsApiKey := .str "key"
  guardianApiKey := .undefined
  nytApiKey := .undefined
  fetchFromNewsAPI := fun _ _ =>
    .fulfilled (some [sampleArticle "x" 1, undatedArticle "z", sampleArticle "y" 5])
  fetchFromGuardian := fun _ _ => .rejected "not configured"
  fetchFromNYT := fun _ _ => .rejected "not configured"

/-! ## Words for the results of the summarizer agent -/

/-- The placeholder returned by `extractiveSummarization` when no fragment of
the body is usable: `Article about ${title}. No detailed content available.` -/
def placeholderSummary (title : JsVal) : String :=
  "Article about " ++ title.toStr ++ ". No detailed content available."

/-- An article from the source Reuters whose body has one fragment of nine
characters, for concrete runs. -/
def shortBodyArticle : Article where
  id := .str "7"
  title := .str "Budget vote"
  description := .null
  content := .str "Too short."
  url := .str "https://example.com/7"
  source := .str "Reuters"
  author := .null
  publishedAt := .str "2024-01-01T00:00:00Z"
  urlToImage := .null
  sourceType := .str "NewsAPI"

/-- A summarizer agent without a model: every summary is extractive. -/
def extractiveOnly : SummarizerAgent where
  llm := none
  localeDate := fun _ => "1/1/2024"

/-! ## Words for the report of the pipeline -/

/-- Agents of a successful run whose presenter returns the given insights
list, and the same summary, articles, statistics and sentiment trends whatever
the insights are; for concrete runs. -/
def agentsWithInsights (insights : List String) :
    Agents Unit Unit String (List Article) String String (List String) String where
  fetchNews := fun _ _ => .ok (some [shortBodyArticle])
  summarizeArticles := fun _ _ => .ok ()
  analyzeSentiment := fun _ _ => .ok ()
  formatResults := fun _ _ _ =>
    .ok ⟨"summary", [shortBodyArticle], "statistics", "trends", insights, "metadata"⟩

/-! ## The presenter agent: statistics -/

/-- An article as the presenter reads it: the summarised article and, of its
`sentiment` object, the label `sentiment.sentiment` and the score
`sentiment.score`, each of them absent (`none`) or present. A label that is
present is a string and a score that is present is a number; the `sentiment`
object itself is there, as after the sentiment stage. -/
structure EnrichedArticle extends SummarizedArticle where
  label : Option String
  score : Option ℚ

/-- The reading of a scored article by the presenter, when its label is a
string or absent and its score is a number or absent. -/
def ScoredArticle.toEnriched? (article : ScoredArticle) : Option EnrichedArticle :=
  let label : Option (Option String) :=
    match article.sentiment.get? "sentiment" with
    | none => some none
    | some (.str l) => some (some l)
    | some _ => none
  let score : Option (Option ℚ) :=
    match article.sentiment.get? "score" with
    | none => some none
    | some (.num q) => some (some q)
    | some _ => none
  match label, score with
  | some l, some q => some { article.toSummarizedArticle with label := l, score := q }
  | _, _ => none

namespace EnrichedArticle

/-- The expression `article.sentiment.sentiment || 'neutral'`. -/
def sentimentOrNeutral (article : EnrichedArticle) : String :=
  match article.label with
  | some l => if l = "" then "neutral" else l
  | none => "neutral"

/-- The expression `article.sentiment.score || 50`: a score of 0 is falsy. -/
def scoreOrFifty (article : EnrichedArticle) : ℚ :=
  match article.score with
  | some q => if q = 0 then 50 else q
  | none => 50

/-- The property name made from `article.source || 'Unknown'`. -/
def sourceOrUnknown (article : EnrichedArticle) : String :=
  (article.source.or (.str "Unknown")).toStr

end EnrichedArticle

/-- The names of the properties that every plain object inherits from
`Object.prototype`: eleven functions and the accessor `__proto__`. A read
`table[key]` of such a name finds the inherited value when the object has no
property of its own with that name. -/
def objectPrototypeNames : List String :=
  ["constructor", "__defineGetter__", "__defineSetter__", "hasOwnProperty",
   "__lookupGetter__", "__lookupSetter__", "isPrototypeOf", "propertyIsEnumerable",
   "toString", "valueOf", "__proto__", "toLocaleString"]

/-- The text of the value inherited under a name of `Object.prototype`, as the
operator `+` reads it: the source text of a native function, or
`[object Object]` for the prototype object that `__proto__` returns. -/
def inheritedText (key : String) : String :=
  if key = "__proto__" then "[object Object]"
  else "function " ++ (if key = "constructor" then "Object" else key) ++
    "() \x7b [native code] \x7d"

/-- A value stored in an object used as a table of counts: a number, or the
text that `+ 1` makes from an inherited value. -/
inductive Counted where
  | count (n : Nat)
  | text (s : String)
  deriving DecidableEq, Repr

/-- The statement `table[key] = (table[key] || 0) + 1` on an object used as a
table of counts. A number is counted up and a text gets a `1` appended. For a
name of `Object.prototype` that the object does not have of its own, the
inherited value is truthy and `+ 1` makes a text of it; the assignment to
`__proto__` of a text changes nothing. The properties of an object are listed
in insertion order; names that look like array indices, which JavaScript
lists first, are left aside. -/
def countUp (table : JsMap Counted) (key : String) : JsMap Counted :=
  match table.get? key with
  | some (.count n) => table.set key (.count (n + 1))
  | some (.text t) => if t = "" then table.set key (.count 1) else table.set key (.text (t ++ "1"))
  | none =>
    if key = "__proto__" then table
    else if key ∈ objectPrototypeNames then table.set key (.text (inheritedText key ++ "1"))
    else table.set key (.count 1)

/-- The statement `distribution[label]++`; `none` stands for `NaN`, the value
stored for a label that had no property yet. The assignment to `__proto__` of
`NaN` changes nothing. -/
def increment (distribution : JsMap (Option Nat)) (label : String) : JsMap (Option Nat) :=
  match distribution.get? label with
  | some (some count) => distribution.set label (some (count + 1))
  | some none => distribution.set label none
  | none => if label = "__proto__" then distribution else distribution.set label none

/-- The literal `\x7b positive: 0, negative: 0, neutral: 0, mixed: 0 \x7d`. -/
def emptyDistribution : JsMap (Option Nat) :=
  [("positive", some 0), ("negative", some 0), ("neutral", some 0), ("mixed", some 0)]

/-- The comparison `new Date(a) < new Date(b)`, false when a date is invalid. -/
def dateBefore (time : JsVal → Option Int) (a b : JsVal) : Bool :=
  match time a, time b with
  | some ta, some tb => ta < tb
  | _, _ => false

/-- The expression `Math.round(total / count)`; `none` stands for `NaN`, the
value of `Math.round(0 / 0)`: where the count is 0 nothing has been added to
the total. -/
def roundedAverage (F : Float64) (total : ℚ) (count : Nat) : Option ℤ :=
  if count = 0 then none else some (Math.round (F.div total count))

/-- The comparator `([,a], [,b]) => b - a` on the entries of a table of counts;
the difference is `NaN` when a value is a text. -/
def compareCounts (x y : String × Counted) : Option Int :=
  match x.2, y.2 with
  | .count a, .count b => some ((b : Int) - a)
  | _, _ => none

/-- The chain `Object.entries(table).sort(([,a], [,b]) => b - a).slice(0, 5)`:
for a table of numbers the five entries with the largest counts, earlier
entries first among equal counts. -/
def topFive (engine : ArraySort) (table : JsMap Counted) : List (String × Counted) :=
  (engine.sort compareCounts table).take 5

/-- The variables updated by the loop of `calculateStatistics`. -/
structure StatisticsLoop where
  sources : JsMap Counted
  sentimentDistribution : JsMap (Option Nat)
  totalSentimentScore : ℚ
  earliest : JsVal
  latest : JsVal
  authors : JsMap Counted

/-- The object returned by `calculateStatistics`; `earliest` and `latest` are
the two properties of `dateRange`. -/
structure Statistics where
  totalArticles : Nat
  sources : JsMap Counted
  sentimentDistribution : JsMap (Option Nat)
  averageSentimentScore : Option ℤ
  earliest : JsVal
  latest : JsVal
  topSources : List (String × Counted)
  topAuthors : List (String × Counted)

/-- The body of the loop of `calculateStatistics` for one article. -/
def calculateStatisticsStep (F : Float64) (time : JsVal → Option Int) (stats : StatisticsLoop)
    (article : EnrichedArticle) : StatisticsLoop where
  sources := countUp stats.sources article.sourceOrUnknown
  sentimentDistribution := increment stats.sentimentDistribution article.sentimentOrNeutral
  totalSentimentScore := F.add stats.totalSentimentScore article.scoreOrFifty
  earliest :=
    if !stats.earliest.truthy || dateBefore time article.publishedAt stats.earliest then
      article.publishedAt
    else stats.earliest
  latest :=
    if !stats.latest.truthy || dateBefore time stats.latest article.publishedAt then
      article.publishedAt
    else stats.latest
  authors :=
    if article.author.truthy then countUp stats.authors article.author.toStr else stats.authors

/-- The variables of `calculateStatistics` before the loop. -/
def StatisticsLoop.start : StatisticsLoop where
  sources := []
  sentimentDistribution := emptyDistribution
  totalSentimentScore := 0
  earliest := .null
  latest := .null
  authors := []

/-- The method `calculateStatistics(articles)`. -/
def calculateStatistics (engine : ArraySort) (F : Float64) (time : JsVal → Option Int)
    (articles : List EnrichedArticle) : Statistics :=
  let stats := articles.foldl (calculateStatisticsStep F time) StatisticsLoop.start
  { totalArticles := articles.length
    sources := stats.sources
    sentimentDistribution := stats.sentimentDistribution
    averageSentimentScore := roundedAverage F stats.totalSentimentScore articles.length
    earliest := stats.earliest
    latest := stats.latest
    topSources := topFive engine stats.sources
    topAuthors := topFive engine stats.authors }

/-! ## The presenter agent: sentiment trends -/

/-- The comparison `a > b` of two numbers, false when one of them is `NaN`
(`none`) or `undefined`. -/
def numGt {α : Type} [LT α] [DecidableRel (fun a b : α => a < b)] :
    Option α → Option α → Bool
  | some a, some b => decide (b < a)
  | _, _ => false

/-- The method `getDominantSentiment(distribution)`: the `reduce` over the
entries keeps the entry met so far when its count is greater than the count of
the next entry, and takes the next entry otherwise. Without an entry the
`reduce` throws. -/
def getDominantSentiment (distribution : JsMap (Option Nat)) : Except String String :=
  match distribution with
  | [] => .error "Reduce of empty array with no initial value"
  | first :: rest =>
    .ok (rest.foldl
      (fun a b =>
        if numGt ((distribution.get? a.1).bind id) ((distribution.get? b.1).bind id) then a
        else b)
      first).1

/-- The UTF-16 code units of a character. -/
def utf16 (c : Char) : List Nat :=
  if c.toNat < 0x10000 then [c.toNat]
  else [0xD800 + (c.toNat - 0x10000) / 0x400, 0xDC00 + (c.toNat - 0x10000) % 0x400]

/-- The UTF-16 code units of a string. -/
def codeUnits (s : String) : List Nat := (s.data.map utf16).flatten

/-- The lexicographic order of two lists of code units: `a` is not after `b`. -/
def lexLe : List Nat → List Nat → Bool
  | [], _ => true
  | _ :: _, [] => false
  | a :: as, b :: bs => decide (a < b) || (decide (a = b) && lexLe as bs)

/-- The order of strings used by `sort()` without a comparator: `a` is not
after `b` in the lexicographic order of the code units. -/
def stringLe (a b : String) : Bool := lexLe (codeUnits a) (codeUnits b)

/-- The call `Object.keys(table).sort()`: the keys in the order of strings. -/
def sortedKeys {V : Type} (table : JsMap V) : List String :=
  table.keys.insertionSort (fun a b => stringLe a b)

/-- The method `generateSentimentTrends(dateSentiments)` on the table of the
average scores by day. -/
def generateSentimentTrends (dateSentiments : JsMap (Option ℤ)) : List String :=
  let sortedDates := sortedKeys dateSentiments
  if sortedDates.length ≥ 2 then
    let firstScore := (sortedDates.head?.bind dateSentiments.get?).bind id
    let lastScore := (sortedDates.getLast?.bind dateSentiments.get?).bind id
    if numGt lastScore (firstScore.map (· + 10)) then ["Sentiment has improved over time"]
    else if numGt (firstScore.map (· - 10)) lastScore then ["Sentiment has declined over time"]
    else ["Sentiment has remained relatively stable"]
  else []

/-- An entry of `sourceSentiments` in `analyzeSentimentTrends`. -/
structure SourceSentiment where
  total : ℚ
  count : Nat
  distribution : JsMap (Option Nat)

/-- An entry of `dateSentiments` in `analyzeSentimentTrends`. -/
structure DateSentiment where
  total : ℚ
  count : Nat

/-- The variables updated by the loop of `analyzeSentimentTrends`. -/
structure TrendsLoop where
  totalScore : ℚ
  sourceSentiments : JsMap SourceSentiment
  dateSentiments : JsMap DateSentiment
  distribution : JsMap (Option Nat)

/-- The expression `publishedAt.split('T')[0]`: the text before the first `T`. -/
def dayOf (publishedAt : String) : String :=
  ⟨publishedAt.data.takeWhile (fun c => c ≠ 'T')⟩

/-- The day key `article.publishedAt.split('T')[0]` of an article; a
`publishedAt` that is no string has no `split` method and the call throws. -/
def dayKey (article : EnrichedArticle) : Except String String :=
  match article.publishedAt with
  | .str publishedAt => .ok (dayOf publishedAt)
  | .undefined => .error "Cannot read properties of undefined (reading 'split')"
  | .null => .error "Cannot read properties of null (reading 'split')"
  | _ => .error "article.publishedAt.split is not a function"

/-- The entry of `sourceSentiments` that the loop updates for a source: the
entry of the source, or a new entry when `sourceSentiments[source]` is falsy.
For a name of `Object.prototype` without an entry the read finds the inherited
value, which is truthy: no entry is made, written `none`. -/
def sourceEntry (table : JsMap SourceSentiment) (source : String) : Option SourceSentiment :=
  match table.get? source with
  | some entry => some entry
  | none => if source ∈ objectPrototypeNames then none else some ⟨0, 0, emptyDistribution⟩

/-- The statements of the loop on `dateSentiments` for a day and a score. For
a name of `Object.prototype` without an entry the read finds the inherited
value: no entry is made and the two updates go to the inherited value. -/
def addScore (F : Float64) (table : JsMap DateSentiment) (date : String) (score : ℚ) :
    JsMap DateSentiment :=
  match table.get? date with
  | some entry => table.set date ⟨F.add entry.total score, entry.count + 1⟩
  | none =>
    if date ∈ objectPrototypeNames then table
    else table.set date ⟨F.add 0 score, 1⟩

/-- The body of the loop of `analyzeSentimentTrends` for one article. For a
source named as a property of `Object.prototype` the inherited value has no
`distribution`, and the statement `distribution[sentiment]++` throws. -/
def analyzeSentimentTrendsStep (F : Float64) (acc : TrendsLoop) (article : EnrichedArticle) :
    Except String TrendsLoop :=
  let score := article.scoreOrFifty
  let sentiment := article.sentimentOrNeutral
  let source := article.sourceOrUnknown
  match sourceEntry acc.sourceSentiments source with
  | none => .error ("Cannot read properties of undefined (reading '" ++ sentiment ++ "')")
  | some bySource =>
    match dayKey article with
    | .error message => .error message
    | .ok date =>
      .ok { totalScore := F.add acc.totalScore score
            sourceSentiments := acc.sourceSentiments.set source
              ⟨F.add bySource.total score, bySource.count + 1,
                increment bySource.distribution sentiment⟩
            dateSentiments := addScore F acc.dateSentiments date score
            distribution := increment acc.distribution sentiment }

/-- The loop of `analyzeSentimentTrends`. -/
def analyzeSentimentTrendsLoop (F : Float64) (acc : TrendsLoop) :
    List EnrichedArticle → Except String TrendsLoop
  | [] => .ok acc
  | article :: rest =>
    match analyzeSentimentTrendsStep F acc article with
    | .error message => .error message
    | .ok acc₁ => analyzeSentimentTrendsLoop F acc₁ rest

/-- The property `overall` of the sentiment trends. -/
structure OverallSentiment where
  dominant : String
  averageScore : Option ℤ
  distribution : JsMap (Option Nat)

/-- An entry of the property `bySource` of the sentiment trends. -/
structure SourceTrend where
  averageScore : Option ℤ
  distribution : JsMap (Option Nat)
  dominant : String

/-- The object returned by `analyzeSentimentTrends`; an entry of `byDate` is
the `averageScore` of the day. -/
structure SentimentTrends where
  overall : OverallSentiment
  bySource : JsMap SourceTrend
  byDate : JsMap (Option ℤ)
  trends : List String

/-- The entries of `bySource`, made from the entries of `sourceSentiments` in
their order. -/
def sourceTrends (F : Float64) : JsMap SourceSentiment → Except String (JsMap SourceTrend)
  | [] => .ok []
  | (source, data) :: rest =>
    match getDominantSentiment data.distribution with
    | .error message => .error message
    | .ok dominant =>
      match sourceTrends F rest with
      | .error message => .error message
      | .ok trends =>
        .ok ((source, ⟨roundedAverage F data.total data.count, data.distribution, dominant⟩)
          :: trends)

/-- The entries of `byDate`, made from the entries of `dateSentiments` in
their order. -/
def dateTrends (F : Float64) (dateSentiments : JsMap DateSentiment) : JsMap (Option ℤ) :=
  dateSentiments.map (fun entry => (entry.1, roundedAverage F entry.2.total entry.2.count))

/-- The method `analyzeSentimentTrends(articles)`. -/
def analyzeSentimentTrends (F : Float64) (articles : List EnrichedArticle) :
    Except String SentimentTrends :=
  match analyzeSentimentTrendsLoop F ⟨0, [], [], emptyDistribution⟩ articles with
  | .error message => .error message
  | .ok acc =>
    match getDominantSentiment acc.distribution with
    | .error message => .error message
    | .ok dominant =>
      match sourceTrends F acc.sourceSentiments with
      | .error message => .error message
      | .ok bySource =>
        .ok { overall :=
                { dominant := dominant
                  averageScore := roundedAverage F acc.totalScore articles.length
                  distribution := acc.distribution }
              bySource := bySource
              byDate := dateTrends F acc.dateSentiments
              trends := generateSentimentTrends (dateTrends F acc.dateSentiments) }

/-! ## The presenter agent: insights and time period -/

/-- The method `generateInsights(articles, statistics, sentiment)`. -/
def generateInsights (articles : List EnrichedArticle) (statistics : Statistics)
    (sentiment : SentimentTrends) : List String :=
  let insights : List String := []
  let insights :=
    if numGt sentiment.overall.averageScore (some 70) then
      insights ++ ["Overall positive sentiment suggests optimistic coverage"]
    else if numGt (some 30) sentiment.overall.averageScore then
      insights ++ ["Overall negative sentiment indicates concerning developments"]
    else insights
  let insights :=
    if statistics.topSources.length > 3 then
      insights ++ ["Good source diversity provides balanced perspective"]
    else insights
  let insights :=
    if articles.length > 15 then
      insights ++ ["High article volume indicates significant public interest"]
    else insights
  let sentimentVariation :=
    ((sentiment.overall.distribution.map Prod.snd).filter
      (fun count => numGt count (some 0))).length
  if sentimentVariation > 2 then
    insights ++ ["Mixed sentiment suggests complex or controversial topic"]
  else insights

/-- The function `Math.ceil`. -/
def Math.ceil (x : ℚ) : ℤ := ⌈x⌉

/-- The method `calculateTimePeriod(articles)`. The call `sort()` has no
comparator: it orders the `Date` objects by their texts, `dateString t` being
the text of the date with time value `t` (`Invalid Date` for `none`), as given
by `Date.prototype.toString` in the time zone of the server. -/
def calculateTimePeriod (F : Float64) (time : JsVal → Option Int)
    (dateString : Option Int → String) (articles : List EnrichedArticle) : String :=
  if articles.length = 0 then "Unknown period"
  else
    let dates := (articles.map (fun a => time a.publishedAt)).insertionSort
      (fun a b => stringLe (dateString a) (dateString b))
    match dates.head?.bind id, dates.getLast?.bind id with
    | some earliest, some latest =>
      let diffTime : ℤ := |latest - earliest|
      let diffDays := Math.ceil (F.div diffTime (1000 * 60 * 60 * 24))
      if diffDays = 0 then "Same day"
      else if diffDays = 1 then "1 day"
      else if diffDays < 7 then toString diffDays ++ " days"
      else if diffDays < 30 then toString (Math.ceil (F.div diffDays 7)) ++ " weeks"
      else toString (Math.ceil (F.div diffDays 30)) ++ " months"
    | _, _ => "NaN months"

/-! ## Words for the results of the presenter agent -/

/-- An enriched article with the given source, publication timestamp, label
and score, for concrete runs. -/
def enriched (source publishedAt label : String) (score : ℚ) : EnrichedArticle where
  id := .str "1"
  title := .str "title"
  description := .null
  content := .str "content"
  url := .str "https://example.com/1"
  source := .str source
  author := .null
  publishedAt := .str publishedAt
  urlToImage := .null
  sourceType := .str "NewsAPI"
  summary := "summary"
  summarizedAt := "2024-01-06T00:00:00.000Z"
  requestId := "req_1"
  summaryError := none
  label := some label
  score := some score

/-- The time values of three timestamps of the first week of 2024, in
milliseconds; other values are of no account in the runs below and are read
as invalid dates. -/
def timeOfSample : JsVal → Option Int
  | .str "2024-01-01T00:00:00Z" => some 1704067200000
  | .str "2024-01-03T00:00:00Z" => some 1704240000000
  | .str "2024-01-05T00:00:00Z" => some 1704412800000
  | _ => none

/-- The texts of the three dates above as `Date.prototype.toString` gives them
on a server in the UTC time zone: a Monday, a Wednesday and a Friday. -/
def dateStringOfSample : Option Int → String
  | some 1704067200000 => "Mon Jan 01 2024 00:00:00 GMT+0000 (Coordinated Universal Time)"
  | some 1704240000000 => "Wed Jan 03 2024 00:00:00 GMT+0000 (Coordinated Universal Time)"
  | some 1704412800000 => "Fri Jan 05 2024 00:00:00 GMT+0000 (Coordinated Universal Time)"
  | _ => "Invalid Date"

/-- Three articles published on Monday 1, Wednesday 3 and Friday 5 January
2024. -/
def firstWeek : List EnrichedArticle :=
  [enriched "BBC" "2024-01-01T00:00:00Z" "neutral" 50,
   enriched "BBC" "2024-01-03T00:00:00Z" "neutral" 50,
   enriched "BBC" "2024-01-05T00:00:00Z" "neutral" 50]

/-- The distribution object with the given counts of the four labels, in the
order of the literal. -/
def distributionOf (positive negative neutral mixed : Nat) : JsMap (Option Nat) :=
  [("positive", some positive), ("negative", some negative), ("neutral", some neutral),
   ("mixed", some mixed)]

/-- The number of articles of a list that carry the label `l`. -/
def labelled (articles : List EnrichedArticle) (l : String) : Nat :=
  articles.countP (fun a => a.label = some l)

/-- The name under which the source of an article is counted: the text of the
source, and `Unknown` for an article without a source (a source that is
`undefined`, `null`, `false`, 0 or the empty string). -/
def sourceName (article : EnrichedArticle) : String :=
  match article.source with
  | .str s => if s = "" then "Unknown" else s
  | .num n => if n = 0 then "Unknown" else toString n
  | .bool true => "true"
  | _ => "Unknown"

/-- The number of articles of a list whose source name is `s`, an article
without a source being counted under `Unknown`. -/
def fromSource (articles : List EnrichedArticle) (s : String) : Nat :=
  articles.countP (fun a => sourceName a = s)

/-- The statement of `generateSentimentTrends` for the average `first` of the
first day and the average `last` of the last day. -/
def trendStatement (first last : ℤ) : String :=
  if last > first + 10 then "Sentiment has improved over time"
  else if last < first - 10 then "Sentiment has declined over time"
  else "Sentiment has remained relatively stable"

/-- The day key of an article whose `publishedAt` is a string. -/
def dayOfArticle (article : EnrichedArticle) : String :=
  match article.publishedAt with
  | .str publishedAt => dayOf publishedAt
  | _ => ""

/-- What the loop of `analyzeSentimentTrends` does to `dateSentiments` for an
article whose `publishedAt` is a string. -/
def addToDay (F : Float64) (table : JsMap DateSentiment) (article : EnrichedArticle) :
    JsMap DateSentiment :=
  addScore F table (dayOfArticle article) article.scoreOrFifty

/-- The scores `score || 50` of the articles of a day, in the order of the
list. -/
def dayScores (articles : List EnrichedArticle) (day : String) : List ℚ :=
  (articles.filter (fun a => dayOfArticle a = day)).map EnrichedArticle.scoreOrFifty

/-- The average score of a day: the sum of the scores of the day, added up in
the order of the list, divided by their number and rounded. -/
def dayAverage (F : Float64) (articles : List EnrichedArticle) (day : String) : ℤ :=
  Math.round (F.div ((dayScores articles day).foldl F.add 0) (dayScores articles day).length)

/-- The number in a table of counts; a text counts for nothing. -/
def Counted.number : Counted → Nat
  | .count n => n
  | .text _ => 0

/-- Counting a key in a table of numbers. -/
def tallyUp (table : JsMap Nat) (key : String) : JsMap Nat :=
  table.set key ((table.get? key).getD 0 + 1)

/-- The table of counts that holds the given numbers. -/
def Counted.ofNumbers (table : JsMap Nat) : JsMap Counted :=
  table.map (fun e => (e.1, Counted.count e.2))

/-- The decimal number written by a list of digits. -/
def decimal? (digits : List Char) : Option Nat :=
  if digits ≠ [] ∧ digits.all (fun c => 48 ≤ c.toNat && c.toNat ≤ 57) then
    some (digits.foldl (fun n c => 10 * n + (c.toNat - 48)) 0)
  else none

/-- The year, month and day of a day written as three numbers with hyphens
between them, with or without leading zeros. -/
def yearMonthDay? (day : String) : Option (Nat × Nat × Nat) :=
  match day.data.splitOn (Char.ofNat 45) with
  | [y, m, d] =>
    match decimal? y, decimal? m, decimal? d with
    | some year, some month, some dayOfMonth => some (year, month, dayOfMonth)
    | _, _, _ => none
  | _ => none

/-- An article of 9 January 2024 with the score 40 and an article of
10 January 2024 with the score 65, the days written without leading zeros. -/
def januaryNinthAndTenth : List EnrichedArticle :=
  [enriched "BBC" "2024-1-9T08:00:00Z" "neutral" 40,
   enriched "BBC" "2024-1-10T08:00:00Z" "neutral" 65]

/-- The distinct days of a list of articles, in the order of their first
occurrence from the end. -/
def distinctDays (articles : List EnrichedArticle) : List String :=
  (articles.map dayOfArticle).dedup

/-- The distinct source names of a list of articles. -/
def distinctSources (articles : List EnrichedArticle) : List String :=
  (articles.map EnrichedArticle.sourceOrUnknown).dedup

/-- The labels among the four that at least one article of a list carries. -/
def labelsInUse (articles : List EnrichedArticle) : List String :=
  sentimentLabels.filter
    (fun l => decide (0 < (articles.map EnrichedArticle.sentimentOrNeutral).count l))

/-- The character is a decimal digit. -/
def isDigit (c : Char) : Bool := 48 ≤ c.toNat && c.toNat ≤ 57

/-- The value of a decimal digit. -/
def digitValue (c : Char) : Nat := c.toNat - 48

/-- The day key is written as in an ISO timestamp, `YYYY-MM-DD`: four digits,
a hyphen, two digits, a hyphen, two digits. -/
def isIsoDay (s : String) : Bool :=
  match s.data with
  | [y₁, y₂, y₃, y₄, h₁, m₁, m₂, h₂, d₁, d₂] =>
    isDigit y₁ && isDigit y₂ && isDigit y₃ && isDigit y₄ && h₁.toNat = 45 &&
    isDigit m₁ && isDigit m₂ && h₂.toNat = 45 && isDigit d₁ && isDigit d₂
  | _ => false

/-- The number `YYYYMMDD` of a day written as `YYYY-MM-DD`; a day of the
calendar is before another one when its number is smaller. -/
def dayNumber (s : String) : Nat :=
  match s.data with
  | [y₁, y₂, y₃, y₄, _, m₁, m₂, _, d₁, d₂] =>
    (digitValue y₁ * 1000 + digitValue y₂ * 100 + digitValue y₃ * 10 + digitValue y₄) * 10000 +
    (digitValue m₁ * 10 + digitValue m₂) * 100 + (digitValue d₁ * 10 + digitValue d₂)
  | _ => 0

/-- Three articles that arrive out of order: one of 3 January, one of
1 January with the score 30 and one of 5 January with the score 80. -/
def threeDays : List EnrichedArticle :=
  [enriched "BBC" "2024-01-03T08:00:00Z" "neutral" 50,
   enriched "CNN" "2024-01-01T09:30:00Z" "negative" 30,
   enriched "BBC" "2024-01-05T17:45:00Z" "positive" 80]

/-- Four articles from four sources, with three of the four labels and the
scores 80, 20, 50 and 90. -/
def fourSources : List EnrichedArticle :=
  [enriched "BBC" "2024-01-01T00:00:00Z" "positive" 80,
   enriched "CNN" "2024-01-03T00:00:00Z" "negative" 20,
   enriched "Reuters" "2024-01-03T00:00:00Z" "neutral" 50,
   enriched "AP" "2024-01-05T00:00:00Z" "positive" 90]

/-! # Lemmas and theorems -/

/-! ## Lemmas on maps -/

namespace JsMap

variable {V : Type}

theorem get?_set_self (m : JsMap V) (k : String) (v : V) : get? (set m k v) k = some v := by
  induction m with
  | nil => simp [set, get?]
  | cons hd tl ih =>
    obtain ⟨k', v'⟩ := hd
    by_cases h : k' = k
    · simp [set, get?, h]
    · simp [set, get?, h, ih]

theorem get?_set_of_ne (m : JsMap V) {k k' : String} (v : V) (h : k' ≠ k) :
    get? (set m k v) k' = get? m k' := by
  have h' : ¬ k = k' := fun e => h e.symm
  induction m with
  | nil => simp [set, get?, h']
  | cons hd tl ih =>
    obtain ⟨k₀, v₀⟩ := hd
    by_cases h₀ : k₀ = k
    · subst h₀
      simp [set, get?, h']
    · by_cases h₁ : k₀ = k'
      · subst h₁
        simp [set, get?, h₀]
      · simp [set, get?, h₀, h₁, ih]

theorem get?_delete_self (m : JsMap V) (k : String) : get? (delete m k) k = none := by
  induction m with
  | nil => simp [delete, get?]
  | cons hd tl ih =>
    obtain ⟨k', v'⟩ := hd
    by_cases h : k' = k
    · simpa [delete, List.filter_cons, h] using ih
    · simpa [delete, List.filter_cons, h, get?] using ih

theorem get?_delete_of_ne (m : JsMap V) {k k' : String} (h : k' ≠ k) :
    get? (delete m k) k' = get? m k' := by
  have h' : ¬ k = k' := fun e => h e.symm
  induction m with
  | nil => simp [delete, get?]
  | cons hd tl ih =>
    obtain ⟨k₀, v₀⟩ := hd
    by_cases h₀ : k₀ = k
    · subst h₀
      simpa [delete, List.filter_cons, get?, h'] using ih
    · by_cases h₁ : k₀ = k'
      · subst h₁
        simp [delete, List.filter_cons, h₀, get?]
      · simpa [delete, List.filter_cons, h₀, get?, h₁] using ih

end JsMap

/-! ## Lemmas on the transitions -/

theorem processKeyword_of_live {ρ : Type} (s : NewsAggregator ρ) (keyword : String)
    (options : Options) (requestId : String) (now : Int) (data : ρ)
    (h : liveEntry s (cacheKey keyword options) now = some data) :
    processKeyword s keyword options requestId now = (s, .cached data) := by
  simp only [processKeyword, h]

theorem processKeyword_of_queued {ρ : Type} (s : NewsAggregator ρ) (keyword : String)
    (options : Options) (requestId : String) (now : Int) (p : Nat)
    (h : liveEntry s (cacheKey keyword options) now = none)
    (hq : s.processingQueue.get? (cacheKey keyword options) = some p) :
    processKeyword s keyword options requestId now = (s, .queued p) := by
  simp only [processKeyword, h, hq]

theorem processKeyword_of_idle {ρ : Type} (s : NewsAggregator ρ) (keyword : String)
    (options : Options) (requestId : String) (now : Int)
    (h : liveEntry s (cacheKey keyword options) now = none)
    (hq : s.processingQueue.get? (cacheKey keyword options) = none) :
    processKeyword s keyword options requestId now =
      (startedState s keyword options requestId, .started s.executions.length) := by
  simp only [processKeyword, h, hq, startedState]

/-- The three ways a call of `processKeyword` can go. -/
theorem processKeyword_cases {ρ : Type} (s : NewsAggregator ρ) (keyword : String)
    (options : Options) (requestId : String) (now : Int) :
    (∃ data, liveEntry s (cacheKey keyword options) now = some data ∧
        processKeyword s keyword options requestId now = (s, .cached data)) ∨
    (∃ p, liveEntry s (cacheKey keyword options) now = none ∧
        s.processingQueue.get? (cacheKey keyword options) = some p ∧
        processKeyword s keyword options requestId now = (s, .queued p)) ∨
    (liveEntry s (cacheKey keyword options) now = none ∧
        s.processingQueue.get? (cacheKey keyword options) = none ∧
        processKeyword s keyword options requestId now =
          (startedState s keyword options requestId, .started s.executions.length)) := by
  cases h : liveEntry s (cacheKey keyword options) now with
  | some data => exact Or.inl ⟨data, rfl, processKeyword_of_live s _ _ _ _ data h⟩
  | none =>
    cases hq : s.processingQueue.get? (cacheKey keyword options) with
    | some p => exact Or.inr (Or.inl ⟨p, rfl, rfl, processKeyword_of_queued s _ _ _ _ p h hq⟩)
    | none => exact Or.inr (Or.inr ⟨rfl, rfl, processKeyword_of_idle s _ _ _ _ h hq⟩)

/-- A call that reports `started p` found no live entry and no queue entry,
and `p` is the index of the execution it appended. -/
theorem processKeyword_started {ρ : Type} {s s₁ : NewsAggregator ρ} {keyword : String}
    {options : Options} {requestId : String} {now : Int} {p : Nat}
    (h : processKeyword s keyword options requestId now = (s₁, .started p)) :
    p = s.executions.length ∧ s₁ = startedState s keyword options requestId ∧
      liveEntry s (cacheKey keyword options) now = none ∧
      s.processingQueue.get? (cacheKey keyword options) = none := by
  rcases processKeyword_cases s keyword options requestId now with
    ⟨d, _, hd⟩ | ⟨q, _, _, hq⟩ | ⟨hl, hn, hs⟩
  · rw [hd] at h; simp at h
  · rw [hq] at h; simp at h
  · rw [hs] at h
    simp only [Prod.mk.injEq, Returned.started.injEq] at h
    exact ⟨h.2.symm, h.1.symm, hl, hn⟩

/-! ## Cache hits and expiry -/

/-- C1. Cache hit: when the cache holds an entry for the key of `(keyword,
options)` and the call is made less than 30 minutes after the entry's
timestamp, `processKeyword` returns the stored report and leaves the whole
state (cache, queue, executions: no pipeline is started) as it was. -/
theorem processKeyword_cache_hit {ρ : Type} (s : NewsAggregator ρ) (keyword : String)
    (options : Options) (requestId : String) (now : Int) (entry : CacheEntry ρ)
    (hentry : s.cache.get? (cacheKey keyword options) = some entry)
    (hfresh : now - entry.timestamp < cacheTTL) :
    processKeyword s keyword options requestId now = (s, .cached entry.data) := by
  simp [processKeyword, liveEntry, hentry, hfresh]

/-- Witness for C1: a first call for `"AI"` runs the pipeline and stores its
report at time 1000; a second call for `"ai"` at time 1500 is served from the
cache and changes nothing. -/
theorem processKeyword_cache_hit_witness :
    run (NewsAggregator.new String)
        [.call "AI" [] "req_1" 0, .settle 0 (.ok "report"), .resume 0 1000]
      = some ⟨[("ai_\x7b\x7d", ⟨"report", 1000⟩)], [],
          [⟨0, "ai_\x7b\x7d", "AI", [], "req_1", .fulfilled "report", false⟩]⟩ ∧
    processKeyword (ρ := String)
        ⟨[("ai_\x7b\x7d", ⟨"report", 1000⟩)], [],
          [⟨0, "ai_\x7b\x7d", "AI", [], "req_1", .fulfilled "report", false⟩]⟩
        "ai" [] "req_2" 1500
      = (⟨[("ai_\x7b\x7d", ⟨"report", 1000⟩)], [],
          [⟨0, "ai_\x7b\x7d", "AI", [], "req_1", .fulfilled "report", false⟩]⟩,
        .cached "report") :=
  ⟨by decide,
    processKeyword_cache_hit _ "ai" [] "req_2" 1500 ⟨"report", 1000⟩ (by decide) (by decide)⟩

/-- Counterexample for C3: an entry stored at time 0 and looked up exactly 30
minutes later (age 1800000 ms, so `now - createdAt <= 30 minutes`) is not
served: the call starts a new pipeline execution. -/
theorem ttl_boundary_counterexample :
    (1800000 : Int) - 0 ≤ cacheTTL ∧
    processKeyword (ρ := String) ⟨[("ai_\x7b\x7d", ⟨"report", 0⟩)], [], []⟩
        "ai" [] "req_2" 1800000
      = (⟨[("ai_\x7b\x7d", ⟨"report", 0⟩)], [("ai_\x7b\x7d", 0)],
          [⟨0, "ai_\x7b\x7d", "ai", [], "req_2", .pending, true⟩]⟩, .started 0) := by
  decide

/-- C3, amended. With an entry for the key in the cache, `processKeyword`
serves it exactly when `now - timestamp < 30 minutes`. From an age of 30
minutes on the entry is not served although it is still in the cache: the call
joins the execution in the queue when there is one, and starts a new pipeline
execution otherwise. -/
theorem processKeyword_ttl {ρ : Type} (s : NewsAggregator ρ) (keyword : String)
    (options : Options) (requestId : String) (now : Int) (entry : CacheEntry ρ)
    (hentry : s.cache.get? (cacheKey keyword options) = some entry) :
    (now - entry.timestamp < cacheTTL →
      processKeyword s keyword options requestId now = (s, .cached entry.data)) ∧
    (cacheTTL ≤ now - entry.timestamp →
      (processKeyword s keyword options requestId now).1.cache.get? (cacheKey keyword options)
        = some entry ∧
      (∀ p, s.processingQueue.get? (cacheKey keyword options) = some p →
        processKeyword s keyword options requestId now = (s, .queued p)) ∧
      (s.processingQueue.get? (cacheKey keyword options) = none →
        processKeyword s keyword options requestId now =
          (startedState s keyword options requestId, .started s.executions.length))) := by
  constructor
  · intro hfresh
    simp [processKeyword, liveEntry, hentry, hfresh]
  · intro hstale
    have hl : liveEntry s (cacheKey keyword options) now = none := by
      simp [liveEntry, hentry, not_lt.mpr hstale]
    have h2 : ∀ p, s.processingQueue.get? (cacheKey keyword options) = some p →
        processKeyword s keyword options requestId now = (s, .queued p) :=
      fun p hq => processKeyword_of_queued s _ _ _ _ p hl hq
    have h3 : s.processingQueue.get? (cacheKey keyword options) = none →
        processKeyword s keyword options requestId now =
          (startedState s keyword options requestId, .started s.executions.length) :=
      fun hq => processKeyword_of_idle s _ _ _ _ hl hq
    refine ⟨?_, h2, h3⟩
    cases hq : s.processingQueue.get? (cacheKey keyword options) with
    | some p => rw [h2 p hq]; exact hentry
    | none => rw [h3 hq]; exact hentry

/-- Witness for C3 (amended): an entry of age 1799999 ms is served, and
the statement applies to the entry of the counterexample. -/
theorem processKeyword_ttl_witness :
    processKeyword (ρ := String) ⟨[("ai_\x7b\x7d", ⟨"report", 0⟩)], [], []⟩
        "ai" [] "req_2" 1799999
      = (⟨[("ai_\x7b\x7d", ⟨"report", 0⟩)], [], []⟩, .cached "report") :=
  (processKeyword_ttl (ρ := String) ⟨[("ai_\x7b\x7d", ⟨"report", 0⟩)], [], []⟩
    "ai" [] "req_2" 1799999 ⟨"report", 0⟩ (by decide)).1 (by decide)

/-! ## Clearing the cache -/

/-- Counterexample for C8: one call has put an entry in the queue; after
`clearCache` the queue still holds it and `getCacheStats` reports
`queueSize` 1. -/
theorem clearCache_queue_counterexample :
    (clearCache (processKeyword (NewsAggregator.new String) "ai" [] "req_1" 0).1).processingQueue
      = [("ai_\x7b\x7d", 0)] ∧
    getCacheStats (clearCache (processKeyword (NewsAggregator.new String) "ai" [] "req_1" 0).1)
      = { size := 0, queueSize := 1, keys := [] } := by
  decide

/-- C8, amended. `clearCache` empties the cache and nothing else: after it
`getCacheStats` reports size 0 and no keys, and the queue (so `queueSize`) and
the executions are as before. -/
theorem clearCache_empties_cache {ρ : Type} (s : NewsAggregator ρ) :
    (clearCache s).cache = [] ∧
    (clearCache s).processingQueue = s.processingQueue ∧
    (clearCache s).executions = s.executions ∧
    getCacheStats (clearCache s)
      = { size := 0, queueSize := (getCacheStats s).queueSize, keys := [] } := by
  simp [clearCache, getCacheStats, JsMap.clear, JsMap.size, JsMap.keys]

/-! ## Settling and resuming -/

@[simp] theorem Execution.settle_id {ρ : Type} (p : Nat) (st : PromiseState ρ)
    (x : Execution ρ) : (Execution.settle p st x).id = x.id := by
  unfold Execution.settle; split <;> rfl

@[simp] theorem Execution.settle_cacheKey {ρ : Type} (p : Nat) (st : PromiseState ρ)
    (x : Execution ρ) : (Execution.settle p st x).cacheKey = x.cacheKey := by
  unfold Execution.settle; split <;> rfl

@[simp] theorem Execution.settle_awaiting {ρ : Type} (p : Nat) (st : PromiseState ρ)
    (x : Execution ρ) : (Execution.settle p st x).awaiting = x.awaiting := by
  unfold Execution.settle; split <;> rfl

@[simp] theorem Execution.finish_id {ρ : Type} (p : Nat) (x : Execution ρ) :
    (Execution.finish p x).id = x.id := by
  unfold Execution.finish; split <;> rfl

@[simp] theorem Execution.finish_cacheKey {ρ : Type} (p : Nat) (x : Execution ρ) :
    (Execution.finish p x).cacheKey = x.cacheKey := by
  unfold Execution.finish; split <;> rfl

@[simp] theorem Execution.finish_promise {ρ : Type} (p : Nat) (x : Execution ρ) :
    (Execution.finish p x).promise = x.promise := by
  unfold Execution.finish; split <;> rfl

/-- What a successful `settlePipeline` did. -/
theorem settlePipeline_some {ρ : Type} {s s' : NewsAggregator ρ} {p : Nat}
    {outcome : Except String ρ} (h : settlePipeline s p outcome = some s') :
    ∃ e, s.executions[p]? = some e ∧ e.promise = .pending ∧
      s' = { cache := s.cache
             processingQueue := s.processingQueue
             executions := s.executions.map (Execution.settle p (.ofOutcome outcome)) } := by
  unfold settlePipeline at h
  cases he : s.executions[p]? with
  | none => simp [he] at h
  | some e =>
    simp only [he] at h
    cases hp : e.promise with
    | pending =>
      simp only [hp, Option.some.injEq] at h
      exact ⟨e, rfl, hp, h.symm⟩
    | fulfilled r => simp [hp] at h
    | rejected err => simp [hp] at h

/-- On a pending execution `settlePipeline` succeeds. -/
theorem settlePipeline_of_pending {ρ : Type} (s : NewsAggregator ρ) (p : Nat)
    (outcome : Except String ρ) (e : Execution ρ) (he : s.executions[p]? = some e)
    (hp : e.promise = .pending) :
    settlePipeline s p outcome =
      some { cache := s.cache
             processingQueue := s.processingQueue
             executions := s.executions.map (Execution.settle p (.ofOutcome outcome)) } := by
  simp [settlePipeline, he, hp]

/-- What a successful `resumeProcessKeyword` did. -/
theorem resumeProcessKeyword_some {ρ : Type} {s s' : NewsAggregator ρ} {p : Nat} {now : Int}
    {out : Except String ρ} (h : resumeProcessKeyword s p now = some (s', out)) :
    ∃ e, s.executions[p]? = some e ∧ e.awaiting = true ∧
      s'.processingQueue = s.processingQueue.delete e.cacheKey ∧
      s'.executions = s.executions.map (Execution.finish p) ∧
      ((∃ r, e.promise = .fulfilled r ∧ out = .ok r ∧
          s'.cache = s.cache.set e.cacheKey ⟨r, now⟩) ∨
       (∃ err, e.promise = .rejected err ∧ out = .error err ∧ s'.cache = s.cache)) := by
  unfold resumeProcessKeyword at h
  cases he : s.executions[p]? with
  | none => simp [he] at h
  | some e =>
    simp only [he] at h
    cases ha : e.awaiting with
    | false => simp [ha] at h
    | true =>
      simp only [ha, if_true] at h
      cases hp : e.promise with
      | pending => simp [hp] at h
      | fulfilled r =>
        simp only [hp, Option.some.injEq, Prod.mk.injEq] at h
        obtain ⟨hs, ho⟩ := h
        subst hs
        exact ⟨e, rfl, ha, rfl, rfl, Or.inl ⟨r, hp, ho.symm, rfl⟩⟩
      | rejected err =>
        simp only [hp, Option.some.injEq, Prod.mk.injEq] at h
        obtain ⟨hs, ho⟩ := h
        subst hs
        exact ⟨e, rfl, ha, rfl, rfl, Or.inr ⟨err, hp, ho.symm, rfl⟩⟩

/-! ## The invariant holds in every reachable state -/

theorem Invariant.init (ρ : Type) : Invariant (NewsAggregator.new ρ) :=
  ⟨by simp [NewsAggregator.new], by simp [NewsAggregator.new], by simp [NewsAggregator.new]⟩

theorem Invariant.started {ρ : Type} {s : NewsAggregator ρ} (inv : Invariant s)
    (keyword : String) (options : Options) (requestId : String)
    (hq : s.processingQueue.get? (cacheKey keyword options) = none) :
    Invariant (startedState s keyword options requestId) := by
  refine ⟨?_, ?_, ?_⟩
  · intro i e hi
    simp only [startedState] at hi
    by_cases hlt : i < s.executions.length
    · rw [List.getElem?_append_left hlt] at hi
      exact inv.atIndex i e hi
    · have hle : s.executions.length ≤ i := Nat.le_of_not_lt hlt
      rw [List.getElem?_append_right hle] at hi
      cases hd : i - s.executions.length with
      | zero =>
        rw [hd] at hi
        simp only [List.getElem?_cons_zero, Option.some.injEq] at hi
        subst hi
        simp only
        omega
      | succ n =>
        rw [hd] at hi
        simp at hi
  · intro e he ha
    simp only [startedState, List.mem_append, List.mem_singleton] at he ⊢
    rcases he with he | he
    · have hold := inv.queued e he ha
      have hne : e.cacheKey ≠ cacheKey keyword options := by
        intro heq
        rw [heq, hq] at hold
        exact Option.noConfusion hold
      rw [JsMap.get?_set_of_ne _ _ hne]
      exact hold
    · subst he
      exact JsMap.get?_set_self _ _ _
  · intro e he hp
    simp only [startedState, List.mem_append, List.mem_singleton] at he
    rcases he with he | he
    · exact inv.suspended e he hp
    · subst he
      rfl

theorem Invariant.processKeyword {ρ : Type} {s : NewsAggregator ρ} (inv : Invariant s)
    (keyword : String) (options : Options) (requestId : String) (now : Int) :
    Invariant (processKeyword s keyword options requestId now).1 := by
  rcases processKeyword_cases s keyword options requestId now with
    ⟨d, _, hd⟩ | ⟨q, _, _, hq⟩ | ⟨_, hn, hs⟩
  · rw [hd]; exact inv
  · rw [hq]; exact inv
  · rw [hs]; exact inv.started keyword options requestId hn

theorem Invariant.settle {ρ : Type} {s s' : NewsAggregator ρ} (inv : Invariant s) {p : Nat}
    {outcome : Except String ρ} (h : settlePipeline s p outcome = some s') : Invariant s' := by
  obtain ⟨e₀, _, _, rfl⟩ := settlePipeline_some h
  refine ⟨?_, ?_, ?_⟩
  · intro i e hi
    simp only [List.getElem?_map, Option.map_eq_some'] at hi
    obtain ⟨x, hx, rfl⟩ := hi
    simpa using inv.atIndex i x hx
  · intro e he ha
    simp only [List.mem_map] at he
    obtain ⟨x, hx, rfl⟩ := he
    simpa using inv.queued x hx (by simpa using ha)
  · intro e he hp
    simp only [List.mem_map] at he
    obtain ⟨x, hx, rfl⟩ := he
    have hxp : x.promise = .pending := by
      unfold Execution.settle at hp
      split at hp
      · cases outcome <;> simp [PromiseState.ofOutcome] at hp
      · exact hp
    simpa using inv.suspended x hx hxp

theorem Invariant.resume {ρ : Type} {s s' : NewsAggregator ρ} (inv : Invariant s) {p : Nat}
    {now : Int} {out : Except String ρ} (h : resumeProcessKeyword s p now = some (s', out)) :
    Invariant s' := by
  obtain ⟨e₀, he₀, ha₀, hq, hex, hcase⟩ := resumeProcessKeyword_some h
  have hid₀ : e₀.id = p := inv.atIndex p e₀ he₀
  have hmem₀ : e₀ ∈ s.executions := List.getElem?_mem he₀
  have hnp : e₀.promise ≠ .pending := by
    rcases hcase with ⟨r, hr, _⟩ | ⟨err, hr, _⟩ <;> simp [hr]
  refine ⟨?_, ?_, ?_⟩
  · intro i e hi
    rw [hex] at hi
    simp only [List.getElem?_map, Option.map_eq_some'] at hi
    obtain ⟨x, hx, rfl⟩ := hi
    simpa using inv.atIndex i x hx
  · intro e he ha
    rw [hex] at he
    simp only [List.mem_map] at he
    obtain ⟨x, hx, rfl⟩ := he
    have hxid : x.id ≠ p := by
      intro heq
      simp [Execution.finish, heq] at ha
    have hfx : Execution.finish p x = x := by simp [Execution.finish, hxid]
    rw [hfx] at ha ⊢
    have hxq := inv.queued x hx ha
    have hne : x.cacheKey ≠ e₀.cacheKey := by
      intro heq
      have h₀ := inv.queued e₀ hmem₀ ha₀
      rw [heq, h₀, hid₀] at hxq
      exact hxid (Option.some.inj hxq).symm
    rw [hq, JsMap.get?_delete_of_ne _ hne]
    exact hxq
  · intro e he hp
    rw [hex] at he
    simp only [List.mem_map] at he
    obtain ⟨x, hx, rfl⟩ := he
    have hxp : x.promise = .pending := by simpa using hp
    by_cases hxid : x.id = p
    · exfalso
      obtain ⟨i, hi⟩ := List.getElem?_of_mem hx
      have hxi := inv.atIndex i x hi
      have : x = e₀ := by
        rw [hxi] at hxid
        rw [hxid, he₀] at hi
        exact (Option.some.inj hi).symm
      exact hnp (this ▸ hxp)
    · have hfx : Execution.finish p x = x := by simp [Execution.finish, hxid]
      rw [hfx]
      exact inv.suspended x hx hxp

theorem Invariant.clearCache {ρ : Type} {s : NewsAggregator ρ} (inv : Invariant s) :
    Invariant (clearCache s) :=
  ⟨inv.atIndex, inv.queued, inv.suspended⟩

theorem Invariant.step {ρ : Type} {s s' : NewsAggregator ρ} (inv : Invariant s) {ev : Event ρ}
    (h : step s ev = some s') : Invariant s' := by
  cases ev with
  | call keyword options requestId now =>
    simp only [BriefSync.step, Option.some.injEq] at h
    subst h
    exact inv.processKeyword keyword options requestId now
  | settle p outcome => exact inv.settle h
  | resume p now =>
    simp only [BriefSync.step, Option.map_eq_some'] at h
    obtain ⟨⟨s₂, out⟩, h₂, rfl⟩ := h
    exact inv.resume h₂
  | clear =>
    simp only [BriefSync.step, Option.some.injEq] at h
    subst h
    exact inv.clearCache

theorem Invariant.of_reachable {ρ : Type} {s : NewsAggregator ρ} (h : Reachable s) :
    Invariant s := by
  induction h with
  | init => exact Invariant.init ρ
  | next ev _ hstep ih => exact ih.step hstep

/-! ## Single flight -/

/-- Calls that find no live entry but a queue entry all join it. -/
theorem processKeywordAll_queued {ρ : Type} (keyword : String) (options : Options) (p : Nat)
    (calls : List (String × Int)) (s : NewsAggregator ρ)
    (hl : ∀ c ∈ calls, liveEntry s (cacheKey keyword options) c.2 = none)
    (hq : s.processingQueue.get? (cacheKey keyword options) = some p) :
    processKeywordAll s keyword options calls = (s, calls.map (fun _ => .queued p)) := by
  induction calls with
  | nil => rfl
  | cons c rest ih =>
    obtain ⟨requestId, now⟩ := c
    have h₁ := processKeyword_of_queued s keyword options requestId now p
      (hl (requestId, now) (List.mem_cons_self _ _)) hq
    have h₂ := ih (fun c hc => hl c (List.mem_cons_of_mem _ hc))
    simp only [processKeywordAll, h₁, h₂, List.map_cons]

/-- The execution appended by `startedState` settles as any outcome asks. -/
theorem settlePipeline_startedState {ρ : Type} (s : NewsAggregator ρ) (keyword : String)
    (options : Options) (requestId : String) (outcome : Except String ρ) :
    ∃ s₂, settlePipeline (startedState s keyword options requestId) s.executions.length outcome
        = some s₂ ∧
      s₂.cache = s.cache ∧
      s₂.processingQueue = s.processingQueue.set (cacheKey keyword options) s.executions.length ∧
      s₂.executions[s.executions.length]? =
        some ⟨s.executions.length, cacheKey keyword options, keyword, options, requestId,
          .ofOutcome outcome, true⟩ := by
  have he : (startedState s keyword options requestId).executions[s.executions.length]? =
      some ⟨s.executions.length, cacheKey keyword options, keyword, options, requestId,
        .pending, true⟩ := by
    simp [startedState]
  refine ⟨_, settlePipeline_of_pending _ _ outcome _ he rfl, rfl, rfl, ?_⟩
  simp only [List.getElem?_map, he, Option.map_some', Execution.settle, if_true]

/-- C2. Single flight. In every state reached by any interleaving of calls,
settlements, resumptions and `clearCache`:
* two pending pipeline executions with the same cache key are the same
  execution, and a pending execution is the one registered in the queue
  under its key;
* a call that finds no live cache entry but a queue entry for its key
  changes nothing (no execution is started) and gets the promise of that
  entry;
* of `N ≥ 1` calls for the same key made together while no cache entry is
  live, all get the same promise: that of the queue entry when there is one
  (no execution is started), and otherwise that of the one execution started
  by the first call; whatever that execution ends with is what this promise
  settles to. -/
theorem single_flight {ρ : Type} (s : NewsAggregator ρ) (hs : Reachable s) :
    (∀ e₁ ∈ s.executions, ∀ e₂ ∈ s.executions, e₁.promise = .pending →
      e₂.promise = .pending → e₁.cacheKey = e₂.cacheKey → e₁ = e₂) ∧
    (∀ e ∈ s.executions, e.promise = .pending →
      s.processingQueue.get? e.cacheKey = some e.id) ∧
    (∀ (keyword : String) (options : Options) (requestId : String) (now : Int) (p : Nat),
      liveEntry s (cacheKey keyword options) now = none →
      s.processingQueue.get? (cacheKey keyword options) = some p →
      processKeyword s keyword options requestId now = (s, .queued p)) ∧
    (∀ (keyword : String) (options : Options) (c : String × Int) (rest : List (String × Int)),
      (∀ x ∈ c :: rest, liveEntry s (cacheKey keyword options) x.2 = none) →
      (∀ p, s.processingQueue.get? (cacheKey keyword options) = some p →
        processKeywordAll s keyword options (c :: rest)
          = (s, (c :: rest).map (fun _ => .queued p))) ∧
      (s.processingQueue.get? (cacheKey keyword options) = none →
        processKeywordAll s keyword options (c :: rest)
          = (startedState s keyword options c.1,
              .started s.executions.length ::
                rest.map (fun _ => .queued s.executions.length)) ∧
        ∀ outcome : Except String ρ, ∃ s₂,
          settlePipeline (startedState s keyword options c.1) s.executions.length outcome
            = some s₂ ∧
          (s₂.executions[s.executions.length]?).map (fun e => e.promise)
            = some (.ofOutcome outcome))) := by
  have inv := Invariant.of_reachable hs
  refine ⟨?_, ?_, ?_, ?_⟩
  · intro e₁ h₁ e₂ h₂ hp₁ hp₂ hkey
    have q₁ := inv.queued e₁ h₁ (inv.suspended e₁ h₁ hp₁)
    have q₂ := inv.queued e₂ h₂ (inv.suspended e₂ h₂ hp₂)
    rw [hkey, q₂] at q₁
    have hid : e₂.id = e₁.id := Option.some.inj q₁
    obtain ⟨i, hi⟩ := List.getElem?_of_mem h₁
    obtain ⟨j, hj⟩ := List.getElem?_of_mem h₂
    have hi' := inv.atIndex i e₁ hi
    have hj' := inv.atIndex j e₂ hj
    have hij : i = j := by omega
    subst hij
    rw [hi] at hj
    exact Option.some.inj hj
  · intro e he hp
    exact inv.queued e he (inv.suspended e he hp)
  · intro keyword options requestId now p hl hq
    exact processKeyword_of_queued s keyword options requestId now p hl hq
  · intro keyword options c rest hl
    constructor
    · intro p hq
      exact processKeywordAll_queued keyword options p (c :: rest) s hl hq
    · intro hq
      obtain ⟨requestId, now⟩ := c
      have h₁ := processKeyword_of_idle s keyword options requestId now
        (hl (requestId, now) (List.mem_cons_self _ _)) hq
      have h₂ := processKeywordAll_queued keyword options s.executions.length rest
        (startedState s keyword options requestId)
        (fun x hx => hl x (List.mem_cons_of_mem _ hx))
        (JsMap.get?_set_self _ _ _)
      refine ⟨by simp only [processKeywordAll, h₁, h₂], ?_⟩
      intro outcome
      obtain ⟨s₂, hs₂, _, _, he⟩ :=
        settlePipeline_startedState s keyword options requestId outcome
      exact ⟨s₂, hs₂, by rw [he]; rfl⟩

/-- Witness for C2: three calls for the same key on a fresh coordinator start
one execution, and all three callers hold its promise. -/
theorem single_flight_witness :
    processKeywordAll (NewsAggregator.new String) "ai" []
        [("req_1", 0), ("req_2", 1), ("req_3", 2)]
      = (⟨[], [("ai_\x7b\x7d", 0)],
          [⟨0, "ai_\x7b\x7d", "ai", [], "req_1", .pending, true⟩]⟩,
        [.started 0, .queued 0, .queued 0]) :=
  ((single_flight (NewsAggregator.new String) Reachable.init).2.2.2 "ai" []
    ("req_1", 0) [("req_2", 1), ("req_3", 2)] (by decide)).2 (by decide) |>.1

/-! ## Completion of a run -/

/-- A transition keeps every execution at its index, with its cache key. -/
theorem step_keeps_execution {ρ : Type} {s s' : NewsAggregator ρ} {ev : Event ρ}
    (h : step s ev = some s') (p : Nat) (e : Execution ρ) (he : s.executions[p]? = some e) :
    ∃ e', s'.executions[p]? = some e' ∧ e'.cacheKey = e.cacheKey := by
  cases ev with
  | call keyword options requestId now =>
    simp only [step, Option.some.injEq] at h
    subst h
    rcases processKeyword_cases s keyword options requestId now with
      ⟨d, _, hd⟩ | ⟨q, _, _, hq⟩ | ⟨_, _, hs⟩
    · rw [hd]; exact ⟨e, he, rfl⟩
    · rw [hq]; exact ⟨e, he, rfl⟩
    · rw [hs]
      have hlt : p < s.executions.length := by
        by_contra hge
        rw [List.getElem?_eq_none (Nat.le_of_not_lt hge)] at he
        exact Option.noConfusion he
      exact ⟨e, by simp only [startedState]; rw [List.getElem?_append_left hlt]; exact he, rfl⟩
  | settle q outcome =>
    obtain ⟨_, _, _, rfl⟩ := settlePipeline_some h
    exact ⟨Execution.settle q (.ofOutcome outcome) e,
      by simp only [List.getElem?_map, he, Option.map_some'], by simp⟩
  | resume q now =>
    simp only [step, Option.map_eq_some'] at h
    obtain ⟨⟨s₂, out⟩, h₂, rfl⟩ := h
    obtain ⟨_, _, _, _, hex, _⟩ := resumeProcessKeyword_some h₂
    exact ⟨Execution.finish q e,
      by simp only [hex, List.getElem?_map, he, Option.map_some'], by simp⟩
  | clear =>
    simp only [step, Option.some.injEq] at h
    subst h
    exact ⟨e, he, rfl⟩

/-- A sequence of transitions keeps every execution at its index, with its
cache key. -/
theorem run_keeps_execution {ρ : Type} (events : List (Event ρ)) (s s' : NewsAggregator ρ)
    (h : run s events = some s') (p : Nat) (e : Execution ρ) (he : s.executions[p]? = some e) :
    ∃ e', s'.executions[p]? = some e' ∧ e'.cacheKey = e.cacheKey := by
  induction events generalizing s e with
  | nil =>
    simp only [run, Option.some.injEq] at h
    subst h
    exact ⟨e, he, rfl⟩
  | cons ev rest ih =>
    simp only [run, Option.bind_eq_some] at h
    obtain ⟨s₁, h₁, h₂⟩ := h
    obtain ⟨e₁, he₁, hk₁⟩ := step_keeps_execution h₁ p e he
    obtain ⟨e', he', hk'⟩ := ih s₁ h₂ e₁ he₁
    exact ⟨e', he', hk'.trans hk₁⟩

/-- A started execution that ends with `outcome` and whose call then runs on:
the call returns `outcome`, the queue entry is gone, and the cache holds the
report after a success and is as before the call after a failure. -/
theorem startedState_completes {ρ : Type} (s₀ : NewsAggregator ρ) (keyword : String)
    (options : Options) (requestId : String) (outcome : Except String ρ) (now : Int) :
    ∃ s₂ s₃,
      settlePipeline (startedState s₀ keyword options requestId) s₀.executions.length outcome
        = some s₂ ∧
      resumeProcessKeyword s₂ s₀.executions.length now = some (s₃, outcome) ∧
      s₃.processingQueue.get? (cacheKey keyword options) = none ∧
      (match outcome with
        | .ok report => s₃.cache.get? (cacheKey keyword options) = some ⟨report, now⟩
        | .error _ => s₃.cache = s₀.cache) := by
  obtain ⟨s₂, hs₂, hc, hq, he⟩ :=
    settlePipeline_startedState s₀ keyword options requestId outcome
  cases outcome with
  | ok report =>
    refine ⟨s₂, { cache := s₂.cache.set (cacheKey keyword options) ⟨report, now⟩
                  processingQueue := s₂.processingQueue.delete (cacheKey keyword options)
                  executions := s₂.executions.map (Execution.finish s₀.executions.length) },
      hs₂, ?_, JsMap.get?_delete_self _ _, JsMap.get?_set_self _ _ _⟩
    simp [resumeProcessKeyword, he, PromiseState.ofOutcome]
  | error err =>
    refine ⟨s₂, { cache := s₂.cache
                  processingQueue := s₂.processingQueue.delete (cacheKey keyword options)
                  executions := s₂.executions.map (Execution.finish s₀.executions.length) },
      hs₂, ?_, JsMap.get?_delete_self _ _, hc⟩
    simp [resumeProcessKeyword, he, PromiseState.ofOutcome]

/-- C4. Completion bookkeeping. Let a call of `processKeyword` start a
pipeline execution for key `k`. The call itself leaves the cache as it was
and registers the execution in the queue. When the run ends with any outcome
and the call runs on, the call returns that outcome (the report, or the
error rethrown), the queue holds no entry for `k`, and the cache holds the
report with the completion time under `k` after a success and is as it was
before the call after a failure. The same holds under any interleaving of
other events between the start and the completion, the cache after a failure
being the cache just before the completion. -/
theorem completion_bookkeeping {ρ : Type} (s₀ s₁ : NewsAggregator ρ) (keyword : String)
    (options : Options) (requestId : String) (t₀ : Int) (p : Nat)
    (hstart : processKeyword s₀ keyword options requestId t₀ = (s₁, .started p)) :
    s₁.cache = s₀.cache ∧
    s₁.processingQueue.get? (cacheKey keyword options) = some p ∧
    (∀ (outcome : Except String ρ) (now : Int), ∃ s₂ s₃,
      settlePipeline s₁ p outcome = some s₂ ∧
      resumeProcessKeyword s₂ p now = some (s₃, outcome) ∧
      s₃.processingQueue.get? (cacheKey keyword options) = none ∧
      (match outcome with
        | .ok report => s₃.cache.get? (cacheKey keyword options) = some ⟨report, now⟩
        | .error _ => s₃.cache = s₀.cache)) ∧
    (∀ (events : List (Event ρ)) (s s' : NewsAggregator ρ) (now : Int)
        (out : Except String ρ),
      run s₁ events = some s → resumeProcessKeyword s p now = some (s', out) →
      s'.processingQueue.get? (cacheKey keyword options) = none ∧
      (match out with
        | .ok report => s'.cache.get? (cacheKey keyword options) = some ⟨report, now⟩
        | .error _ => s'.cache = s.cache)) := by
  obtain ⟨rfl, rfl, _, _⟩ := processKeyword_started hstart
  refine ⟨rfl, JsMap.get?_set_self _ _ _, ?_, ?_⟩
  · intro outcome now
    exact startedState_completes s₀ keyword options requestId outcome now
  · intro events s s' now out hrun hres
    have he₁ : (startedState s₀ keyword options requestId).executions[s₀.executions.length]? =
        some ⟨s₀.executions.length, cacheKey keyword options, keyword, options, requestId,
          .pending, true⟩ := by
      simp [startedState]
    obtain ⟨e', he', hk'⟩ := run_keeps_execution events _ s hrun _ _ he₁
    obtain ⟨e, he, _, hq, _, hcase⟩ := resumeProcessKeyword_some hres
    rw [he'] at he
    have hee : e' = e := Option.some.inj he
    subst hee
    have hk : e'.cacheKey = cacheKey keyword options := hk'
    rw [hk] at hq hcase
    refine ⟨by rw [hq]; exact JsMap.get?_delete_self _ _, ?_⟩
    rcases hcase with ⟨r, _, rfl, hc⟩ | ⟨err, _, rfl, hc⟩
    · simp only [hc]
      exact JsMap.get?_set_self _ _ _
    · simpa using hc

/-- Witness for C4: the call on a fresh coordinator starts execution 0; a run
that fails with an error leaves cache and queue empty, and the error is
rethrown. -/
theorem completion_bookkeeping_witness :
    ∃ s₂ s₃, settlePipeline
        (⟨[], [("ai_\x7b\x7d", 0)], [⟨0, "ai_\x7b\x7d", "ai", [], "req_1", .pending, true⟩]⟩ :
          NewsAggregator String) 0 (.error "No articles found for the given keyword") = some s₂ ∧
      resumeProcessKeyword s₂ 0 1000
        = some (s₃, .error "No articles found for the given keyword") ∧
      s₃.processingQueue.get? (cacheKey "ai" []) = none ∧
      s₃.cache = (NewsAggregator.new String).cache :=
  (completion_bookkeeping (NewsAggregator.new String)
    ⟨[], [("ai_\x7b\x7d", 0)], [⟨0, "ai_\x7b\x7d", "ai", [], "req_1", .pending, true⟩]⟩
    "ai" [] "req_1" 0 0 (by decide)).2.2.1 (.error "No articles found for the given keyword") 1000

/-! ## The empty result -/

/-- C5. Empty result. When `fetchNews` returns no article (an empty list, or
no list at all), `executeProcessingPipeline` invokes the fetch stage only and
throws `No articles found for the given keyword`; the call of
`processKeyword` that started the run rethrows that error, and the cache is
as it was before the call: nothing is stored for the key. -/
theorem empty_result {A B σ α τ ν ι μ : Type} (agents : Agents A B σ α τ ν ι μ)
    (keyword : String) (options : Options) (requestId : String) (isoNow : String)
    (hempty : agents.fetchNews keyword options = .ok none ∨
      agents.fetchNews keyword options = .ok (some [])) :
    executeProcessingPipeline agents keyword options requestId isoNow
      = ([.fetch], .error "No articles found for the given keyword") ∧
    ∀ (s₀ s₁ : NewsAggregator (Report σ α τ ν)) (t₀ now : Int) (p : Nat),
      processKeyword s₀ keyword options requestId t₀ = (s₁, .started p) →
      ∃ s₂ s₃,
        settlePipeline s₁ p (executeProcessingPipeline agents keyword options requestId isoNow).2
          = some s₂ ∧
        resumeProcessKeyword s₂ p now
          = some (s₃, .error "No articles found for the given keyword") ∧
        s₃.cache = s₀.cache ∧
        s₃.processingQueue.get? (cacheKey keyword options) = none := by
  have hpipe : executeProcessingPipeline agents keyword options requestId isoNow
      = ([.fetch], .error "No articles found for the given keyword") := by
    rcases hempty with h | h <;> simp [executeProcessingPipeline, h]
  refine ⟨hpipe, ?_⟩
  intro s₀ s₁ t₀ now p hstart
  obtain ⟨rfl, rfl, _, _⟩ := processKeyword_started hstart
  rw [hpipe]
  obtain ⟨s₂, s₃, h₂, h₃, hq, hc⟩ := startedState_completes s₀ keyword options requestId
    (.error "No articles found for the given keyword" : Except String (Report σ α τ ν)) now
  exact ⟨s₂, s₃, h₂, h₃, hc, hq⟩

/-- Witness for C5: with a crawler that finds nothing the pipeline stops after
the fetch stage with the error. -/
theorem empty_result_witness :
    executeProcessingPipeline noArticlesAgents "ai" [] "req_1" "2024-01-01T00:00:00.000Z"
      = ([.fetch], .error "No articles found for the given keyword") :=
  (empty_result noArticlesAgents "ai" [] "req_1" "2024-01-01T00:00:00.000Z"
    (Or.inr rfl)).1

/-! ## The cache key -/

/-- A property is left out of the JSON text exactly when its value is
`undefined`. -/
theorem JSON.stringifyField_eq_none (f : String × JsVal) :
    JSON.stringifyField f = none ↔ f.2 = .undefined := by
  obtain ⟨name, v⟩ := f
  cases v with
  | bool b => cases b <;> simp [JSON.stringifyField, JSON.stringifyValue]
  | _ => simp [JSON.stringifyField, JSON.stringifyValue]

/-- The JSON text is made from the properties with a defined value. -/
theorem JSON.stringify_filter (options : Options) :
    JSON.stringify (options.filter (fun f => decide (f.2 ≠ .undefined)))
      = JSON.stringify options := by
  have h : (options.filter (fun f => decide (f.2 ≠ .undefined))).filterMap JSON.stringifyField
      = options.filterMap JSON.stringifyField := by
    induction options with
    | nil => rfl
    | cons f rest ih =>
      by_cases hf : f.2 = .undefined
      · have hn := (JSON.stringifyField_eq_none f).mpr hf
        simpa [List.filter_cons, hf, List.filterMap_cons, hn] using ih
      · cases hs : JSON.stringifyField f with
        | none => exact absurd ((JSON.stringifyField_eq_none f).mp hs) hf
        | some t => simpa [List.filter_cons, hf, List.filterMap_cons, hs] using ih
  simp only [JSON.stringify, h]

/-- Counterexample for C6: the options `{language: 'en', pageSize: 5}` and
`{pageSize: 5, language: 'en'}` have the same fields with the same values, but
their cache keys differ, and after a run for the first has stored its report,
a call with the second is not served from the cache: it starts a new
execution. -/
theorem cacheKey_order_counterexample :
    cacheKey "ai" [("language", .str "en"), ("pageSize", .num 5)]
      ≠ cacheKey "ai" [("pageSize", .num 5), ("language", .str "en")] ∧
    ((run (NewsAggregator.new String)
        [.call "ai" [("language", .str "en"), ("pageSize", .num 5)] "req_1" 0,
         .settle 0 (.ok "report"), .resume 0 1000]).map
      (fun s => (processKeyword s "ai" [("pageSize", .num 5), ("language", .str "en")]
        "req_2" 1500).2)) = some (.started 1) := by
  decide

/-- C6, amended. Two options objects that list the same properties with the
same values in the same order, properties whose value is `undefined` left
aside, get the same cache key for every keyword, and a request with one is
served from a live cache entry stored for the other. -/
theorem cacheKey_same_order (keyword : String) (options₁ options₂ : Options)
    (h : options₁.filter (fun f => decide (f.2 ≠ .undefined))
      = options₂.filter (fun f => decide (f.2 ≠ .undefined))) :
    cacheKey keyword options₁ = cacheKey keyword options₂ ∧
    ∀ {ρ : Type} (s : NewsAggregator ρ) (entry : CacheEntry ρ) (requestId : String) (now : Int),
      s.cache.get? (cacheKey keyword options₁) = some entry →
      now - entry.timestamp < cacheTTL →
      processKeyword s keyword options₂ requestId now = (s, .cached entry.data) := by
  have hkey : cacheKey keyword options₁ = cacheKey keyword options₂ := by
    unfold cacheKey
    rw [← JSON.stringify_filter options₁, ← JSON.stringify_filter options₂, h]
  refine ⟨hkey, ?_⟩
  intro ρ s entry requestId now hentry hfresh
  rw [hkey] at hentry
  simp [processKeyword, liveEntry, hentry, hfresh]

/-- Witness for C6 (amended): an absent `sortBy` and a `sortBy` that is
`undefined` give the same key. -/
theorem cacheKey_same_order_witness :
    cacheKey "ai" [("language", .str "en"), ("sortBy", .undefined), ("pageSize", .num 5)]
      = cacheKey "ai" [("language", .str "en"), ("pageSize", .num 5)] :=
  (cacheKey_same_order "ai"
    [("language", .str "en"), ("sortBy", .undefined), ("pageSize", .num 5)]
    [("language", .str "en"), ("pageSize", .num 5)] (by decide)).1

/-- Counterexample for C7: `" ai "` and `"ai"` are equal after trimming and
case folding, but `processKeyword` computes different cache keys for them. -/
theorem cacheKey_trim_counterexample :
    toLowerCase (trim " ai ") = toLowerCase (trim "ai") ∧
    cacheKey " ai " [] = " ai _\x7b\x7d" ∧ cacheKey "ai" [] = "ai_\x7b\x7d" ∧
    cacheKey " ai " [] ≠ cacheKey "ai" [] := by
  decide

/-- C7, amended. For every options value, `processKeyword` computes the same
cache key for two keywords exactly when they are equal after case folding, as
`AI` and `ai` are, or `ÉCOLE` and `école`; it does not trim. The callers (the
`/search` route and the socket handler) trim the keyword before the call, so
through them keywords that are equal after trimming and case folding, as `AI`,
`ai` and ` ai `, get the same key. -/
theorem cacheKey_case_fold (keyword₁ keyword₂ : String) (options : Options) :
    (cacheKey keyword₁ options = cacheKey keyword₂ options ↔
      toLowerCase keyword₁ = toLowerCase keyword₂) ∧
    (routeCacheKey keyword₁ options = routeCacheKey keyword₂ options ↔
      toLowerCase (trim keyword₁) = toLowerCase (trim keyword₂)) ∧
    cacheKey "AI" options = cacheKey "ai" options ∧
    cacheKey "ÉCOLE" options = cacheKey "école" options ∧
    routeCacheKey "AI" options = routeCacheKey " ai " options ∧
    cacheKey "ai" options ≠ cacheKey " ai " options := by
  have key : ∀ a b : String, cacheKey a options = cacheKey b options ↔
      toLowerCase a = toLowerCase b := by
    intro a b
    constructor
    · intro h
      unfold cacheKey at h
      have h' := congrArg String.data h
      simp only [String.data_append] at h'
      have h'' := List.append_cancel_right (List.append_cancel_right h')
      exact String.ext h''
    · intro h
      simp only [cacheKey, h]
  refine ⟨key keyword₁ keyword₂, key (trim keyword₁) (trim keyword₂),
    (key "AI" "ai").mpr (by decide), (key "ÉCOLE" "école").mpr (by decide),
    (key (trim "AI") (trim " ai ")).mpr (by decide), ?_⟩
  intro h
  exact absurd ((key "ai" " ai ").mp h) (by decide)

/-! ## Deduplication -/

theorem removeDuplicatesFrom_sublist (seen : List JsVal) (articles : List Article) :
    (removeDuplicatesFrom seen articles).Sublist articles := by
  induction articles generalizing seen with
  | nil => exact List.Sublist.refl _
  | cons a rest ih =>
    unfold removeDuplicatesFrom
    split
    · exact (ih seen).cons a
    · exact (ih _).cons₂ a

/-- No article kept by `removeDuplicatesFrom seen` has a key in `seen`. -/
theorem removeDuplicatesFrom_not_seen (seen : List JsVal) (articles : List Article) :
    ∀ a ∈ removeDuplicatesFrom seen articles, identityKey a ∉ seen := by
  induction articles generalizing seen with
  | nil => intro a ha; simp [removeDuplicatesFrom] at ha
  | cons x rest ih =>
    intro a ha
    unfold removeDuplicatesFrom at ha
    split at ha
    · exact ih seen a ha
    · rename_i hx
      rcases List.mem_cons.mp ha with rfl | ha'
      · simpa using hx
      · exact fun hmem => ih _ a ha' (List.mem_cons_of_mem _ hmem)

theorem removeDuplicatesFrom_nodup (seen : List JsVal) (articles : List Article) :
    ((removeDuplicatesFrom seen articles).map identityKey).Nodup := by
  induction articles generalizing seen with
  | nil => simp [removeDuplicatesFrom]
  | cons x rest ih =>
    unfold removeDuplicatesFrom
    split
    · exact ih seen
    · rw [List.map_cons, List.nodup_cons]
      refine ⟨?_, ih _⟩
      intro hmem
      obtain ⟨b, hb, hkey⟩ := List.mem_map.mp hmem
      exact removeDuplicatesFrom_not_seen _ rest b hb (by rw [hkey]; exact List.mem_cons_self _ _)

/-- Every key of the input is in `seen` or is the key of a kept article. -/
theorem removeDuplicatesFrom_complete (seen : List JsVal) (articles : List Article) :
    ∀ a ∈ articles, identityKey a ∈ seen ∨
      identityKey a ∈ (removeDuplicatesFrom seen articles).map identityKey := by
  induction articles generalizing seen with
  | nil => intro a ha; simp at ha
  | cons x rest ih =>
    intro a ha
    unfold removeDuplicatesFrom
    rcases List.mem_cons.mp ha with rfl | ha'
    · split
      · rename_i hx
        exact Or.inl (by simpa using hx)
      · exact Or.inr (by simp)
    · split
      · exact ih seen a ha'
      · rcases ih (identityKey x :: seen) a ha' with h | h
        · rcases List.mem_cons.mp h with h | h
          · exact Or.inr (by rw [h]; simp)
          · exact Or.inl h
        · exact Or.inr (List.mem_cons_of_mem _ h)

/-- A kept article is the first article of the input with its key. -/
theorem removeDuplicatesFrom_first (seen : List JsVal) (articles : List Article) :
    ∀ a ∈ removeDuplicatesFrom seen articles,
      articles.find? (fun b => decide (identityKey b = identityKey a)) = some a := by
  induction articles generalizing seen with
  | nil => intro a ha; simp [removeDuplicatesFrom] at ha
  | cons x rest ih =>
    intro a ha
    unfold removeDuplicatesFrom at ha
    split at ha
    · rename_i hx
      have hseen : identityKey x ∈ seen := by simpa using hx
      have hne : ¬ identityKey x = identityKey a := fun h =>
        removeDuplicatesFrom_not_seen seen rest a ha (h ▸ hseen)
      rw [List.find?_cons_of_neg _ (by simpa using hne)]
      exact ih seen a ha
    · rcases List.mem_cons.mp ha with rfl | ha'
      · exact List.find?_cons_of_pos _ (by simp)
      · have hne : ¬ identityKey x = identityKey a := fun h =>
          removeDuplicatesFrom_not_seen _ rest a ha' (h ▸ List.mem_cons_self _ _)
        rw [List.find?_cons_of_neg _ (by simpa using hne)]
        exact ih _ a ha'

/-- C9. Deduplication. `removeDuplicates` returns a sub-list of its input, in
the input's order, in which no two articles share an identity key; every
identity key of the input occurs in it exactly once; each article kept is the
first article of the input with its key. The identity key is the url when
that is a non-empty string, and the id when the url is `undefined`, `null` or
the empty string. -/
theorem removeDuplicates_spec (articles : List Article) :
    (removeDuplicates articles).Sublist articles ∧
    ((removeDuplicates articles).map identityKey).Nodup ∧
    (∀ a ∈ articles,
      ((removeDuplicates articles).map identityKey).count (identityKey a) = 1) ∧
    (∀ a ∈ removeDuplicates articles,
      articles.find? (fun b => decide (identityKey b = identityKey a)) = some a) ∧
    (∀ a : Article,
      (∀ u : String, a.url = .str u → u ≠ "" → identityKey a = .str u) ∧
      (a.url = .undefined ∨ a.url = .null ∨ a.url = .str "" → identityKey a = a.id)) := by
  refine ⟨removeDuplicatesFrom_sublist [] articles, removeDuplicatesFrom_nodup [] articles,
    ?_, removeDuplicatesFrom_first [] articles, ?_⟩
  · intro a ha
    apply List.count_eq_one_of_mem (removeDuplicatesFrom_nodup [] articles)
    rcases removeDuplicatesFrom_complete [] articles a ha with h | h
    · simp at h
    · exact h
  · intro a
    constructor
    · intro u hu hne
      simp [identityKey, JsVal.or, JsVal.truthy, hu, hne]
    · rintro (h | h | h) <;> simp [identityKey, JsVal.or, JsVal.truthy, h]

/-! ## The fetch stage tolerates failing adapters -/

/-- The sort by date holds the articles of its input. -/
theorem sortByDate_perm (engine : ArraySort) (time : JsVal → Option Int) (l : List Article) :
    (sortByDate engine time l).Perm l :=
  engine.perm _ _

/-- The sort of an empty array is empty. -/
theorem sortByDate_nil (engine : ArraySort) (time : JsVal → Option Int) :
    sortByDate engine time [] = [] :=
  (sortByDate_perm engine time []).eq_nil

theorem collect_eq (allArticles : List Article) (result : Settled) :
    collect allArticles result = allArticles ++ fulfilledArticles result := by
  cases result with
  | fulfilled value => cases value <;> simp [collect, fulfilledArticles]
  | rejected reason => simp [collect, fulfilledArticles]

theorem foldl_collect (results : List Settled) (allArticles : List Article) :
    results.foldl collect allArticles
      = allArticles ++ (results.map fulfilledArticles).flatten := by
  induction results generalizing allArticles with
  | nil => simp
  | cons r rest ih => simp [List.foldl_cons, ih, collect_eq, List.append_assoc]

/-- C10. Partial-failure tolerance. Whatever the credentials and however each
adapter call ends (fulfilled with a list, fulfilled without one, or rejected),
`fetchNews` returns, and what it returns is the merged list of the enabled
adapters that succeeded, in the order NewsAPI, Guardian, NYT, after
`removeDuplicates`, the sort by date and the slice to `pageSize` (20 when
absent); a failed adapter contributes nothing, and the result is the empty
list when no enabled adapter supplied an article. -/
theorem fetchNews_partial_failure (agent : CrawlerAgent) (engine : ArraySort) (time : JsVal → Option Int)
    (weekAgo today : String) (keyword : String) (options : FetchOptions) :
    fetchNews agent engine time weekAgo today keyword options
      = .ok (sliceTo (sortByDate engine time (removeDuplicates
          (mergedArticles agent weekAgo today keyword options))) (options.pageSize.getD 20)) ∧
    (mergedArticles agent weekAgo today keyword options = [] →
      fetchNews agent engine time weekAgo today keyword options = .ok []) := by
  have h : fetchNews agent engine time weekAgo today keyword options
      = .ok (sliceTo (sortByDate engine time (removeDuplicates
          (mergedArticles agent weekAgo today keyword options))) (options.pageSize.getD 20)) := by
    simp only [fetchNews, mergedArticles, foldl_collect]
    cases agent.newsApiKey.truthy <;> cases agent.guardianApiKey.truthy <;>
      cases agent.nytApiKey.truthy <;> simp
  refine ⟨h, ?_⟩
  intro hnil
  rw [h, hnil]
  simp [removeDuplicates, removeDuplicatesFrom, sortByDate_nil, sliceTo]

/-! ## Sorting and truncation -/

/-- What `fetchNews` returns, in terms of the sorted deduplicated list. -/
theorem fetchNews_eq (agent : CrawlerAgent) (engine : ArraySort) (time : JsVal → Option Int)
    (weekAgo today : String) (keyword : String) (options : FetchOptions) :
    fetchNews agent engine time weekAgo today keyword options
      = .ok (sliceTo (sortedUnique agent engine time weekAgo today keyword options)
          (options.pageSize.getD 20)) := by
  simp only [fetchNews, sortedUnique, mergedArticles, foldl_collect]
  cases agent.newsApiKey.truthy <;> cases agent.guardianApiKey.truthy <;>
    cases agent.nytApiKey.truthy <;> simp

theorem keepsOrder_iff (time : JsVal → Option Int) (a b : Article) (ta tb : Int)
    (ha : time a.publishedAt = some ta) (hb : time b.publishedAt = some tb) :
    keepsOrder time a b = true ↔ tb ≤ ta := by
  simp [keepsOrder, compareByDate, ha, hb]

/-- For the comparator of `fetchNews` the test of the sort is `keepsOrder`. -/
theorem notAfter_compareByDate (time : JsVal → Option Int) (a b : Article) :
    notAfter (compareByDate time) a b = keepsOrder time a b := by
  unfold notAfter comparison keepsOrder
  cases compareByDate time a b <;> simp

/-- The value of the comparator of `fetchNews` for two valid dates. -/
theorem comparison_compareByDate (time : JsVal → Option Int) (a b : Article) (ta tb : Int)
    (ha : time a.publishedAt = some ta) (hb : time b.publishedAt = some tb) :
    comparison (compareByDate time) a b = tb - ta := by
  simp [comparison, compareByDate, ha, hb]

/-- The comparator of `fetchNews` is consistent on a list whose dates are all
valid. -/
theorem consistent_compareByDate (time : JsVal → Option Int) (l : List Article)
    (hl : ∀ b ∈ l, (time b.publishedAt).isSome) : Consistent (compareByDate time) l := by
  have hv : ∀ a ∈ l, ∃ ta, time a.publishedAt = some ta :=
    fun a ha => Option.isSome_iff_exists.mp (hl a ha)
  refine ⟨?_, ?_, ?_, ?_, ?_⟩
  · intro a ha
    obtain ⟨ta, hta⟩ := hv a ha
    rw [comparison_compareByDate time a a ta ta hta hta]
    omega
  · intro a ha b hb h
    obtain ⟨ta, hta⟩ := hv a ha
    obtain ⟨tb, htb⟩ := hv b hb
    rw [comparison_compareByDate time a b ta tb hta htb] at h
    rw [comparison_compareByDate time b a tb ta htb hta]
    omega
  · intro a ha b hb c hc h₁ h₂
    obtain ⟨ta, hta⟩ := hv a ha
    obtain ⟨tb, htb⟩ := hv b hb
    obtain ⟨tc, htc⟩ := hv c hc
    rw [comparison_compareByDate time a b ta tb hta htb] at h₁
    rw [comparison_compareByDate time b c tb tc htb htc] at h₂
    rw [comparison_compareByDate time a c ta tc hta htc]
    omega
  · intro a ha b hb c hc h₁ h₂
    obtain ⟨ta, hta⟩ := hv a ha
    obtain ⟨tb, htb⟩ := hv b hb
    obtain ⟨tc, htc⟩ := hv c hc
    rw [comparison_compareByDate time a b ta tb hta htb] at h₁
    rw [comparison_compareByDate time b c tb tc htb htc] at h₂
    rw [comparison_compareByDate time a c ta tc hta htc]
    omega
  · intro a ha b hb c hc h₁ h₂
    obtain ⟨ta, hta⟩ := hv a ha
    obtain ⟨tb, htb⟩ := hv b hb
    obtain ⟨tc, htc⟩ := hv c hc
    rw [comparison_compareByDate time a b ta tb hta htb] at h₁
    rw [comparison_compareByDate time b c tb tc htb htc] at h₂
    rw [comparison_compareByDate time a c ta tc hta htc]
    omega

/-- Inserting an article with a valid date into a list sorted newest first,
all of whose dates are valid, gives a list sorted newest first. -/
theorem orderedInsert_sorted (time : JsVal → Option Int) (a : Article)
    (ha : (time a.publishedAt).isSome) (l : List Article)
    (hl : ∀ b ∈ l, (time b.publishedAt).isSome)
    (hs : l.Pairwise (publishedNoEarlier time)) :
    (l.orderedInsert (fun x y => keepsOrder time x y = true) a).Pairwise
      (publishedNoEarlier time) := by
  obtain ⟨ta, hta⟩ := Option.isSome_iff_exists.mp ha
  induction l with
  | nil => simp
  | cons b rest ih =>
    obtain ⟨tb, htb⟩ := Option.isSome_iff_exists.mp (hl b (List.mem_cons_self _ _))
    have hrest : ∀ c ∈ rest, (time c.publishedAt).isSome :=
      fun c hc => hl c (List.mem_cons_of_mem _ hc)
    rw [List.pairwise_cons] at hs
    by_cases h : keepsOrder time a b = true
    · have hab : tb ≤ ta := (keepsOrder_iff time a b ta tb hta htb).mp h
      simp only [List.orderedInsert, h, if_true]
      refine List.pairwise_cons.mpr ⟨?_, List.pairwise_cons.mpr hs⟩
      intro c hc
      rcases List.mem_cons.mp hc with rfl | hc
      · exact ⟨ta, tb, hta, htb, hab⟩
      · obtain ⟨tb', tc, htb', htc, hbc⟩ := hs.1 c hc
        rw [htb] at htb'
        cases htb'
        exact ⟨ta, tc, hta, htc, le_trans hbc hab⟩
    · have hba : ta ≤ tb := by
        have := (keepsOrder_iff time a b ta tb hta htb).not.mp h
        omega
      simp only [List.orderedInsert, h, if_false]
      refine List.pairwise_cons.mpr ⟨?_, ih hrest hs.2⟩
      intro c hc
      rcases (List.mem_orderedInsert _).mp hc with rfl | hc
      · exact ⟨tb, ta, htb, hta, hba⟩
      · exact hs.1 c hc

/-- The insertion sort by date puts a list of articles with valid dates newest
first. -/
theorem insertionSort_sorted (time : JsVal → Option Int) (l : List Article)
    (hl : ∀ b ∈ l, (time b.publishedAt).isSome) :
    (l.insertionSort (fun a b => keepsOrder time a b = true)).Pairwise
      (publishedNoEarlier time) := by
  induction l with
  | nil => simp
  | cons a rest ih =>
    have hrest : ∀ c ∈ rest, (time c.publishedAt).isSome :=
      fun c hc => hl c (List.mem_cons_of_mem _ hc)
    simp only [List.insertionSort]
    exact orderedInsert_sorted time a (hl a (List.mem_cons_self _ _)) _
      (fun b hb => hrest b ((List.mem_insertionSort _).mp hb)) (ih hrest)

/-- The sort by date puts a list of articles with valid dates newest first. -/
theorem sortByDate_sorted (engine : ArraySort) (time : JsVal → Option Int) (l : List Article)
    (hl : ∀ b ∈ l, (time b.publishedAt).isSome) :
    (sortByDate engine time l).Pairwise (publishedNoEarlier time) := by
  have h := engine.stable (compareByDate time) l (consistent_compareByDate time l hl)
  have hfun : (fun a b => notAfter (compareByDate time) a b = true)
      = (fun a b => keepsOrder time a b = true) := by
    funext a b
    rw [notAfter_compareByDate]
  rw [sortByDate, h]
  simp only [hfun]
  exact insertionSort_sorted time l hl

/-- The sorted deduplicated list is sorted newest first when all dates of the
merged list are valid. -/
theorem sortedUnique_sorted (agent : CrawlerAgent) (engine : ArraySort)
    (time : JsVal → Option Int) (weekAgo today : String) (keyword : String)
    (options : FetchOptions)
    (hvalid : ∀ a ∈ mergedArticles agent weekAgo today keyword options,
      (time a.publishedAt).isSome) :
    (sortedUnique agent engine time weekAgo today keyword options).Pairwise
      (publishedNoEarlier time) :=
  sortByDate_sorted engine time _
    (fun b hb => hvalid b ((removeDuplicatesFrom_sublist [] _).subset hb))

/-- The sorted deduplicated list holds the articles of the deduplicated
merge. -/
theorem sortedUnique_perm (agent : CrawlerAgent) (engine : ArraySort)
    (time : JsVal → Option Int) (weekAgo today : String) (keyword : String)
    (options : FetchOptions) :
    (sortedUnique agent engine time weekAgo today keyword options).Perm
      (removeDuplicates (mergedArticles agent weekAgo today keyword options)) :=
  sortByDate_perm engine time _

theorem sliceTo_sublist (l : List Article) (pageSize : Int) : (sliceTo l pageSize).Sublist l := by
  unfold sliceTo
  split <;> exact List.take_sublist _ _

/-- C11. Sorted output. When every article of the merged adapter results
carries a valid publication date, `fetchNews` returns a list in which every
article is published no earlier than each article after it, and the list is,
up to order, a part of the deduplicated merge. -/
theorem fetchNews_sorted (agent : CrawlerAgent) (engine : ArraySort) (time : JsVal → Option Int)
    (weekAgo today : String) (keyword : String) (options : FetchOptions)
    (hvalid : ∀ a ∈ mergedArticles agent weekAgo today keyword options,
      (time a.publishedAt).isSome) :
    ∃ result, fetchNews agent engine time weekAgo today keyword options = .ok result ∧
      result.Pairwise (publishedNoEarlier time) ∧
      result.Subperm (removeDuplicates (mergedArticles agent weekAgo today keyword options)) := by
  refine ⟨_, fetchNews_eq agent engine time weekAgo today keyword options, ?_, ?_⟩
  · exact (sortedUnique_sorted agent engine time weekAgo today keyword options hvalid).sublist
      (sliceTo_sublist _ _)
  · exact (sliceTo_sublist _ _).subperm.trans
      (sortedUnique_perm agent engine time weekAgo today keyword options).subperm

/-- Witness for C11: three articles published at times 1, 3 and 2 come back
in the order 3, 2, 1. -/
theorem fetchNews_sorted_witness :
    ∃ result, fetchNews newsApiOnly ArraySort.insertion timeOfNumber "2024-01-01" "2024-01-08"
        "ai" {} = .ok result ∧
      result.Pairwise (publishedNoEarlier timeOfNumber) ∧
      result.Subperm
        (removeDuplicates (mergedArticles newsApiOnly "2024-01-01" "2024-01-08" "ai" {})) :=
  fetchNews_sorted newsApiOnly ArraySort.insertion timeOfNumber "2024-01-01" "2024-01-08" "ai" {}
    (by decide)

/-- Counterexample for C12. The merged list holds an article published at
time 1, an article without a publication date and an article published at
time 5, in this order. The comparator answers `NaN` for the two pairs of
neighbours. The sort of Node looks for a run first: it compares each element
with the one before it, reads `NaN` as zero and finds the array in order, as
the insertion sort does here. The list stays as it is, and with `pageSize` 2
`fetchNews` returns the first two articles: the article dropped is the newest
one, and the oldest one is kept. -/
theorem fetchNews_oldest_counterexample :
    mergedArticles undatedInTheMiddle "2024-01-01" "2024-01-08" "ai" { pageSize := some 2 }
      = [sampleArticle "x" 1, undatedArticle "z", sampleArticle "y" 5] ∧
    compareByDate timeOfNumber (sampleArticle "x" 1) (undatedArticle "z") = none ∧
    compareByDate timeOfNumber (undatedArticle "z") (sampleArticle "y" 5) = none ∧
    fetchNews undatedInTheMiddle ArraySort.insertion timeOfNumber "2024-01-01" "2024-01-08" "ai"
        { pageSize := some 2 }
      = .ok [sampleArticle "x" 1, undatedArticle "z"] ∧
    timeOfNumber (sampleArticle "x" 1).publishedAt = some 1 ∧
    timeOfNumber (sampleArticle "y" 5).publishedAt = some 5 := by
  refine ⟨by decide, by decide, by decide, ?_, rfl, rfl⟩
  rw [fetchNews_eq]
  exact congrArg Except.ok (by decide)

/-- C12, amended. For a positive `pageSize` (20 when the options have none)
`fetchNews` returns the first `min(pageSize, n)` articles of the sorted
deduplicated list, which holds the `n` articles of the deduplicated merge:
never more than `pageSize`; the articles left out are the rest of that list,
and when all dates are valid each of them is published no later than every
article returned. -/
theorem fetchNews_truncation (agent : CrawlerAgent) (engine : ArraySort)
    (time : JsVal → Option Int) (weekAgo today : String) (keyword : String)
    (options : FetchOptions) (hpos : 0 < options.pageSize.getD 20) :
    (sortedUnique agent engine time weekAgo today keyword options).Perm
      (removeDuplicates (mergedArticles agent weekAgo today keyword options)) ∧
    ∃ result dropped,
      fetchNews agent engine time weekAgo today keyword options = .ok result ∧
      result = (sortedUnique agent engine time weekAgo today keyword options).take
        (min (options.pageSize.getD 20).toNat
          (removeDuplicates (mergedArticles agent weekAgo today keyword options)).length) ∧
      (result.length : Int) = min (options.pageSize.getD 20)
        (removeDuplicates (mergedArticles agent weekAgo today keyword options)).length ∧
      result ++ dropped = sortedUnique agent engine time weekAgo today keyword options ∧
      (result ++ dropped).Perm
        (removeDuplicates (mergedArticles agent weekAgo today keyword options)) ∧
      ((∀ a ∈ mergedArticles agent weekAgo today keyword options,
          (time a.publishedAt).isSome) →
        ∀ a ∈ result, ∀ b ∈ dropped, publishedNoEarlier time a b) := by
  have hperm := sortedUnique_perm agent engine time weekAgo today keyword options
  have hlen := hperm.length_eq
  have hslice : sliceTo (sortedUnique agent engine time weekAgo today keyword options)
      (options.pageSize.getD 20)
      = (sortedUnique agent engine time weekAgo today keyword options).take
          (min (options.pageSize.getD 20).toNat
            (removeDuplicates (mergedArticles agent weekAgo today keyword options)).length) := by
    have hneg : ¬ options.pageSize.getD 20 < 0 := by omega
    simp only [sliceTo, hneg, if_false, ← hlen]
    rcases Nat.le_total (options.pageSize.getD 20).toNat
      (sortedUnique agent engine time weekAgo today keyword options).length with h | h
    · rw [Nat.min_eq_left h]
    · rw [Nat.min_eq_right h, List.take_of_length_le h, List.take_length]
  refine ⟨hperm, _, (sortedUnique agent engine time weekAgo today keyword options).drop
      (min (options.pageSize.getD 20).toNat
        (removeDuplicates (mergedArticles agent weekAgo today keyword options)).length),
    by rw [fetchNews_eq, hslice], rfl, ?_, List.take_append_drop _ _, ?_, ?_⟩
  · rw [List.length_take, ← hlen]
    omega
  · rw [List.take_append_drop]
    exact hperm
  · intro hvalid a ha b hb
    have hsorted := sortedUnique_sorted agent engine time weekAgo today keyword options hvalid
    rw [← List.take_append_drop (min (options.pageSize.getD 20).toNat
      (removeDuplicates (mergedArticles agent weekAgo today keyword options)).length)
      (sortedUnique agent engine time weekAgo today keyword options)] at hsorted
    exact (List.pairwise_append.mp hsorted).2.2 a ha b hb

/-- Witness for C12: of three articles published at times 1, 3 and 2, with
`pageSize` 2 the articles of times 3 and 2 are returned, in this order. -/
theorem fetchNews_truncation_witness :
    fetchNews newsApiOnly ArraySort.insertion timeOfNumber "2024-01-01" "2024-01-08" "ai"
        { pageSize := some 2 }
      = .ok [sampleArticle "b" 3, sampleArticle "c" 2] := by
  obtain ⟨_, result, dropped, hfetch, hresult, _⟩ :=
    fetchNews_truncation newsApiOnly ArraySort.insertion timeOfNumber "2024-01-01" "2024-01-08"
      "ai" { pageSize := some 2 } (by decide)
  rw [hfetch, hresult]
  exact congrArg Except.ok (by decide)

/-! ## No source enabled -/

/-- Counterexample for C13: a crawler without any credential does not fail:
`fetchNews` returns the empty list. -/
theorem fetchNews_no_sources_counterexample :
    noCredentials.newsApiKey.truthy = false ∧ noCredentials.guardianApiKey.truthy = false ∧
    noCredentials.nytApiKey.truthy = false ∧
    fetchNews noCredentials ArraySort.insertion timeOfNumber "2024-01-01" "2024-01-08" "ai" {} = .ok [] := by
  refine ⟨rfl, rfl, rfl, rfl⟩

/-- C13, amended. With no credential configured `fetchNews` calls no adapter
and returns the empty list; it does not fail. -/
theorem fetchNews_no_sources (agent : CrawlerAgent) (engine : ArraySort) (time : JsVal → Option Int)
    (weekAgo today : String) (keyword : String) (options : FetchOptions)
    (hnews : agent.newsApiKey.truthy = false) (hguardian : agent.guardianApiKey.truthy = false)
    (hnyt : agent.nytApiKey.truthy = false) :
    mergedArticles agent weekAgo today keyword options = [] ∧
    fetchNews agent engine time weekAgo today keyword options = .ok [] := by
  have hm : mergedArticles agent weekAgo today keyword options = [] := by
    simp [mergedArticles, hnews, hguardian, hnyt]
  refine ⟨hm, ?_⟩
  rw [fetchNews_eq, sortedUnique, hm]
  simp [removeDuplicates, removeDuplicatesFrom, sortByDate_nil, sliceTo]

/-- Witness for C13 (amended): the crawler without credentials. -/
theorem fetchNews_no_sources_witness :
    mergedArticles noCredentials "2024-01-01" "2024-01-08" "ai" {} = [] ∧
    fetchNews noCredentials ArraySort.insertion timeOfNumber "2024-01-01" "2024-01-08" "ai" {} = .ok [] :=
  fetchNews_no_sources noCredentials ArraySort.insertion timeOfNumber "2024-01-01" "2024-01-08" "ai" {} rfl rfl rfl

/-! ## The lexical strategy -/

/-- No word is in both word lists. -/
theorem positive_not_negative (token : String) (h : positiveWords.contains token = true) :
    negativeWords.contains token = false := by
  have hdisjoint : ∀ w ∈ positiveWords, w ∉ negativeWords := by decide
  have hmem : token ∈ positiveWords := by simpa using h
  have := hdisjoint token hmem
  simpa using this

/-- The counters after the loop over the tokens. -/
theorem foldl_tallyToken (tokens : List String) (t : Tally) :
    tokens.foldl tallyToken t =
      { score := t.score + (tokens.countP (fun token => positiveWords.contains token) : Nat)
          - (tokens.countP (fun token => negativeWords.contains token) : Nat)
        positiveCount := t.positiveCount +
          tokens.countP (fun token => positiveWords.contains token)
        negativeCount := t.negativeCount +
          tokens.countP (fun token => negativeWords.contains token) } := by
  induction tokens generalizing t with
  | nil => simp
  | cons token rest ih =>
    rw [List.foldl_cons, ih]
    by_cases hp : positiveWords.contains token = true
    · have hn := positive_not_negative token hp
      simp only [tallyToken, hp, if_true, List.countP_cons, hn]
      simp only [Bool.false_eq_true, if_false, Nat.add_zero, Tally.mk.injEq]
      refine ⟨?_, by omega, trivial⟩
      push_cast
      omega
    · have hp' : positiveWords.contains token = false := by simpa using hp
      by_cases hn : negativeWords.contains token = true
      · simp only [tallyToken, hp', hn, if_true, List.countP_cons]
        simp only [Bool.false_eq_true, if_false, Nat.add_zero, Tally.mk.injEq]
        refine ⟨?_, trivial, by omega⟩
        push_cast
        omega
      · have hn' : negativeWords.contains token = false := by simpa using hn
        simp only [tallyToken, hp', hn', List.countP_cons]
        simp

/-- The counters of `nlpSentimentAnalysis` are the two token counts and their
difference. -/
theorem nlp_tally (tokenize : String → List String) (article : Article) :
    (tokenize (scoredText article)).foldl tallyToken ⟨0, 0, 0⟩ =
      { score := (positiveTokens tokenize article : Int) - negativeTokens tokenize article
        positiveCount := positiveTokens tokenize article
        negativeCount := negativeTokens tokenize article } := by
  rw [foldl_tallyToken]
  simp [positiveTokens, negativeTokens]

theorem nlp_method (F : Float64) (tokenize : String → List String) (article : Article) :
    (nlpSentimentAnalysis F tokenize article).get? "method" = some (.str "nlp") := rfl

theorem nlp_sentiment (F : Float64) (tokenize : String → List String) (article : Article) :
    (nlpSentimentAnalysis F tokenize article).get? "sentiment"
      = some (.str (getSentimentLabel (nlpNormalizedScore F tokenize article))) := rfl

theorem nlp_score (F : Float64) (tokenize : String → List String) (article : Article) :
    (nlpSentimentAnalysis F tokenize article).get? "score"
      = some (.num (Math.round (nlpNormalizedScore F tokenize article))) := rfl

/-- The normalised score in terms of the two token counts. -/
theorem nlpNormalizedScore_eq (F : Float64) (tokenize : String → List String)
    (article : Article) :
    nlpNormalizedScore F tokenize article =
      if 0 < positiveTokens tokenize article + negativeTokens tokenize article then
        F.add (F.mul (F.div ((positiveTokens tokenize article : ℚ) -
          negativeTokens tokenize article)
          ((positiveTokens tokenize article : ℚ) + negativeTokens tokenize article)) 50) 50
      else 50 := by
  unfold nlpNormalizedScore
  rw [nlp_tally]
  simp only [normalizedScore, gt_iff_lt]
  split <;> simp

theorem mathRound_eq_round (x : ℚ) : Math.round x = round x := by
  rw [Math.round, round_eq]

/-- The exponent of a positive value that lies between two powers of two. -/
theorem log_two_eq (x : ℚ) (e : ℤ) (h1 : (2 : ℚ) ^ e ≤ x) (h2 : x < (2 : ℚ) ^ (e + 1)) :
    Int.log 2 x = e := by
  have hx : 0 < x := lt_of_lt_of_le (zpow_pos (by norm_num) _) h1
  have a := (Int.zpow_le_iff_le_log (b := 2) (by norm_num) (x := e) hx).mp (by simpa using h1)
  have b := (Int.lt_zpow_iff_log_lt (b := 2) (by norm_num) (x := e + 1) hx).mp (by simpa using h2)
  omega

/-- The double nearest to a positive value with a known exponent. -/
theorem doubleOfPositive_eq (x : ℚ) (e m : ℤ) (h1 : (2 : ℚ) ^ e ≤ x)
    (h2 : x < (2 : ℚ) ^ (e + 1)) (hm : roundHalfEven (x / 2 ^ (e - 52)) = m) :
    doubleOfPositive x = m * 2 ^ (e - 52) := by
  unfold doubleOfPositive
  rw [log_two_eq x e h1 h2, hm]

/-- The three roundings in the evaluation of `(-22 / 40) * 50 + 50` in double
arithmetic: the quotient is rounded up in magnitude, the product again, and
the sum is exact. -/
theorem double_nine_thirtyOne :
    Float64.double.add (Float64.double.mul (Float64.double.div ((9 : ℚ) - 31) (9 + 31)) 50) 50
      = 6333186975989759 / 2 ^ 48 := by
  have h₁ := doubleOfPositive_eq (11 / 20) (-1) 4953959590107546 (by norm_num) (by norm_num)
    (by norm_num [roundHalfEven])
  have h₂ := doubleOfPositive_eq (61924494876344325 / 2251799813685248) 4 7740561859543041
    (by norm_num) (by norm_num) (by norm_num [roundHalfEven])
  have h₃ := doubleOfPositive_eq (6333186975989759 / 281474976710656) 4 6333186975989759
    (by norm_num) (by norm_num) (by norm_num [roundHalfEven])
  have r₁ : Float64.double.rd (((9 : ℚ) - 31) / (9 + 31)) = -(2476979795053773 / 4503599627370496) := by
    simp only [Float64.double]
    norm_num [h₁]
  have r₂ : Float64.double.rd (-(2476979795053773 / 4503599627370496) * 50)
      = -(7740561859543041 / 281474976710656) := by
    simp only [Float64.double]
    norm_num [h₂]
  have r₃ : Float64.double.rd (-(7740561859543041 / 281474976710656) + 50)
      = 6333186975989759 / 281474976710656 := by
    simp only [Float64.double]
    norm_num [h₃]
  rw [Float64.add, Float64.mul, Float64.div, r₁, r₂, r₃]
  norm_num

/-- The evaluation of `(2 / 4) * 50 + 50` in double arithmetic is exact. -/
theorem double_three_one :
    Float64.double.add (Float64.double.mul (Float64.double.div
        ((((3 : ℕ) : ℚ)) - ((1 : ℕ) : ℚ)) ((((3 : ℕ) : ℚ)) + ((1 : ℕ) : ℚ))) 50) 50
      = ((((3 : ℕ) : ℚ)) - ((1 : ℕ) : ℚ)) / ((((3 : ℕ) : ℚ)) + ((1 : ℕ) : ℚ)) * 50 + 50 := by
  have h₁ := doubleOfPositive_eq (1 / 2) (-1) 4503599627370496 (by norm_num) (by norm_num)
    (by norm_num [roundHalfEven])
  have r₁ : Float64.double.rd ((((3 : ℕ) : ℚ) - ((1 : ℕ) : ℚ)) / (((3 : ℕ) : ℚ) + ((1 : ℕ) : ℚ)))
      = 1 / 2 := by
    simp only [Float64.double]
    norm_num [h₁]
  have r₂ : Float64.double.rd ((1 / 2 : ℚ) * 50) = 25 := by
    have h := Float64.double.rd_int 25 (by norm_num)
    norm_num at h ⊢
    exact h
  have r₃ : Float64.double.rd ((25 : ℚ) + 50) = 75 := by
    have h := Float64.double.rd_int 75 (by norm_num)
    norm_num at h ⊢
    exact h
  rw [Float64.add, Float64.mul, Float64.div, r₁, r₂, r₃]
  norm_num

/-- Counterexample for C16. For an article with nine positive and thirty-one
negative tokens the formula gives `round(22.5) = 23`. In double arithmetic the
quotient `-22 / 40` and its product with 50 are rounded, the value computed is
`22.499999999999996`, and `nlpSentimentAnalysis` reports the score 22. -/
theorem nlp_score_rounding_counterexample :
    positiveTokens wordTokenize (titledArticle nineToThirtyOne) = 9 ∧
    negativeTokens wordTokenize (titledArticle nineToThirtyOne) = 31 ∧
    nlpNormalizedScore Float64.double wordTokenize (titledArticle nineToThirtyOne)
      = 6333186975989759 / 2 ^ 48 ∧
    (nlpSentimentAnalysis Float64.double wordTokenize (titledArticle nineToThirtyOne)).get?
      "score" = some (.num 22) ∧
    round (((9 : ℚ) - 31) / (9 + 31) * 50 + 50) = 23 := by
  have hp : positiveTokens wordTokenize (titledArticle nineToThirtyOne) = 9 := by decide
  have hn : negativeTokens wordTokenize (titledArticle nineToThirtyOne) = 31 := by decide
  have hx : nlpNormalizedScore Float64.double wordTokenize (titledArticle nineToThirtyOne)
      = 6333186975989759 / 2 ^ 48 := by
    rw [nlpNormalizedScore_eq, hp, hn, if_pos (by decide)]
    exact double_nine_thirtyOne
  refine ⟨hp, hn, hx, ?_, ?_⟩
  · rw [nlp_score, hx]
    norm_num [Math.round]
  · rw [← mathRound_eq_round]
    norm_num [Math.round]

/-- C16, amended. Lexical scoring formula. With `p` and `n` the numbers of
tokens of the lower-cased title and body found in the positive and in the
negative word list, `nlpSentimentAnalysis` reports method `nlp`; when
`p + n = 0` it reports score 50 and label `neutral`; when `p + n > 0` it
reports the score `Math.round` of the value of `(p - n) / (p + n) * 50 + 50`
computed in double arithmetic, the quotient, the product and the sum each
rounded to a double; this is `round((p - n) / (p + n) * 50 + 50)` whenever
that value is computed without rounding error. -/
theorem nlpSentimentAnalysis_score (F : Float64) (tokenize : String → List String)
    (article : Article) :
    (nlpSentimentAnalysis F tokenize article).get? "method" = some (.str "nlp") ∧
    (positiveTokens tokenize article + negativeTokens tokenize article = 0 →
      (nlpSentimentAnalysis F tokenize article).get? "score" = some (.num 50) ∧
      (nlpSentimentAnalysis F tokenize article).get? "sentiment" = some (.str "neutral")) ∧
    (0 < positiveTokens tokenize article + negativeTokens tokenize article →
      (nlpSentimentAnalysis F tokenize article).get? "score" =
        some (.num (Math.round (F.add (F.mul (F.div
          ((positiveTokens tokenize article : ℚ) - negativeTokens tokenize article)
          ((positiveTokens tokenize article : ℚ) + negativeTokens tokenize article)) 50) 50))) ∧
      (F.add (F.mul (F.div
          ((positiveTokens tokenize article : ℚ) - negativeTokens tokenize article)
          ((positiveTokens tokenize article : ℚ) + negativeTokens tokenize article)) 50) 50
        = ((positiveTokens tokenize article : ℚ) - negativeTokens tokenize article) /
            ((positiveTokens tokenize article : ℚ) + negativeTokens tokenize article) * 50 + 50 →
        (nlpSentimentAnalysis F tokenize article).get? "score" =
          some (.num (round (((positiveTokens tokenize article : ℚ) -
            negativeTokens tokenize article) /
            ((positiveTokens tokenize article : ℚ) + negativeTokens tokenize article)
            * 50 + 50))))) := by
  refine ⟨nlp_method F tokenize article, ?_, ?_⟩
  · intro hzero
    have hx : nlpNormalizedScore F tokenize article = 50 := by
      rw [nlpNormalizedScore_eq, if_neg (by omega)]
    rw [nlp_score, nlp_sentiment, hx]
    constructor
    · norm_num [Math.round]
    · norm_num [getSentimentLabel]
  · intro hpos
    have hx := nlpNormalizedScore_eq F tokenize article
    rw [if_pos hpos] at hx
    refine ⟨by rw [nlp_score, hx], ?_⟩
    intro hexact
    rw [nlp_score, hx, hexact, mathRound_eq_round]

/-- Witness for C16: with three positive tokens and one negative token the
quotient `2 / 4`, its product with 50 and the sum 75 are doubles, and the
score reported in double arithmetic is the rounded value of the formula,
75. -/
theorem nlpSentimentAnalysis_score_witness :
    positiveTokens wordTokenize (titledArticle threeToOne) = 3 ∧
    negativeTokens wordTokenize (titledArticle threeToOne) = 1 ∧
    (nlpSentimentAnalysis Float64.double wordTokenize (titledArticle threeToOne)).get? "score" =
      some (.num (round (((positiveTokens wordTokenize (titledArticle threeToOne) : ℚ) -
        negativeTokens wordTokenize (titledArticle threeToOne)) /
        ((positiveTokens wordTokenize (titledArticle threeToOne) : ℚ) +
          negativeTokens wordTokenize (titledArticle threeToOne)) * 50 + 50))) ∧
    round ((((3 : ℕ) : ℚ) - ((1 : ℕ) : ℚ)) / (((3 : ℕ) : ℚ) + ((1 : ℕ) : ℚ)) * 50 + 50) = 75 :=
  ⟨by decide, by decide,
    ((nlpSentimentAnalysis_score Float64.double wordTokenize (titledArticle threeToOne)).2.2
      (by decide)).2
      (by
        rw [show positiveTokens wordTokenize (titledArticle threeToOne) = 3 by decide,
          show negativeTokens wordTokenize (titledArticle threeToOne) = 1 by decide]
        exact double_three_one),
    by
      rw [← mathRound_eq_round]
      norm_num [Math.round]⟩

/-! ## Labels and scores -/

theorem le_mathRound (k : ℤ) (x : ℚ) :
    (k : ℚ) ≤ (Math.round x : ℤ) ↔ (k : ℚ) - 1 / 2 ≤ x := by
  rw [Math.round, Int.cast_le, Int.le_floor]
  constructor <;> intro h <;> linarith

/-- The label of a score and the label of the rounded score differ exactly
when the score is less than one half below a threshold. -/
theorem label_round_iff (x : ℚ) :
    getSentimentLabel x = getSentimentLabel (Math.round x) ↔
      ¬ ((139 / 2 ≤ x ∧ x < 70) ∨ (79 / 2 ≤ x ∧ x < 40) ∨ (39 / 2 ≤ x ∧ x < 20)) := by
  have h70 : (70 : ℚ) ≤ (Math.round x : ℤ) ↔ 139 / 2 ≤ x := by
    have := le_mathRound 70 x
    norm_num at this ⊢
    exact this
  have h40 : (40 : ℚ) ≤ (Math.round x : ℤ) ↔ 79 / 2 ≤ x := by
    have := le_mathRound 40 x
    norm_num at this ⊢
    exact this
  have h20 : (20 : ℚ) ≤ (Math.round x : ℤ) ↔ 39 / 2 ≤ x := by
    have := le_mathRound 20 x
    norm_num at this ⊢
    exact this
  simp only [getSentimentLabel, ge_iff_le, h70, h40, h20]
  split_ifs <;>
  first
    | (exfalso; linarith)
    | (refine ⟨fun _ => ?_, fun _ => rfl⟩
       rintro (⟨_, _⟩ | ⟨_, _⟩ | ⟨_, _⟩) <;> linarith)
    | (refine ⟨fun h => absurd h (by decide), fun h => (h ?_).elim⟩
       first
         | exact Or.inl ⟨by linarith, by linarith⟩
         | exact Or.inr (Or.inl ⟨by linarith, by linarith⟩)
         | exact Or.inr (Or.inr ⟨by linarith, by linarith⟩))

/-- Counterexample for C17: for an article with sixteen positive and seven
negative tokens the normalised score is `1600 / 23`, about 69.57; the result
carries the label `neutral` and the score 70, whose threshold label is
`positive`. -/
theorem label_score_counterexample :
    positiveTokens wordTokenize (titledArticle sixteenToSeven) = 16 ∧
    negativeTokens wordTokenize (titledArticle sixteenToSeven) = 7 ∧
    (nlpSentimentAnalysis Float64.exact wordTokenize (titledArticle sixteenToSeven)).get?
      "sentiment" = some (.str "neutral") ∧
    (nlpSentimentAnalysis Float64.exact wordTokenize (titledArticle sixteenToSeven)).get?
      "score" = some (.num 70) ∧
    getSentimentLabel 70 = "positive" := by
  have hp : positiveTokens wordTokenize (titledArticle sixteenToSeven) = 16 := by decide
  have hn : negativeTokens wordTokenize (titledArticle sixteenToSeven) = 7 := by decide
  have hx : nlpNormalizedScore Float64.exact wordTokenize (titledArticle sixteenToSeven)
      = 1600 / 23 := by
    rw [nlpNormalizedScore_eq, hp, hn]
    norm_num [Float64.add, Float64.mul, Float64.div, Float64.exact]
  refine ⟨hp, hn, ?_, ?_, ?_⟩
  · rw [nlp_sentiment, hx]
    norm_num [getSentimentLabel]
  · rw [nlp_score, hx]
    norm_num [Math.round]
  · norm_num [getSentimentLabel]

/-- C17, amended. The label in the result of `nlpSentimentAnalysis` is the
threshold label of the normalised score before rounding, and the score in
the result is that score rounded. The label is the threshold label of the
reported score except when the normalised score lies in one of the ranges
from 69.5 to 70, from 39.5 to 40 and from 19.5 to 20 (upper ends excluded),
where rounding lifts the reported score over the threshold. -/
theorem nlpSentimentAnalysis_label (F : Float64) (tokenize : String → List String)
    (article : Article) :
    (nlpSentimentAnalysis F tokenize article).get? "sentiment"
      = some (.str (getSentimentLabel (nlpNormalizedScore F tokenize article))) ∧
    (nlpSentimentAnalysis F tokenize article).get? "score"
      = some (.num (Math.round (nlpNormalizedScore F tokenize article))) ∧
    (getSentimentLabel (nlpNormalizedScore F tokenize article)
        = getSentimentLabel (Math.round (nlpNormalizedScore F tokenize article)) ↔
      ¬ ((139 / 2 ≤ nlpNormalizedScore F tokenize article ∧
            nlpNormalizedScore F tokenize article < 70) ∨
         (79 / 2 ≤ nlpNormalizedScore F tokenize article ∧
            nlpNormalizedScore F tokenize article < 40) ∨
         (39 / 2 ≤ nlpNormalizedScore F tokenize article ∧
            nlpNormalizedScore F tokenize article < 20))) :=
  ⟨nlp_sentiment F tokenize article, nlp_score F tokenize article, label_round_iff _⟩

/-! ## The last-resort strategy -/

theorem foldl_add_hits (text : String) (keywords : List String) (score : Int) :
    keywords.foldl (fun score word => if includes text word then score + 10 else score) score
      = score + 10 * (keywordHits text keywords : Int) := by
  induction keywords generalizing score with
  | nil => simp [keywordHits]
  | cons word rest ih =>
    rw [List.foldl_cons, ih]
    by_cases h : includes text word = true
    · simp only [h, if_true, keywordHits, List.countP_cons]
      push_cast
      ring
    · have h' : includes text word = false := by simpa using h
      simp [h', keywordHits, List.countP_cons]

theorem foldl_sub_hits (text : String) (keywords : List String) (score : Int) :
    keywords.foldl (fun score word => if includes text word then score - 10 else score) score
      = score - 10 * (keywordHits text keywords : Int) := by
  induction keywords generalizing score with
  | nil => simp [keywordHits]
  | cons word rest ih =>
    rw [List.foldl_cons, ih]
    by_cases h : includes text word = true
    · simp only [h, if_true, keywordHits, List.countP_cons]
      push_cast
      ring
    · have h' : includes text word = false := by simpa using h
      simp [h', keywordHits, List.countP_cons]

/-- The score of the last-resort strategy before clamping. -/
theorem fallbackScore_eq (text : String) :
    fallbackScore text = 50 + 10 * (keywordHits text fallbackPositiveWords : Int)
      - 10 * (keywordHits text fallbackNegativeWords : Int) := by
  simp only [fallbackScore, foldl_add_hits, foldl_sub_hits]

theorem keywordHits_le (text : String) (keywords : List String) :
    keywordHits text keywords ≤ keywords.length :=
  List.countP_le_length _

/-- C18. Last-resort fallback score. With `P` and `N` the numbers of the six
positive and of the six negative keywords that occur as substrings of the
lower-cased title and body (a keyword counts once however often it occurs),
`fallbackSentimentAnalysis` reports method `fallback` and the score
`min(100, max(0, 50 + 10 * P - 10 * N))`. -/
theorem fallbackSentimentAnalysis_score (article : Article) :
    (fallbackSentimentAnalysis article).get? "method" = some (.str "fallback") ∧
    (fallbackSentimentAnalysis article).get? "score" =
      some (.num ((min 100 (max 0
        (50 + 10 * (keywordHits (scoredText article) fallbackPositiveWords : Int)
          - 10 * (keywordHits (scoredText article) fallbackNegativeWords : Int))) : Int) : ℚ)) ∧
    keywordHits (scoredText article) fallbackPositiveWords ≤ 6 ∧
    keywordHits (scoredText article) fallbackNegativeWords ≤ 6 := by
  refine ⟨rfl, ?_, keywordHits_le _ _, keywordHits_le _ _⟩
  have hscore : (fallbackSentimentAnalysis article).get? "score"
      = some (.num ((max 0 (min 100 (fallbackScore (scoredText article))) : Int) : ℚ)) := rfl
  rw [hscore, fallbackScore_eq]
  congr 3
  omega

/-! ## The batches -/

/-- The `i`-th element pushed by the loop of `analyzeSentiment`. -/
theorem analyzeSentimentFrom_getElem? (agent : SentimentAgent) (clock : Nat → String)
    (requestId : String) (articles : List SummarizedArticle) (k i : Nat) :
    (analyzeSentimentFrom agent clock requestId k articles)[i]?
      = (articles[i]?).map (scoreArticle agent clock requestId (k + i)) := by
  induction articles generalizing k i with
  | nil => simp [analyzeSentimentFrom]
  | cons a rest ih =>
    cases i with
    | zero => simp [analyzeSentimentFrom]
    | succ j =>
      simp only [analyzeSentimentFrom, List.getElem?_cons_succ, ih]
      rw [show k + 1 + j = k + (j + 1) by omega]

/-- The `i`-th element pushed by the loop of `summarizeArticles`. -/
theorem summarizeArticlesFrom_getElem? (agent : SummarizerAgent) (clock : Nat → String)
    (requestId : String) (articles : List Article) (k i : Nat) :
    (summarizeArticlesFrom agent clock requestId k articles)[i]?
      = (articles[i]?).map (summarizeArticle agent clock requestId (k + i)) := by
  induction articles generalizing k i with
  | nil => simp [summarizeArticlesFrom]
  | cons a rest ih =>
    cases i with
    | zero => simp [summarizeArticlesFrom]
    | succ j =>
      simp only [summarizeArticlesFrom, List.getElem?_cons_succ, ih]
      rw [show k + 1 + j = k + (j + 1) by omega]

theorem summarizeArticle_toArticle (agent : SummarizerAgent) (clock : Nat → String)
    (requestId : String) (i : Nat) (article : Article) :
    (summarizeArticle agent clock requestId i article).toArticle = article := by
  unfold summarizeArticle
  split <;> rfl

theorem scoreArticle_toArticle (agent : SentimentAgent) (clock : Nat → String)
    (requestId : String) (i : Nat) (article : SummarizedArticle) :
    (scoreArticle agent clock requestId i article).toArticle = article.toArticle ∧
    (scoreArticle agent clock requestId i article).summary = article.summary ∧
    (scoreArticle agent clock requestId i article).summarizedAt = article.summarizedAt ∧
    (scoreArticle agent clock requestId i article).summaryError = article.summaryError := by
  unfold scoreArticle
  split <;> exact ⟨rfl, rfl, rfl, rfl⟩

theorem summarizeArticlesFrom_map (agent : SummarizerAgent) (clock : Nat → String)
    (requestId : String) (articles : List Article) (k : Nat) :
    (summarizeArticlesFrom agent clock requestId k articles).map (fun a => a.toArticle)
      = articles := by
  induction articles generalizing k with
  | nil => rfl
  | cons a rest ih =>
    simp only [summarizeArticlesFrom, List.map_cons, ih, summarizeArticle_toArticle]

theorem analyzeSentimentFrom_map (agent : SentimentAgent) (clock : Nat → String)
    (requestId : String) (articles : List SummarizedArticle) (k : Nat) :
    (analyzeSentimentFrom agent clock requestId k articles).map (fun a => a.toArticle)
      = articles.map (fun a => a.toArticle) ∧
    (analyzeSentimentFrom agent clock requestId k articles).map (fun a => a.summary)
      = articles.map (fun a => a.summary) := by
  induction articles generalizing k with
  | nil => exact ⟨rfl, rfl⟩
  | cons a rest ih =>
    have h := scoreArticle_toArticle agent clock requestId k a
    constructor
    · simp only [analyzeSentimentFrom, List.map_cons, (ih (k + 1)).1, h.1]
    · simp only [analyzeSentimentFrom, List.map_cons, (ih (k + 1)).2, h.2.1]

/-- C15. Order and identity preservation. `summarizeArticles` and
`analyzeSentiment` never fail and return a list of the length of the input
whose `i`-th element is what the loop body makes of the `i`-th input article:
that article with all its fields (id, title, url, source, author,
publishedAt and the others) unchanged and the derived fields added; the
sentiment stage also keeps the summary. -/
theorem enrichment_preserves_articles (summarizer : SummarizerAgent) (agent : SentimentAgent)
    (clock : Nat → String) (requestId : String) :
    (∀ articles : List Article, ∃ out,
      summarizeArticles summarizer clock articles requestId = .ok out ∧
      out.length = articles.length ∧
      out.map (fun a => a.toArticle) = articles ∧
      ∀ i, out[i]? = (articles[i]?).map (summarizeArticle summarizer clock requestId i)) ∧
    (∀ articles : List SummarizedArticle, ∃ out,
      analyzeSentiment agent clock articles requestId = .ok out ∧
      out.length = articles.length ∧
      out.map (fun a => a.toArticle) = articles.map (fun a => a.toArticle) ∧
      out.map (fun a => a.summary) = articles.map (fun a => a.summary) ∧
      ∀ i, out[i]? = (articles[i]?).map (scoreArticle agent clock requestId i)) := by
  constructor
  · intro articles
    refine ⟨_, rfl, ?_, summarizeArticlesFrom_map summarizer clock requestId articles 0, ?_⟩
    · have h := congrArg List.length
        (summarizeArticlesFrom_map summarizer clock requestId articles 0)
      simpa using h
    · intro i
      simpa using summarizeArticlesFrom_getElem? summarizer clock requestId articles 0 i
  · intro articles
    have hmap := analyzeSentimentFrom_map agent clock requestId articles 0
    refine ⟨_, rfl, ?_, hmap.1, hmap.2, ?_⟩
    · have h := congrArg List.length hmap.1
      simpa using h
    · intro i
      simpa using analyzeSentimentFrom_getElem? agent clock requestId articles 0 i

/-! ## The method tag -/

/-- The method tag of the `i`-th scored article of a batch, by what happened
to its model call. -/
theorem scoreArticle_method (agent : SentimentAgent) (clock : Nat → String)
    (requestId : String) (i : Nat) (article : SummarizedArticle) :
    (agent.llm = none →
      (scoreArticle agent clock requestId i article).method = some (.str "nlp")) ∧
    (∀ llm err, agent.llm = some llm → llm i (sentimentPrompt article) = .error err →
      (scoreArticle agent clock requestId i article).method = some (.str "nlp")) ∧
    (∀ llm content, agent.llm = some llm → llm i (sentimentPrompt article) = .ok content →
      agent.jsonParse (extractJson (trim content)) = none →
      (scoreArticle agent clock requestId i article).method = some (.str "ollama")) ∧
    (∀ llm content data, agent.llm = some llm →
      llm i (sentimentPrompt article) = .ok content →
      agent.jsonParse (extractJson (trim content)) = some data →
      (scoreArticle agent clock requestId i article).sentiment
        = spread [("method", .str "ollama")] data) := by
  refine ⟨?_, ?_, ?_, ?_⟩
  · intro h
    simp [scoreArticle, analyzeSingleArticle, h, ScoredArticle.method, nlp_method]
  · intro llm err h herr
    simp [scoreArticle, analyzeSingleArticle, h, ollamaSentimentAnalysis, herr,
      ScoredArticle.method, nlp_method]
  · intro llm content h hok hparse
    simp [scoreArticle, analyzeSingleArticle, h, ollamaSentimentAnalysis, hok, hparse,
      ScoredArticle.method, JsMap.get?]
  · intro llm content data h hok hparse
    simp [scoreArticle, analyzeSingleArticle, h, ollamaSentimentAnalysis, hok, hparse]

/-- Evaluation for C14: the model call for the article succeeds with a reply
whose JSON carries `"method":"gpt"`; the article comes back with
`sentiment.method` equal to `gpt`, not `ollama`. -/
theorem method_override :
    ((analyzeSentimentFrom (agentReplying replyWithMethod) (fun _ => "2024-01-01T00:00:02.000Z")
        "req_1" 0 [summarizedSample]).map
      (fun a => a.method.bind Json.str?)) = [some "gpt"] := by
  decide

/-! ## Well-formed sentiment results -/

theorem getSentimentLabel_mem (x : ℚ) : getSentimentLabel x ∈ sentimentLabels := by
  unfold getSentimentLabel sentimentLabels
  split_ifs <;> simp

/-- Rounding keeps a value between two integers that are doubles. -/
theorem Float64.rd_between (F : Float64) (lo hi : ℤ) (hlo : |lo| ≤ 2 ^ 53) (hhi : |hi| ≤ 2 ^ 53)
    (x : ℚ) (h₁ : (lo : ℚ) ≤ x) (h₂ : x ≤ (hi : ℚ)) :
    (lo : ℚ) ≤ F.rd x ∧ F.rd x ≤ (hi : ℚ) := by
  have a := F.rd_mono _ _ h₁
  have b := F.rd_mono _ _ h₂
  rw [F.rd_int lo hlo] at a
  rw [F.rd_int hi hhi] at b
  exact ⟨a, b⟩

/-- The normalised score of the lexical strategy lies between 0 and 100. -/
theorem nlpNormalizedScore_range (F : Float64) (tokenize : String → List String)
    (article : Article) :
    0 ≤ nlpNormalizedScore F tokenize article ∧ nlpNormalizedScore F tokenize article ≤ 100 := by
  rw [nlpNormalizedScore_eq]
  split
  · rename_i hpos
    have ht : (0 : ℚ) < (positiveTokens tokenize article : ℚ) + negativeTokens tokenize article := by
      exact_mod_cast hpos
    have hp : (0 : ℚ) ≤ (positiveTokens tokenize article : ℚ) := Nat.cast_nonneg _
    have hn : (0 : ℚ) ≤ (negativeTokens tokenize article : ℚ) := Nat.cast_nonneg _
    have hq₁ : ((-1 : ℤ) : ℚ) ≤ ((positiveTokens tokenize article : ℚ) -
        negativeTokens tokenize article) /
        ((positiveTokens tokenize article : ℚ) + negativeTokens tokenize article) := by
      rw [le_div_iff₀ ht]
      push_cast
      linarith
    have hq₂ : ((positiveTokens tokenize article : ℚ) - negativeTokens tokenize article) /
        ((positiveTokens tokenize article : ℚ) + negativeTokens tokenize article)
        ≤ ((1 : ℤ) : ℚ) := by
      rw [div_le_iff₀ ht]
      push_cast
      linarith
    have hd := F.rd_between (-1) 1 (by norm_num) (by norm_num) _ hq₁ hq₂
    have hm := F.rd_between (-50) 50 (by norm_num) (by norm_num)
      (F.div ((positiveTokens tokenize article : ℚ) - negativeTokens tokenize article)
        ((positiveTokens tokenize article : ℚ) + negativeTokens tokenize article) * 50)
      (by unfold Float64.div; push_cast at hd ⊢; linarith [hd.1])
      (by unfold Float64.div; push_cast at hd ⊢; linarith [hd.2])
    have hs := F.rd_between 0 100 (by norm_num) (by norm_num)
      (F.mul (F.div ((positiveTokens tokenize article : ℚ) - negativeTokens tokenize article)
        ((positiveTokens tokenize article : ℚ) + negativeTokens tokenize article)) 50 + 50)
      (by unfold Float64.mul; push_cast at hm ⊢; linarith [hm.1])
      (by unfold Float64.mul; push_cast at hm ⊢; linarith [hm.2])
    unfold Float64.add
    push_cast at hs
    exact hs
  · norm_num

theorem mathRound_range (x : ℚ) (h₀ : 0 ≤ x) (h₁ : x ≤ 100) :
    0 ≤ Math.round x ∧ Math.round x ≤ 100 := by
  unfold Math.round
  constructor
  · apply Int.floor_nonneg.mpr
    linarith
  · have : ⌊x + 1 / 2⌋ < 101 := by
      rw [Int.floor_lt]
      push_cast
      linarith
    omega

/-- The results of the lexical strategy are well formed. -/
theorem nlpSentimentAnalysis_wellFormed (F : Float64) (tokenize : String → List String)
    (article : Article) : WellFormed (nlpSentimentAnalysis F tokenize article) := by
  obtain ⟨h₀, h₁⟩ := nlpNormalizedScore_range F tokenize article
  obtain ⟨r₀, r₁⟩ := mathRound_range _ h₀ h₁
  exact ⟨⟨_, getSentimentLabel_mem _, nlp_sentiment F tokenize article⟩,
    ⟨_, r₀, r₁, nlp_score F tokenize article⟩⟩

/-- The results of the last-resort strategy are well formed. -/
theorem fallbackSentimentAnalysis_wellFormed (article : Article) :
    WellFormed (fallbackSentimentAnalysis article) :=
  ⟨⟨_, getSentimentLabel_mem _, rfl⟩,
    ⟨max 0 (min 100 (fallbackScore (scoredText article))), by omega, by omega, rfl⟩⟩

/-- Counterexample for C19: the model call succeeds with the reply
`\x7b"sentiment":"joyful","score":150\x7d`; the article comes back with the
label `joyful` and the score 150. -/
theorem wellFormed_counterexample :
    ((analyzeSentimentFrom (agentReplying replyOutOfRange) (fun _ => "2024-01-01T00:00:02.000Z")
        "req_1" 0 [summarizedSample]).map
      (fun a => (a.sentiment.get? "sentiment").bind Json.str?)) = [some "joyful"] ∧
    ((analyzeSentimentFrom (agentReplying replyOutOfRange) (fun _ => "2024-01-01T00:00:02.000Z")
        "req_1" 0 [summarizedSample]).map
      (fun a => (a.sentiment.get? "score").bind Json.num?)) = [some 150] ∧
    "joyful" ∉ sentimentLabels ∧ ¬ ((150 : ℚ) ≤ 100) ∧
    ∃ a ∈ analyzeSentimentFrom (agentReplying replyOutOfRange)
        (fun _ => "2024-01-01T00:00:02.000Z") "req_1" 0 [summarizedSample],
      ¬ WellFormed a.sentiment := by
  have hs : (scoreArticle (agentReplying replyOutOfRange) (fun _ => "2024-01-01T00:00:02.000Z")
      "req_1" 0 summarizedSample).sentiment
      = [("method", .str "ollama"), ("sentiment", .str "joyful"), ("score", .num 150)] := by
    have h := (scoreArticle_method (agentReplying replyOutOfRange)
      (fun _ => "2024-01-01T00:00:02.000Z") "req_1" 0 summarizedSample).2.2.2
      (fun _ _ => .ok replyOutOfRange) replyOutOfRange
      (.obj [("sentiment", .str "joyful"), ("score", .num 150)]) rfl rfl
      (by
        have h₁ : extractJson (trim replyOutOfRange) = replyOutOfRange := by decide
        have h₂ : ¬ replyOutOfRange = replyWithMethod := by decide
        simp only [agentReplying, parseSampleReply, h₁, h₂, if_false, if_true])
    rw [h]
    rfl
  refine ⟨?_, ?_, by decide, by norm_num, _, List.mem_cons_self _ _, ?_⟩
  · simp only [analyzeSentimentFrom, List.map_cons, List.map_nil, hs]
    rfl
  · simp only [analyzeSentimentFrom, List.map_cons, List.map_nil, hs]
    rfl
  · rw [hs]
    rintro ⟨⟨label, hmem, hlabel⟩, _⟩
    have : label = "joyful" := by
      simp only [JsMap.get?] at hlabel
      simpa using hlabel.symm
    subst this
    exact absurd hmem (by decide)

/-- C19, amended. `analyzeSentiment` returns one scored article for each input
article. The sentiment of an article is well formed (label among positive,
negative, neutral, mixed; integer score between 0 and 100) whenever it was
not built from a parsed model reply: no model configured, model call failed,
or reply that `JSON.parse` rejects. When the reply parses, the sentiment is
the object `method: ollama` overwritten and extended by the properties of
the parsed reply, whatever they are. -/
theorem analyzeSentiment_wellFormed (agent : SentimentAgent) (clock : Nat → String)
    (articles : List SummarizedArticle) (requestId : String) :
    ∃ out, analyzeSentiment agent clock articles requestId = .ok out ∧
      out.length = articles.length ∧
      ∀ i article, articles[i]? = some article →
        ∃ scored, out[i]? = some scored ∧
          ((∃ llm content data, agent.llm = some llm ∧
              llm i (sentimentPrompt article) = .ok content ∧
              agent.jsonParse (extractJson (trim content)) = some data ∧
              scored.sentiment = spread [("method", .str "ollama")] data) ∨
            WellFormed scored.sentiment) := by
  refine ⟨_, rfl, ?_, ?_⟩
  · have h := congrArg List.length (analyzeSentimentFrom_map agent clock requestId articles 0).1
    simpa using h
  · intro i article hi
    refine ⟨scoreArticle agent clock requestId i article, ?_, ?_⟩
    · rw [analyzeSentimentFrom_getElem?, hi]
      simp
    · cases hllm : agent.llm with
      | none =>
        right
        simp only [scoreArticle, analyzeSingleArticle, hllm]
        exact nlpSentimentAnalysis_wellFormed _ _ _
      | some llm =>
        cases hcall : llm i (sentimentPrompt article) with
        | error err =>
          right
          simp only [scoreArticle, analyzeSingleArticle, hllm, ollamaSentimentAnalysis, hcall]
          exact nlpSentimentAnalysis_wellFormed _ _ _
        | ok content =>
          cases hparse : agent.jsonParse (extractJson (trim content)) with
          | some data =>
            left
            exact ⟨llm, content, data, rfl, hcall, hparse,
              (scoreArticle_method agent clock requestId i article).2.2.2
                llm content data hllm hcall hparse⟩
          | none =>
            right
            simp only [scoreArticle, analyzeSingleArticle, hllm, ollamaSentimentAnalysis, hcall,
              hparse]
            exact ⟨⟨"neutral", by decide, rfl⟩, ⟨50, by norm_num, by norm_num, by
              simp [JsMap.get?]⟩⟩

/-! ## Extractive summarization -/

theorem head?_dropWhile_eq_find? (p : Char → Bool) (l : List Char) :
    (l.dropWhile p).head? = l.find? (fun c => !p c) := by
  induction l with
  | nil => rfl
  | cons x rest ih =>
    by_cases hx : p x = true
    · simp [List.dropWhile_cons, hx, ih]
    · have hx' : p x = false := by simpa using hx
      simp [List.dropWhile_cons, hx']

/-- The last character of a trimmed text is the last character of the text
that is no white space. -/
theorem trim_getLast? (s : String) :
    (trim s).data.getLast? = s.data.reverse.find? (fun c => !isWhiteSpace c) := by
  have h₁ : (trim s).data
      = ((s.data.dropWhile isWhiteSpace).reverse.dropWhile isWhiteSpace).reverse := rfl
  rw [h₁, List.getLast?_reverse, head?_dropWhile_eq_find?]
  have h₂ : s.data.reverse
      = (s.data.dropWhile isWhiteSpace).reverse ++ (s.data.takeWhile isWhiteSpace).reverse := by
    rw [← List.reverse_append, List.takeWhile_append_dropWhile]
  have h₃ : (s.data.takeWhile isWhiteSpace).reverse.find? (fun c => !isWhiteSpace c) = none := by
    rw [List.find?_eq_none]
    intro c hc
    have := List.mem_takeWhile_imp (List.mem_reverse.mp hc)
    simp [this]
  rw [h₂, List.find?_append, h₃, Option.or_none]

/-- No piece of a split holds a separator. -/
theorem splitOnRunsFrom_no_separator (p : Char → Bool) (text : List Char) :
    ∀ (current : List Char) (inRun : Bool), (∀ c ∈ current, p c = false) →
      ∀ piece ∈ splitOnRunsFrom p current inRun text, ∀ c ∈ piece.data, p c = false := by
  induction text with
  | nil =>
    intro current inRun hcur piece hpiece c hc
    simp only [splitOnRunsFrom, List.mem_singleton] at hpiece
    subst hpiece
    exact hcur c (List.mem_reverse.mp hc)
  | cons x rest ih =>
    intro current inRun hcur piece hpiece c hc
    unfold splitOnRunsFrom at hpiece
    by_cases hx : p x = true
    · simp only [hx, if_true] at hpiece
      cases inRun with
      | true =>
        simp only [if_true] at hpiece
        exact ih [] true (by simp) piece hpiece c hc
      | false =>
        simp only [Bool.false_eq_true, if_false, List.mem_cons] at hpiece
        rcases hpiece with rfl | hpiece
        · exact hcur c (List.mem_reverse.mp hc)
        · exact ih [] true (by simp) piece hpiece c hc
    · have hx' : p x = false := by simpa using hx
      simp only [hx', Bool.false_eq_true, if_false] at hpiece
      refine ih (x :: current) false ?_ piece hpiece c hc
      intro d hd
      rcases List.mem_cons.mp hd with rfl | hd
      · exact hx'
      · exact hcur d hd

/-- A joined text ends with its last part. -/
theorem join_ends_with_last (sep : String) (parts : List String) (h : parts ≠ []) :
    ∃ before, (join sep parts).data = before ++ (parts.getLast h).data := by
  induction parts with
  | nil => exact absurd rfl h
  | cons x rest ih =>
    cases rest with
    | nil => exact ⟨[], by simp [join, List.intercalate]⟩
    | cons y more =>
      obtain ⟨before, hb⟩ := ih (List.cons_ne_nil _ _)
      refine ⟨x.data ++ sep.data ++ before, ?_⟩
      have hj : (join sep (x :: y :: more)).data
          = x.data ++ sep.data ++ (join sep (y :: more)).data := by
        simp [join, List.intercalate, List.intersperse]
      rw [hj, hb, List.getLast_cons (List.cons_ne_nil _ _)]
      simp [List.append_assoc]

theorem take_three_ne_nil (l : List String) (h : l ≠ []) : l.take 3 ≠ [] := by
  cases l with
  | nil => exact absurd rfl h
  | cons x rest => simp

/-- The trimmed join of usable fragments does not end with a period. -/
theorem summary_not_endsWithPeriod (body : String) (h : usableSentences body ≠ []) :
    endsWithPeriod (trim (join ". " ((usableSentences body).take 3))) = false := by
  have hne := take_three_ne_nil _ h
  obtain ⟨before, hb⟩ := join_ends_with_last ". " _ hne
  have hlast : ((usableSentences body).take 3).getLast hne ∈ usableSentences body :=
    List.mem_of_mem_take (List.getLast_mem hne)
  obtain ⟨hsplit, hlen⟩ := List.mem_filter.mp hlast
  have hlen' : 10 < jsLength (trim (((usableSentences body).take 3).getLast hne)) := by
    simpa using hlen
  have hnonempty : (trim (((usableSentences body).take 3).getLast hne)).data ≠ [] := by
    intro hnil
    simp [jsLength, hnil] at hlen'
  obtain ⟨c, hc⟩ := Option.isSome_iff_exists.mp (List.getLast?_isSome.mpr hnonempty)
  rw [trim_getLast?] at hc
  have hcmem : c ∈ (((usableSentences body).take 3).getLast hne).data :=
    List.mem_reverse.mp (List.mem_of_find?_eq_some hc)
  have hcsep : isSentenceEnd c = false :=
    splitOnRunsFrom_no_separator isSentenceEnd body.data [] false (by simp) _ hsplit c hcmem
  have hsum : (trim (join ". " ((usableSentences body).take 3))).data.getLast? = some c := by
    rw [trim_getLast?, hb, List.reverse_append, List.find?_append, hc]
    rfl
  have hperiod : c ≠ Char.ofNat 46 := by
    intro heq
    rw [heq] at hcsep
    exact absurd hcsep (by decide)
  simp only [endsWithPeriod, hsum]
  simpa using hperiod

/-- C20. Extractive summarization. When the body has a usable fragment (a
piece between runs of `.`, `!` and `?` whose trimmed length exceeds 10),
`extractiveSummarization` returns the first `min(3, count)` usable fragments,
in the order of the body, joined by a period and a space, trimmed, with one
period added; the text before that period does not end with a period. Every
fragment used is a piece of the body of trimmed length above 10. -/
theorem extractiveSummarization_usable (title : JsVal) (body : String)
    (h : usableSentences body ≠ []) :
    extractiveSummarization title (.str body)
      = .ok (trim (join ". " ((usableSentences body).take 3)) ++ ".") ∧
    endsWithPeriod (trim (join ". " ((usableSentences body).take 3))) = false ∧
    ((usableSentences body).take 3).length = min 3 (usableSentences body).length ∧
    (usableSentences body).Sublist (splitSentences body) ∧
    (∀ s ∈ (usableSentences body).take 3, s ∈ splitSentences body ∧ 10 < jsLength (trim s)) := by
  have hend := summary_not_endsWithPeriod body h
  have hlen : ¬ (usableSentences body).length = 0 := by
    intro h0
    exact h (List.length_eq_zero.mp h0)
  have htake : (usableSentences body).take (min 3 (usableSentences body).length)
      = (usableSentences body).take 3 := by
    rcases Nat.le_total 3 (usableSentences body).length with h3 | h3
    · rw [Nat.min_eq_left h3]
    · rw [Nat.min_eq_right h3, List.take_length, List.take_of_length_le h3]
  refine ⟨?_, hend, List.length_take _ _, List.filter_sublist _, ?_⟩
  · simp only [extractiveSummarization, hlen, if_false, htake, hend]
    rfl
  · intro s hs
    have hmem := List.mem_filter.mp (List.mem_of_mem_take hs)
    exact ⟨hmem.1, by simpa using hmem.2⟩

/-- Witness for C20: of four fragments the short one is left out and the
first three usable ones are joined. -/
theorem extractiveSummarization_usable_witness :
    extractiveSummarization (.str "T")
        (.str "Markets rallied on Monday. Ok! Investors welcomed the new policy? Analysts expect more gains")
      = .ok "Markets rallied on Monday.  Investors welcomed the new policy.  Analysts expect more gains." :=
  (extractiveSummarization_usable (.str "T")
    "Markets rallied on Monday. Ok! Investors welcomed the new policy? Analysts expect more gains"
    (by decide)).1

/-! ## The placeholder summary -/

/-- Counterexample for C21. The body `Too short.` of an article from Reuters
has no usable fragment; the summary of the extractive fallback is
`Article about Budget vote. No detailed content available.`, in which the
source `Reuters` does not occur. -/
theorem placeholder_source_counterexample :
    usableSentences "Too short." = [] ∧
    shortBodyArticle.source = .str "Reuters" ∧
    (summarizeSingleArticle extractiveOnly 0 shortBodyArticle).toOption
      = some "Article about Budget vote. No detailed content available." ∧
    includes "Article about Budget vote. No detailed content available." "Reuters" = false ∧
    includes "Article about Budget vote. No detailed content available." "Budget vote" = true := by
  decide

/-- C21, amended. For every article whose body is a string without a usable
fragment, the extractive fallback (taken when no model is configured or the
call of the model fails) returns the placeholder
`Article about ${title}. No detailed content available.`, built from the title
alone; the batch loop stores it as the summary, without an error. -/
theorem extractive_placeholder (agent : SummarizerAgent) (clock : Nat → String)
    (requestId : String) (i : Nat) (article : Article) (body : String)
    (hbody : bodyOf article = .str body) (hnone : usableSentences body = [])
    (hllm : ∀ llm, agent.llm = some llm → ∃ err, llm i (summaryPrompt article) = .error err) :
    extractiveSummarization article.title (bodyOf article)
      = .ok (placeholderSummary article.title) ∧
    summarizeSingleArticle agent i article = .ok (placeholderSummary article.title) ∧
    (summarizeArticle agent clock requestId i article).summary
      = placeholderSummary article.title ∧
    (summarizeArticle agent clock requestId i article).summaryError = none := by
  have hext : extractiveSummarization article.title (bodyOf article)
      = .ok (placeholderSummary article.title) := by
    rw [hbody]
    simp only [extractiveSummarization, hnone, List.length_nil, if_true, placeholderSummary]
  have hsingle : summarizeSingleArticle agent i article
      = .ok (placeholderSummary article.title) := by
    unfold summarizeSingleArticle
    cases hagent : agent.llm with
    | none => exact hext
    | some llm =>
      obtain ⟨err, herr⟩ := hllm llm hagent
      simp only [herr]
      exact hext
  refine ⟨hext, hsingle, ?_, ?_⟩
  · simp only [summarizeArticle, hsingle]
  · simp only [summarizeArticle, hsingle]

/-- Witness for C21: the article from Reuters with the body `Too short.` -/
theorem extractive_placeholder_witness :
    summarizeSingleArticle extractiveOnly 0 shortBodyArticle
      = .ok "Article about Budget vote. No detailed content available." :=
  (extractive_placeholder extractiveOnly (fun _ => "now") "req_1" 0 shortBodyArticle
    "Too short." (by decide) (by decide)
    (fun llm h => by simp [extractiveOnly] at h)).2.1

/-! ## The deterministic strategies stay in range -/

/-- Clamping an integer score to the range from 0 to 100 does not change its
threshold label. -/
theorem getSentimentLabel_clamp (s : ℤ) :
    getSentimentLabel ((max 0 (min 100 s) : ℤ) : ℚ) = getSentimentLabel (s : ℚ) := by
  have h70 : (70 : ℤ) ≤ max 0 (min 100 s) ↔ (70 : ℤ) ≤ s := by omega
  have h40 : (40 : ℤ) ≤ max 0 (min 100 s) ↔ (40 : ℤ) ≤ s := by omega
  have h20 : (20 : ℤ) ≤ max 0 (min 100 s) ↔ (20 : ℤ) ≤ s := by omega
  have c70 : ∀ z : ℤ, ((z : ℚ) ≥ 70) ↔ (70 : ℤ) ≤ z := fun z => by
    constructor <;> intro h <;> exact_mod_cast h
  have c40 : ∀ z : ℤ, ((z : ℚ) ≥ 40) ↔ (40 : ℤ) ≤ z := fun z => by
    constructor <;> intro h <;> exact_mod_cast h
  have c20 : ∀ z : ℤ, ((z : ℚ) ≥ 20) ↔ (20 : ℤ) ≤ z := fun z => by
    constructor <;> intro h <;> exact_mod_cast h
  unfold getSentimentLabel
  simp only [c70, c40, c20, h70, h40, h20]

/-- C29. For every article, `nlpSentimentAnalysis` and
`fallbackSentimentAnalysis` return a label among positive, negative, neutral
and mixed and an integer score between 0 and 100; the label of
`fallbackSentimentAnalysis`, computed from the score before clamping, is the
threshold label of the clamped score that it reports. -/
theorem deterministic_strategies_in_range (F : Float64) (tokenize : String → List String)
    (article : Article) :
    WellFormed (nlpSentimentAnalysis F tokenize article) ∧
    WellFormed (fallbackSentimentAnalysis article) ∧
    ∃ reported : ℤ, 0 ≤ reported ∧ reported ≤ 100 ∧
      (fallbackSentimentAnalysis article).get? "score" = some (.num reported) ∧
      (fallbackSentimentAnalysis article).get? "sentiment"
        = some (.str (getSentimentLabel reported)) := by
  refine ⟨nlpSentimentAnalysis_wellFormed F tokenize article,
    fallbackSentimentAnalysis_wellFormed article,
    max 0 (min 100 (fallbackScore (scoredText article))), by omega, by omega, rfl, ?_⟩
  rw [getSentimentLabel_clamp]
  rfl

/-! ## The report of a successful run -/

/-- Counterexample for C28. Two successful runs whose presenters return
different insights lists, one with a note and one empty, and agree on all the
rest, end with the same report: the report does not carry the insights. -/
theorem report_insights_counterexample :
    (agentsWithInsights ["Good source diversity provides balanced perspective"]).formatResults
        () "ai" "req_1"
      ≠ (agentsWithInsights []).formatResults () "ai" "req_1" ∧
    executeProcessingPipeline
        (agentsWithInsights ["Good source diversity provides balanced perspective"])
        "ai" [] "req_1" "2024-01-01T00:00:00.000Z"
      = executeProcessingPipeline (agentsWithInsights []) "ai" [] "req_1"
        "2024-01-01T00:00:00.000Z" ∧
    (executeProcessingPipeline (agentsWithInsights []) "ai" [] "req_1"
        "2024-01-01T00:00:00.000Z").2.toOption
      = some ⟨"ai", "req_1", "2024-01-01T00:00:00.000Z", "summary", [shortBodyArticle],
          "statistics", "trends"⟩ := by
  refine ⟨?_, rfl, rfl⟩
  intro h
  simp [agentsWithInsights] at h

/-- C28, amended. For every successful pipeline run the report is made of the
keyword as passed, the request id, a timestamp, and the summary, the articles,
the statistics and the sentiment trends of the presentation returned by the
aggregation stage; the insights list and the metadata of the presentation are
not part of it. The call of `processKeyword` that started the run returns
this report and stores it in the cache under the key of the call. -/
theorem report_fields {A B σ α τ ν ι μ : Type} (agents : Agents A B σ α τ ν ι μ)
    (keyword : String) (options : Options) (requestId : String) (isoNow : String)
    (articles : List Article) (summarized : A) (scored : B)
    (presentation : Presentation σ α τ ν ι μ)
    (hfetch : agents.fetchNews keyword options = .ok (some articles))
    (hsome : articles ≠ [])
    (hsummarize : agents.summarizeArticles articles requestId = .ok summarized)
    (hsentiment : agents.analyzeSentiment summarized requestId = .ok scored)
    (hformat : agents.formatResults scored keyword requestId = .ok presentation) :
    executeProcessingPipeline agents keyword options requestId isoNow
      = ([.fetch, .summarize, .sentiment, .present],
          .ok { keyword := keyword
                requestId := requestId
                timestamp := isoNow
                summary := presentation.summary
                articles := presentation.articles
                statistics := presentation.statistics
                sentiment := presentation.sentiment }) ∧
    ∀ (s₀ s₁ : NewsAggregator (Report σ α τ ν)) (t₀ now : Int) (p : Nat),
      processKeyword s₀ keyword options requestId t₀ = (s₁, .started p) →
      ∃ s₂ s₃,
        settlePipeline s₁ p (executeProcessingPipeline agents keyword options requestId isoNow).2
          = some s₂ ∧
        resumeProcessKeyword s₂ p now
          = some (s₃, .ok { keyword := keyword
                            requestId := requestId
                            timestamp := isoNow
                            summary := presentation.summary
                            articles := presentation.articles
                            statistics := presentation.statistics
                            sentiment := presentation.sentiment }) ∧
        s₃.cache.get? (cacheKey keyword options)
          = some ⟨{ keyword := keyword
                    requestId := requestId
                    timestamp := isoNow
                    summary := presentation.summary
                    articles := presentation.articles
                    statistics := presentation.statistics
                    sentiment := presentation.sentiment }, now⟩ := by
  have hlen : ¬ articles.length = 0 := fun h => hsome (List.length_eq_zero.mp h)
  have hpipe : executeProcessingPipeline agents keyword options requestId isoNow
      = ([.fetch, .summarize, .sentiment, .present],
          .ok { keyword := keyword
                requestId := requestId
                timestamp := isoNow
                summary := presentation.summary
                articles := presentation.articles
                statistics := presentation.statistics
                sentiment := presentation.sentiment }) := by
    simp only [executeProcessingPipeline, hfetch, hlen, if_false, hsummarize, hsentiment, hformat]
  refine ⟨hpipe, ?_⟩
  intro s₀ s₁ t₀ now p hstart
  obtain ⟨rfl, rfl, _, _⟩ := processKeyword_started hstart
  rw [hpipe]
  obtain ⟨s₂, s₃, h₂, h₃, _, hc⟩ := startedState_completes s₀ keyword options requestId
    (.ok { keyword := keyword
           requestId := requestId
           timestamp := isoNow
           summary := presentation.summary
           articles := presentation.articles
           statistics := presentation.statistics
           sentiment := presentation.sentiment } : Except String (Report σ α τ ν)) now
  exact ⟨s₂, s₃, h₂, h₃, hc⟩

/-- Witness for C28: a run whose presenter returns one insight. -/
theorem report_fields_witness :
    executeProcessingPipeline (agentsWithInsights ["note"]) "ai" [] "req_1"
        "2024-01-01T00:00:00.000Z"
      = ([.fetch, .summarize, .sentiment, .present],
          .ok ⟨"ai", "req_1", "2024-01-01T00:00:00.000Z", "summary", [shortBodyArticle],
            "statistics", "trends"⟩) :=
  (report_fields (agentsWithInsights ["note"]) "ai" [] "req_1" "2024-01-01T00:00:00.000Z"
    [shortBodyArticle] () ()
    ⟨"summary", [shortBodyArticle], "statistics", "trends", ["note"], "metadata"⟩
    rfl (by simp) rfl rfl rfl).1

/-! ## The time period of the articles -/

/-- The failing input of C30. Three articles published on Monday 1,
Wednesday 3 and Friday 5 January 2024 span four days. The sort without a
comparator orders the dates by their texts, Friday before Monday before
Wednesday; `calculateTimePeriod` takes Friday 5 as the earliest and
Wednesday 3 as the latest date and returns `2 days`. -/
theorem calculateTimePeriod_first_week :
    (firstWeek.map (fun a => timeOfSample a.publishedAt))
      = [some 1704067200000, some 1704240000000, some 1704412800000] ∧
    (1704412800000 - 1704067200000 : ℤ) = 4 * (1000 * 60 * 60 * 24) ∧
    (firstWeek.map (fun a => timeOfSample a.publishedAt)).insertionSort
        (fun a b => stringLe (dateStringOfSample a) (dateStringOfSample b))
      = [some 1704412800000, some 1704067200000, some 1704240000000] ∧
    calculateTimePeriod Float64.exact timeOfSample dateStringOfSample firstWeek = "2 days" := by
  have hsort : (firstWeek.map (fun a => timeOfSample a.publishedAt)).insertionSort
        (fun a b => stringLe (dateStringOfSample a) (dateStringOfSample b))
      = [some 1704412800000, some 1704067200000, some 1704240000000] := by
    decide
  refine ⟨by decide, by norm_num, hsort, ?_⟩
  unfold calculateTimePeriod
  rw [hsort]
  norm_num [firstWeek, Float64.div, Float64.exact, Math.ceil]
  decide

/-! ## The statistics of the presenter -/

/-- The loop of `calculateStatistics` adds up, in `totalSentimentScore`, the
values of `article.sentiment.score || 50`. -/
theorem foldl_totalSentimentScore (F : Float64) (time : JsVal → Option Int)
    (articles : List EnrichedArticle) (stats : StatisticsLoop) :
    (articles.foldl (calculateStatisticsStep F time) stats).totalSentimentScore
      = (articles.map EnrichedArticle.scoreOrFifty).foldl F.add stats.totalSentimentScore := by
  induction articles generalizing stats with
  | nil => rfl
  | cons a rest ih => simp only [List.foldl_cons, List.map_cons, ih, calculateStatisticsStep]

/-- The average of `calculateStatistics`: the rounded quotient of the sum of
the values `article.sentiment.score || 50` by the number of articles. -/
theorem calculateStatistics_average (engine : ArraySort) (F : Float64)
    (time : JsVal → Option Int) (articles : List EnrichedArticle) :
    (calculateStatistics engine F time articles).averageSentimentScore
      = roundedAverage F ((articles.map EnrichedArticle.scoreOrFifty).foldl F.add 0)
          articles.length := by
  simp only [calculateStatistics, foldl_totalSentimentScore]
  rfl

/-- The failing input of C22. For one article with the score 0 the mean of the
scores is 0, and `calculateStatistics` gives the average 50; for the scores 0
and 100 the mean is 50 and the average given is 75. For the scores 80, 20, 50
and 90 the average given is 60. -/
theorem averageSentimentScore_zero_score (engine : ArraySort) :
    (calculateStatistics engine Float64.exact timeOfSample
      [enriched "BBC" "2024-01-01T00:00:00Z" "negative" 0]).averageSentimentScore = some 50 ∧
    (calculateStatistics engine Float64.exact timeOfSample
      [enriched "BBC" "2024-01-01T00:00:00Z" "negative" 0,
       enriched "BBC" "2024-01-03T00:00:00Z" "positive" 100]).averageSentimentScore = some 75 ∧
    (calculateStatistics engine Float64.exact timeOfSample
      [enriched "BBC" "2024-01-01T00:00:00Z" "positive" 80,
       enriched "BBC" "2024-01-03T00:00:00Z" "mixed" 20,
       enriched "CNN" "2024-01-03T00:00:00Z" "neutral" 50,
       enriched "CNN" "2024-01-05T00:00:00Z" "positive" 90]).averageSentimentScore = some 60 := by
  simp only [calculateStatistics_average]
  norm_num [roundedAverage, EnrichedArticle.scoreOrFifty, enriched, Float64.add, Float64.div,
    Float64.exact, Math.round]

/-- The loop of `calculateStatistics` counts, in `sources`, the source names
in the order of the articles. -/
theorem foldl_sources (F : Float64) (time : JsVal → Option Int)
    (articles : List EnrichedArticle) (stats : StatisticsLoop) :
    (articles.foldl (calculateStatisticsStep F time) stats).sources
      = (articles.map EnrichedArticle.sourceOrUnknown).foldl countUp stats.sources := by
  induction articles generalizing stats with
  | nil => rfl
  | cons a rest ih => simp only [List.foldl_cons, List.map_cons, ih, calculateStatisticsStep]

/-- The loop of `calculateStatistics` counts, in `sentimentDistribution`, the
labels in the order of the articles. -/
theorem foldl_sentimentDistribution (F : Float64) (time : JsVal → Option Int)
    (articles : List EnrichedArticle) (stats : StatisticsLoop) :
    (articles.foldl (calculateStatisticsStep F time) stats).sentimentDistribution
      = (articles.map EnrichedArticle.sentimentOrNeutral).foldl increment
          stats.sentimentDistribution := by
  induction articles generalizing stats with
  | nil => rfl
  | cons a rest ih => simp only [List.foldl_cons, List.map_cons, ih, calculateStatisticsStep]

/-- The name under which the code counts the source of an article is its
source name. -/
theorem sourceOrUnknown_eq_sourceName (a : EnrichedArticle) :
    a.sourceOrUnknown = sourceName a := by
  unfold EnrichedArticle.sourceOrUnknown sourceName
  cases hs : a.source with
  | undefined => simp [JsVal.or, JsVal.truthy, JsVal.toStr]
  | null => simp [JsVal.or, JsVal.truthy, JsVal.toStr]
  | bool b => cases b <;> simp [JsVal.or, JsVal.truthy, JsVal.toStr]
  | num n =>
    by_cases h : n = 0
    · simp [JsVal.or, JsVal.truthy, JsVal.toStr, h]
    · simp [JsVal.or, JsVal.truthy, JsVal.toStr, h]
  | str t =>
    by_cases h : t = ""
    · simp [JsVal.or, JsVal.truthy, JsVal.toStr, h]
    · simp [JsVal.or, JsVal.truthy, JsVal.toStr, h]

/-- Reading a count after `tallyUp`. -/
theorem get?_tallyUp (table : JsMap Nat) (key k : String) :
    (tallyUp table key).get? k
      = if k = key then some ((table.get? key).getD 0 + 1) else table.get? k := by
  unfold tallyUp
  by_cases h : k = key
  · subst h
    rw [JsMap.get?_set_self, if_pos rfl]
  · rw [JsMap.get?_set_of_ne _ _ h, if_neg h]

/-- After counting a list of keys, a key that occurs in the list holds its
former count plus the number of its occurrences, and a key that does not occur
is as before. -/
theorem get?_foldl_tallyUp (keys : List String) (table : JsMap Nat) (k : String) :
    (keys.foldl tallyUp table).get? k
      = if keys.count k = 0 then table.get? k
        else some ((table.get? k).getD 0 + keys.count k) := by
  induction keys generalizing table with
  | nil => simp
  | cons key rest ih =>
    rw [List.foldl_cons, ih, get?_tallyUp]
    by_cases h : k = key
    · subst h
      simp only [if_true, List.count_cons_self, Option.getD_some]
      by_cases h0 : rest.count k = 0
      · simp [h0]
      · simp only [h0, if_false, Nat.add_one_ne_zero]
        congr 1
        omega
    · have hne : ¬ key = k := fun e => h e.symm
      simp only [h, if_false, List.count_cons, hne, beq_iff_eq, Nat.add_zero]

/-- One `tallyUp` adds one to the sum of the counts. -/
theorem sum_tallyUp (table : JsMap Nat) (key : String) :
    ((tallyUp table key).map Prod.snd).sum = (table.map Prod.snd).sum + 1 := by
  unfold tallyUp
  induction table with
  | nil => simp [JsMap.set, JsMap.get?]
  | cons e rest ih =>
    obtain ⟨k', v'⟩ := e
    by_cases h : k' = key
    · simp only [JsMap.get?, JsMap.set, h, if_true, Option.getD_some, List.map_cons,
        List.sum_cons]
      omega
    · simp only [JsMap.get?, JsMap.set, h, if_false, List.map_cons, List.sum_cons, ih]
      omega

/-- Counting a list of keys adds its length to the sum of the counts. -/
theorem sum_foldl_tallyUp (keys : List String) (table : JsMap Nat) :
    ((keys.foldl tallyUp table).map Prod.snd).sum = (table.map Prod.snd).sum + keys.length := by
  induction keys generalizing table with
  | nil => simp
  | cons key rest ih =>
    rw [List.foldl_cons, ih, sum_tallyUp, List.length_cons]
    omega

/-- Reading a table whose values have been mapped. -/
theorem JsMap.get?_mapValues {V W : Type} (f : V → W) (m : JsMap V) (k : String) :
    JsMap.get? (m.map (fun e => (e.1, f e.2))) k = (m.get? k).map f := by
  induction m with
  | nil => rfl
  | cons e rest ih =>
    obtain ⟨k', v'⟩ := e
    by_cases h : k' = k
    · simp [JsMap.get?, h]
    · simpa [JsMap.get?, h] using ih

/-- Setting a value in a table whose values have been mapped. -/
theorem JsMap.set_mapValues {V W : Type} (f : V → W) (m : JsMap V) (k : String) (v : V) :
    JsMap.set (m.map (fun e => (e.1, f e.2))) k (f v)
      = (m.set k v).map (fun e => (e.1, f e.2)) := by
  induction m with
  | nil => rfl
  | cons e rest ih =>
    obtain ⟨k', v'⟩ := e
    by_cases h : k' = k
    · simp [JsMap.set, h]
    · simpa [JsMap.set, h] using ih

/-- On a table of numbers `countUp` counts a key that is no name of
`Object.prototype`. -/
theorem countUp_ofNumbers (table : JsMap Nat) (key : String)
    (hkey : key ∉ objectPrototypeNames) :
    countUp (Counted.ofNumbers table) key = Counted.ofNumbers (tallyUp table key) := by
  have hproto : ¬ key = "__proto__" := by
    intro e
    exact hkey (by rw [e]; decide)
  unfold countUp
  rw [Counted.ofNumbers, JsMap.get?_mapValues]
  cases hg : table.get? key with
  | none =>
    simp only [Option.map_none', hproto, hkey, if_false]
    rw [JsMap.set_mapValues Counted.count]
    simp [tallyUp, hg, Counted.ofNumbers]
  | some n =>
    simp only [Option.map_some']
    rw [JsMap.set_mapValues Counted.count]
    simp [tallyUp, hg, Counted.ofNumbers]

/-- On a table of numbers the loop of `countUp` counts keys that are no names
of `Object.prototype`. -/
theorem foldl_countUp_ofNumbers (keys : List String) (table : JsMap Nat)
    (hkeys : ∀ k ∈ keys, k ∉ objectPrototypeNames) :
    keys.foldl countUp (Counted.ofNumbers table) = Counted.ofNumbers (keys.foldl tallyUp table) := by
  induction keys generalizing table with
  | nil => rfl
  | cons key rest ih =>
    rw [List.foldl_cons, List.foldl_cons,
      countUp_ofNumbers table key (hkeys key (List.mem_cons_self _ _)),
      ih _ (fun k hk => hkeys k (List.mem_cons_of_mem _ hk))]

/-- The table `sources` of `calculateStatistics` for articles whose source
names are no names of `Object.prototype`: the numbers counted by name. -/
theorem sources_eq (engine : ArraySort) (F : Float64) (time : JsVal → Option Int)
    (articles : List EnrichedArticle)
    (hsources : ∀ a ∈ articles, sourceName a ∉ objectPrototypeNames) :
    (calculateStatistics engine F time articles).sources
      = Counted.ofNumbers ((articles.map sourceName).foldl tallyUp []) := by
  have hmap : articles.map EnrichedArticle.sourceOrUnknown = articles.map sourceName :=
    List.map_congr_left (fun a _ => sourceOrUnknown_eq_sourceName a)
  have hkeys : ∀ k ∈ articles.map sourceName, k ∉ objectPrototypeNames := by
    intro k hk
    obtain ⟨a, ha, rfl⟩ := List.mem_map.mp hk
    exact hsources a ha
  have h := foldl_countUp_ofNumbers (articles.map sourceName) [] hkeys
  simp only [calculateStatistics, foldl_sources, hmap, StatisticsLoop.start]
  exact h

/-- One `distribution[label]++` with one of the four labels adds one to the
count of that label. -/
theorem increment_distributionOf (p n u m : Nat) (l : String) (hl : l ∈ sentimentLabels) :
    increment (distributionOf p n u m) l
      = distributionOf (p + [l].count "positive") (n + [l].count "negative")
          (u + [l].count "neutral") (m + [l].count "mixed") := by
  simp only [sentimentLabels, List.mem_cons, List.mem_singleton, List.not_mem_nil,
    or_false] at hl
  rcases hl with rfl | rfl | rfl | rfl <;>
    simp [increment, distributionOf, JsMap.get?, JsMap.set]

/-- Counting a list of labels, each one of the four, adds to each count the
number of occurrences of its label. -/
theorem foldl_increment_distributionOf (labels : List String)
    (h : ∀ l ∈ labels, l ∈ sentimentLabels) (p n u m : Nat) :
    labels.foldl increment (distributionOf p n u m)
      = distributionOf (p + labels.count "positive") (n + labels.count "negative")
          (u + labels.count "neutral") (m + labels.count "mixed") := by
  induction labels generalizing p n u m with
  | nil => simp
  | cons l rest ih =>
    rw [List.foldl_cons, increment_distributionOf p n u m l (h l (List.mem_cons_self _ _)),
      ih (fun x hx => h x (List.mem_cons_of_mem _ hx))]
    simp only [List.count_cons, List.count_nil, Nat.zero_add]
    congr 1 <;> omega

/-- The occurrences of the four labels in a list of such labels add up to its
length. -/
theorem count_four_labels (labels : List String) (h : ∀ l ∈ labels, l ∈ sentimentLabels) :
    labels.count "positive" + labels.count "negative" + labels.count "neutral"
      + labels.count "mixed" = labels.length := by
  induction labels with
  | nil => rfl
  | cons l rest ih =>
    have hrest := ih (fun x hx => h x (List.mem_cons_of_mem _ hx))
    have hl := h l (List.mem_cons_self _ _)
    simp only [sentimentLabels, List.mem_cons, List.mem_singleton, List.not_mem_nil,
      or_false] at hl
    rcases hl with rfl | rfl | rfl | rfl <;>
      simp [List.count_cons] <;> omega

/-- An article labelled with one of the four labels is counted under that
label. -/
theorem sentimentOrNeutral_of_label (a : EnrichedArticle) (l : String)
    (hl : l ∈ sentimentLabels) (h : a.label = some l) : a.sentimentOrNeutral = l := by
  have hne : l ≠ "" := by
    intro e
    subst e
    simp [sentimentLabels] at hl
  simp [EnrichedArticle.sentimentOrNeutral, h, hne]

/-- For articles labelled with the four labels, the occurrences of a label in
the list of the labels counted are the articles that carry it. -/
theorem count_labels (articles : List EnrichedArticle)
    (hlabels : ∀ a ∈ articles, ∃ l ∈ sentimentLabels, a.label = some l) (l : String) :
    (articles.map EnrichedArticle.sentimentOrNeutral).count l = labelled articles l := by
  induction articles with
  | nil => rfl
  | cons a rest ih =>
    have hrest := ih (fun x hx => hlabels x (List.mem_cons_of_mem _ hx))
    obtain ⟨l', hl', ha⟩ := hlabels a (List.mem_cons_self _ _)
    have hs := sentimentOrNeutral_of_label a l' hl' ha
    simp only [labelled] at hrest ⊢
    simp only [List.map_cons, List.count_cons, List.countP_cons, hrest, hs, ha, beq_iff_eq,
      Option.some.injEq, decide_eq_true_eq]

/-- The occurrences of a name in the list of the source names are the articles
from that source. -/
theorem count_sources (articles : List EnrichedArticle) (s : String) :
    (articles.map sourceName).count s = fromSource articles s := by
  induction articles with
  | nil => rfl
  | cons a rest ih =>
    simp only [fromSource] at ih ⊢
    simp only [List.map_cons, List.count_cons, List.countP_cons, ih, beq_iff_eq,
      decide_eq_true_eq]

/-- Counterexample for C23. One article from a source named `constructor`: the
read `stats.sources[source]` finds the function inherited from
`Object.prototype`, and the value stored under the name is the text of that
function with a `1` appended, not the number 1 of the articles from that
source. For a source named `__proto__` nothing is stored, and the counts by
source add up to 0 for one article. -/
theorem sources_constructor_counterexample :
    fromSource [enriched "constructor" "2024-01-01T00:00:00Z" "neutral" 50] "constructor" = 1 ∧
    (calculateStatistics ArraySort.insertion Float64.exact timeOfSample
        [enriched "constructor" "2024-01-01T00:00:00Z" "neutral" 50]).sources
      = [("constructor", .text "function Object() \x7b [native code] \x7d1")] ∧
    (calculateStatistics ArraySort.insertion Float64.exact timeOfSample
        [enriched "__proto__" "2024-01-01T00:00:00Z" "neutral" 50]).sources = [] ∧
    (calculateStatistics ArraySort.insertion Float64.exact timeOfSample
        [enriched "__proto__" "2024-01-01T00:00:00Z" "neutral" 50]).totalArticles = 1 := by
  refine ⟨by decide, ?_, ?_, rfl⟩
  · simp only [calculateStatistics, foldl_sources]
    decide
  · simp only [calculateStatistics, foldl_sources]
    decide

/-- C23, amended. Counting statistics. For every list of enriched articles
labelled with the four labels whose source names are no names of properties
of `Object.prototype`, `calculateStatistics` returns the length of the list as
`totalArticles`; `sources` holds, for every source name, the number of
articles from that source (an article without a source counted under
`Unknown`) and has no property for a name without an article; and
`sentimentDistribution` holds, for each of the four labels, the number of
articles with that label. The counts by source add up to `totalArticles`, and
so do the four counts by label. -/
theorem calculateStatistics_counts (engine : ArraySort) (F : Float64)
    (time : JsVal → Option Int) (articles : List EnrichedArticle)
    (hlabels : ∀ a ∈ articles, ∃ l ∈ sentimentLabels, a.label = some l)
    (hsources : ∀ a ∈ articles, sourceName a ∉ objectPrototypeNames) :
    (calculateStatistics engine F time articles).totalArticles = articles.length ∧
    (∀ s, (calculateStatistics engine F time articles).sources.get? s
      = if fromSource articles s = 0 then none
        else some (.count (fromSource articles s))) ∧
    (calculateStatistics engine F time articles).sentimentDistribution
      = distributionOf (labelled articles "positive") (labelled articles "negative")
          (labelled articles "neutral") (labelled articles "mixed") ∧
    (∀ l ∈ sentimentLabels,
      (calculateStatistics engine F time articles).sentimentDistribution.get? l
        = some (some (labelled articles l))) ∧
    ((((calculateStatistics engine F time articles).sources.map
        (fun e => e.2.number)).sum)
      = (calculateStatistics engine F time articles).totalArticles) ∧
    (labelled articles "positive" + labelled articles "negative" + labelled articles "neutral"
      + labelled articles "mixed" = (calculateStatistics engine F time articles).totalArticles) := by
  have hmem : ∀ l ∈ articles.map EnrichedArticle.sentimentOrNeutral, l ∈ sentimentLabels := by
    intro l hl
    obtain ⟨a, ha, rfl⟩ := List.mem_map.mp hl
    obtain ⟨l', hl', hal⟩ := hlabels a ha
    rw [sentimentOrNeutral_of_label a l' hl' hal]
    exact hl'
  have hdist : (calculateStatistics engine F time articles).sentimentDistribution
      = distributionOf (labelled articles "positive") (labelled articles "negative")
          (labelled articles "neutral") (labelled articles "mixed") := by
    have h := foldl_increment_distributionOf _ hmem 0 0 0 0
    simp only [Nat.zero_add, count_labels articles hlabels] at h
    simp only [calculateStatistics, foldl_sentimentDistribution]
    exact h
  have hsrc := sources_eq engine F time articles hsources
  refine ⟨rfl, ?_, hdist, ?_, ?_, ?_⟩
  · intro s
    rw [hsrc, Counted.ofNumbers, JsMap.get?_mapValues, get?_foldl_tallyUp, count_sources]
    by_cases h0 : fromSource articles s = 0
    · simp [h0, JsMap.get?]
    · simp [h0, JsMap.get?]
  · intro l hl
    rw [hdist]
    simp only [sentimentLabels, List.mem_cons, List.mem_singleton, List.not_mem_nil,
      or_false] at hl
    rcases hl with rfl | rfl | rfl | rfl <;> simp [distributionOf, JsMap.get?]
  · rw [hsrc]
    have hsum := sum_foldl_tallyUp (articles.map sourceName) []
    simp only [List.map_nil, List.sum_nil, Nat.zero_add, List.length_map] at hsum
    have hcongr : ((Counted.ofNumbers ((articles.map sourceName).foldl tallyUp [])).map
        (fun e => e.2.number))
        = ((articles.map sourceName).foldl tallyUp []).map Prod.snd := by
      simp only [Counted.ofNumbers, List.map_map]
      rfl
    rw [hcongr, hsum]
    rfl
  · have h := count_four_labels _ hmem
    simp only [count_labels articles hlabels, List.length_map] at h
    exact h

/-- Witness for C23: four articles, two from the BBC and two from CNN, two of
them positive, one mixed and one neutral. -/
theorem calculateStatistics_counts_witness :
    (calculateStatistics ArraySort.insertion Float64.exact timeOfSample
      [enriched "BBC" "2024-01-01T00:00:00Z" "positive" 80,
       enriched "BBC" "2024-01-03T00:00:00Z" "mixed" 20,
       enriched "CNN" "2024-01-03T00:00:00Z" "neutral" 50,
       enriched "CNN" "2024-01-05T00:00:00Z" "positive" 90]).sources.get? "BBC"
      = some (.count 2) ∧
    (calculateStatistics ArraySort.insertion Float64.exact timeOfSample
      [enriched "BBC" "2024-01-01T00:00:00Z" "positive" 80,
       enriched "BBC" "2024-01-03T00:00:00Z" "mixed" 20,
       enriched "CNN" "2024-01-03T00:00:00Z" "neutral" 50,
       enriched "CNN" "2024-01-05T00:00:00Z" "positive" 90]).sources.get? "Reuters" = none ∧
    (calculateStatistics ArraySort.insertion Float64.exact timeOfSample
      [enriched "BBC" "2024-01-01T00:00:00Z" "positive" 80,
       enriched "BBC" "2024-01-03T00:00:00Z" "mixed" 20,
       enriched "CNN" "2024-01-03T00:00:00Z" "neutral" 50,
       enriched "CNN" "2024-01-05T00:00:00Z" "positive" 90]).sentimentDistribution
      = distributionOf 2 0 1 1 :=
  ⟨((calculateStatistics_counts ArraySort.insertion Float64.exact timeOfSample
      [enriched "BBC" "2024-01-01T00:00:00Z" "positive" 80,
       enriched "BBC" "2024-01-03T00:00:00Z" "mixed" 20,
       enriched "CNN" "2024-01-03T00:00:00Z" "neutral" 50,
       enriched "CNN" "2024-01-05T00:00:00Z" "positive" 90]
      (by simp [enriched, sentimentLabels]) (by decide)).2.1 "BBC"),
    ((calculateStatistics_counts ArraySort.insertion Float64.exact timeOfSample
      [enriched "BBC" "2024-01-01T00:00:00Z" "positive" 80,
       enriched "BBC" "2024-01-03T00:00:00Z" "mixed" 20,
       enriched "CNN" "2024-01-03T00:00:00Z" "neutral" 50,
       enriched "CNN" "2024-01-05T00:00:00Z" "positive" 90]
      (by simp [enriched, sentimentLabels]) (by decide)).2.1 "Reuters"),
    (calculateStatistics_counts ArraySort.insertion Float64.exact timeOfSample
      [enriched "BBC" "2024-01-01T00:00:00Z" "positive" 80,
       enriched "BBC" "2024-01-03T00:00:00Z" "mixed" 20,
       enriched "CNN" "2024-01-03T00:00:00Z" "neutral" 50,
       enriched "CNN" "2024-01-05T00:00:00Z" "positive" 90]
      (by simp [enriched, sentimentLabels]) (by decide)).2.2.1⟩

/-! ## The dominant label -/

/-- The value of `getDominantSentiment` on a distribution over the four
labels: the last label, in the order of the literal, among those with the
greatest count. -/
theorem getDominantSentiment_distributionOf (p n u m : Nat) :
    getDominantSentiment (distributionOf p n u m)
      = .ok (if p ≤ m ∧ n ≤ m ∧ u ≤ m then "mixed"
          else if p ≤ u ∧ n ≤ u then "neutral"
          else if p ≤ n then "negative"
          else "positive") := by
  simp only [getDominantSentiment, distributionOf, List.foldl_cons, List.foldl_nil]
  by_cases h₁ : n < p
  · by_cases h₂ : u < p
    · by_cases h₃ : m < p
      · have e₁ : ¬ (p ≤ m ∧ n ≤ m ∧ u ≤ m) := by omega
        have e₂ : ¬ (p ≤ u ∧ n ≤ u) := by omega
        have e₃ : ¬ p ≤ n := by omega
        simp [JsMap.get?, numGt, h₁, h₂, h₃, e₁, e₂, e₃]
      · have e₁ : p ≤ m ∧ n ≤ m ∧ u ≤ m := by omega
        simp [JsMap.get?, numGt, h₁, h₂, h₃, e₁]
    · by_cases h₃ : m < u
      · have e₁ : ¬ (p ≤ m ∧ n ≤ m ∧ u ≤ m) := by omega
        have e₂ : p ≤ u ∧ n ≤ u := by omega
        simp [JsMap.get?, numGt, h₁, h₂, h₃, e₁, e₂]
      · have e₁ : p ≤ m ∧ n ≤ m ∧ u ≤ m := by omega
        simp [JsMap.get?, numGt, h₁, h₂, h₃, e₁]
  · by_cases h₂ : u < n
    · by_cases h₃ : m < n
      · have e₁ : ¬ (p ≤ m ∧ n ≤ m ∧ u ≤ m) := by omega
        have e₂ : ¬ (p ≤ u ∧ n ≤ u) := by omega
        have e₃ : p ≤ n := by omega
        simp [JsMap.get?, numGt, h₁, h₂, h₃, e₁, e₂, e₃]
      · have e₁ : p ≤ m ∧ n ≤ m ∧ u ≤ m := by omega
        simp [JsMap.get?, numGt, h₁, h₂, h₃, e₁]
    · by_cases h₃ : m < u
      · have e₁ : ¬ (p ≤ m ∧ n ≤ m ∧ u ≤ m) := by omega
        have e₂ : p ≤ u ∧ n ≤ u := by omega
        simp [JsMap.get?, numGt, h₁, h₂, h₃, e₁, e₂]
      · have e₁ : p ≤ m ∧ n ≤ m ∧ u ≤ m := by omega
        simp [JsMap.get?, numGt, h₁, h₂, h₃, e₁]

/-- The properties of a distribution over the four labels. -/
theorem get?_distributionOf (p n u m : Nat) (l : String) (c : Nat)
    (h : (distributionOf p n u m).get? l = some (some c)) :
    (l = "positive" ∧ c = p) ∨ (l = "negative" ∧ c = n) ∨ (l = "neutral" ∧ c = u) ∨
      (l = "mixed" ∧ c = m) := by
  simp only [distributionOf, JsMap.get?] at h
  split_ifs at h with h₁ h₂ h₃ h₄
  · simp only [Option.some.injEq] at h
    exact Or.inl ⟨h₁.symm, h.symm⟩
  · simp only [Option.some.injEq] at h
    exact Or.inr (Or.inl ⟨h₂.symm, h.symm⟩)
  · simp only [Option.some.injEq] at h
    exact Or.inr (Or.inr (Or.inl ⟨h₃.symm, h.symm⟩))
  · simp only [Option.some.injEq] at h
    exact Or.inr (Or.inr (Or.inr ⟨h₄.symm, h.symm⟩))

/-- Counterexample for C26. With one positive and one negative article and no
other, the labels positive and negative tie for the greatest count; positive
comes first in the order of the labels, and `getDominantSentiment` returns
negative. With four counts of zero it returns mixed, the last label. -/
theorem dominant_tie_counterexample :
    getDominantSentiment (distributionOf 1 1 0 0) = .ok "negative" ∧
    getDominantSentiment (distributionOf 0 0 0 0) = .ok "mixed" ∧
    sentimentLabels.indexOf "positive" < sentimentLabels.indexOf "negative" := by
  refine ⟨rfl, rfl, by decide⟩

/-- C26, amended. For every distribution over the four labels,
`getDominantSentiment` returns a label whose count is the greatest, and when
several labels tie for the greatest count it returns the one that comes last
in the order positive, negative, neutral, mixed. -/
theorem getDominantSentiment_last_maximal (p n u m : Nat) :
    ∃ label count,
      getDominantSentiment (distributionOf p n u m) = .ok label ∧
      (distributionOf p n u m).get? label = some (some count) ∧
      (∀ l c, (distributionOf p n u m).get? l = some (some c) → c ≤ count) ∧
      (∀ l c, (distributionOf p n u m).get? l = some (some c) → c = count →
        sentimentLabels.indexOf l ≤ sentimentLabels.indexOf label) := by
  have i₀ : sentimentLabels.indexOf "positive" = 0 := by decide
  have i₁ : sentimentLabels.indexOf "negative" = 1 := by decide
  have i₂ : sentimentLabels.indexOf "neutral" = 2 := by decide
  have i₃ : sentimentLabels.indexOf "mixed" = 3 := by decide
  rw [getDominantSentiment_distributionOf]
  split_ifs with h₁ h₂ h₃
  · refine ⟨"mixed", m, rfl, rfl, ?_, ?_⟩
    · intro l c h
      rcases get?_distributionOf p n u m l c h with ⟨_, rfl⟩ | ⟨_, rfl⟩ | ⟨_, rfl⟩ | ⟨_, rfl⟩ <;>
        omega
    · intro l c h hc
      rcases get?_distributionOf p n u m l c h with ⟨rfl, _⟩ | ⟨rfl, _⟩ | ⟨rfl, _⟩ | ⟨rfl, _⟩ <;>
        omega
  · refine ⟨"neutral", u, rfl, rfl, ?_, ?_⟩
    · intro l c h
      rcases get?_distributionOf p n u m l c h with ⟨_, rfl⟩ | ⟨_, rfl⟩ | ⟨_, rfl⟩ | ⟨_, rfl⟩ <;>
        omega
    · intro l c h hc
      rcases get?_distributionOf p n u m l c h with ⟨rfl, _⟩ | ⟨rfl, _⟩ | ⟨rfl, _⟩ | ⟨rfl, rfl⟩ <;>
        omega
  · refine ⟨"negative", n, rfl, rfl, ?_, ?_⟩
    · intro l c h
      rcases get?_distributionOf p n u m l c h with ⟨_, rfl⟩ | ⟨_, rfl⟩ | ⟨_, rfl⟩ | ⟨_, rfl⟩ <;>
        omega
    · intro l c h hc
      rcases get?_distributionOf p n u m l c h with ⟨rfl, _⟩ | ⟨rfl, _⟩ | ⟨rfl, rfl⟩ | ⟨rfl, rfl⟩ <;>
        omega
  · refine ⟨"positive", p, rfl, rfl, ?_, ?_⟩
    · intro l c h
      rcases get?_distributionOf p n u m l c h with ⟨_, rfl⟩ | ⟨_, rfl⟩ | ⟨_, rfl⟩ | ⟨_, rfl⟩ <;>
        omega
    · intro l c h hc
      rcases get?_distributionOf p n u m l c h with
        ⟨rfl, _⟩ | ⟨rfl, rfl⟩ | ⟨rfl, rfl⟩ | ⟨rfl, rfl⟩ <;> omega

/-! ## The order of strings and the sorted keys -/

/-- Of two lists of code units one is not after the other. -/
theorem lexLe_total (a b : List Nat) : lexLe a b = true ∨ lexLe b a = true := by
  induction a generalizing b with
  | nil => exact Or.inl (by simp [lexLe])
  | cons x xs ih =>
    cases b with
    | nil => exact Or.inr (by simp [lexLe])
    | cons y ys =>
      simp only [lexLe, Bool.or_eq_true, Bool.and_eq_true, decide_eq_true_eq]
      rcases Nat.lt_trichotomy x y with h | h | h
      · exact Or.inl (Or.inl h)
      · rcases ih ys with h' | h'
        · exact Or.inl (Or.inr ⟨h, h'⟩)
        · exact Or.inr (Or.inr ⟨h.symm, h'⟩)
      · exact Or.inr (Or.inl h)

/-- The order of lists of code units is transitive. -/
theorem lexLe_trans (a b c : List Nat) (hab : lexLe a b = true) (hbc : lexLe b c = true) :
    lexLe a c = true := by
  induction a generalizing b c with
  | nil => simp [lexLe]
  | cons x xs ih =>
    cases b with
    | nil => simp [lexLe] at hab
    | cons y ys =>
      cases c with
      | nil => simp [lexLe] at hbc
      | cons z zs =>
        simp only [lexLe, Bool.or_eq_true, Bool.and_eq_true, decide_eq_true_eq] at hab hbc ⊢
        rcases hab with h | ⟨h, h'⟩
        · rcases hbc with g | ⟨g, _⟩
          · exact Or.inl (by omega)
          · exact Or.inl (by omega)
        · rcases hbc with g | ⟨g, g'⟩
          · exact Or.inl (by omega)
          · exact Or.inr ⟨by omega, ih ys zs h' g'⟩

/-- The sorted keys of a table are its keys in another order, each one not
after the ones that follow it. -/
theorem sortedKeys_sorted {V : Type} (table : JsMap V) :
    (sortedKeys table).Perm table.keys ∧
    (sortedKeys table).Pairwise (fun a b => stringLe a b = true) := by
  haveI : IsTotal String (fun a b => stringLe a b = true) :=
    ⟨fun a b => lexLe_total (codeUnits a) (codeUnits b)⟩
  haveI : IsTrans String (fun a b => stringLe a b = true) :=
    ⟨fun a b c => lexLe_trans (codeUnits a) (codeUnits b) (codeUnits c)⟩
  exact ⟨List.perm_insertionSort _ _, List.sorted_insertionSort _ _⟩

/-- The first element of a sorted list is not after any element, and its last
element is not before any. -/
theorem pairwise_head_getLast (l : List String)
    (hs : l.Pairwise (fun a b => stringLe a b = true)) (hne : l ≠ []) :
    ∃ first last, l.head? = some first ∧ l.getLast? = some last ∧
      (∀ k ∈ l, stringLe first k = true) ∧ (∀ k ∈ l, stringLe k last = true) := by
  have hrefl : ∀ k : String, stringLe k k = true := fun k =>
    (lexLe_total (codeUnits k) (codeUnits k)).elim id id
  induction l with
  | nil => exact absurd rfl hne
  | cons a rest ih =>
    rw [List.pairwise_cons] at hs
    by_cases hrest : rest = []
    · subst hrest
      refine ⟨a, a, rfl, rfl, ?_, ?_⟩ <;>
      · intro k hk
        rw [List.mem_singleton.mp hk]
        exact hrefl a
    · obtain ⟨first, last, _, hlast, _, hle⟩ := ih hs.2 hrest
      have hmem : last ∈ rest := List.mem_of_getLast?_eq_some hlast
      refine ⟨a, last, rfl, ?_, ?_, ?_⟩
      · rw [List.getLast?_cons, hlast]
        rfl
      · intro k hk
        rcases List.mem_cons.mp hk with rfl | hk
        · exact hrefl _
        · exact hs.1 k hk
      · intro k hk
        rcases List.mem_cons.mp hk with rfl | hk
        · exact hs.1 last hmem
        · exact hle k hk

/-! ## The trend statement -/

/-- A key of a table has a property, which is one of the entries. -/
theorem JsMap.get?_of_mem_keys {V : Type} (table : JsMap V) (k : String)
    (hk : k ∈ table.keys) : ∃ v, table.get? k = some v ∧ (k, v) ∈ table := by
  induction table with
  | nil => simp [JsMap.keys] at hk
  | cons e rest ih =>
    obtain ⟨k', v'⟩ := e
    by_cases h : k' = k
    · subst h
      exact ⟨v', by simp [JsMap.get?], List.mem_cons_self _ _⟩
    · have hk' : k ∈ JsMap.keys rest := by
        simp only [JsMap.keys, List.map_cons, List.mem_cons] at hk
        rcases hk with rfl | hk
        · exact absurd rfl h
        · exact hk
      obtain ⟨v, hv, hmem⟩ := ih hk'
      exact ⟨v, by simp [JsMap.get?, h, hv], List.mem_cons_of_mem _ hmem⟩

/-- In a list without repetition that has two elements or more the first
element is not the last one. -/
theorem head?_ne_getLast? (l : List String) (hnodup : l.Nodup) (htwo : 2 ≤ l.length)
    (first last : String) (hfirst : l.head? = some first) (hlast : l.getLast? = some last) :
    first ≠ last := by
  cases l with
  | nil => simp at htwo
  | cons a rest =>
    cases rest with
    | nil => simp at htwo
    | cons b rest' =>
      simp only [List.head?_cons, Option.some.injEq] at hfirst
      subst hfirst
      rw [List.getLast?_cons_cons] at hlast
      have hmem := List.mem_of_getLast?_eq_some hlast
      intro e
      subst e
      exact (List.nodup_cons.mp hnodup).1 hmem

/-- Counterexample for C24. From an average of 40 on the first day to an
average of 50 on the last day the difference is 10, and from 50 to 40 the
difference is 10 the other way; `generateSentimentTrends` reports stability
for both tables. -/
theorem trend_threshold_counterexample :
    generateSentimentTrends [("2024-01-01", some 40), ("2024-01-02", some 50)]
      = ["Sentiment has remained relatively stable"] ∧
    generateSentimentTrends [("2024-01-01", some 50), ("2024-01-02", some 40)]
      = ["Sentiment has remained relatively stable"] ∧
    (50 : ℤ) - 40 ≥ 10 := by
  decide

/-- On a table of the averages by day with two distinct days or more,
`generateSentimentTrends` returns the statement made from the averages of the
day that comes first and of the day that comes last in the order of strings. -/
theorem generateSentimentTrends_two_days (table : JsMap (Option ℤ))
    (hdistinct : table.keys.Nodup) (htwo : 2 ≤ table.length)
    (hnum : ∀ e ∈ table, e.2 ≠ none) :
    ∃ dFirst dLast first last,
      dFirst ∈ table.keys ∧ dLast ∈ table.keys ∧ dFirst ≠ dLast ∧
      (∀ k ∈ table.keys, stringLe dFirst k = true) ∧
      (∀ k ∈ table.keys, stringLe k dLast = true) ∧
      table.get? dFirst = some (some first) ∧ table.get? dLast = some (some last) ∧
      generateSentimentTrends table = [trendStatement first last] := by
  obtain ⟨hperm, hsorted⟩ := sortedKeys_sorted table
  have hlen : (sortedKeys table).length = table.length := by
    rw [hperm.length_eq, JsMap.keys, List.length_map]
  have hne : sortedKeys table ≠ [] := by
    intro e
    rw [e] at hlen
    simp at hlen
    omega
  obtain ⟨dFirst, dLast, hhead, hgetLast, hleast, hgreatest⟩ :=
    pairwise_head_getLast _ hsorted hne
  have hmemFirst : dFirst ∈ table.keys :=
    hperm.subset (List.mem_of_mem_head? hhead)
  have hmemLast : dLast ∈ table.keys :=
    hperm.subset (List.mem_of_getLast?_eq_some hgetLast)
  have hnodup : (sortedKeys table).Nodup := hperm.nodup_iff.mpr hdistinct
  have hfl : dFirst ≠ dLast :=
    head?_ne_getLast? _ hnodup (by omega) dFirst dLast hhead hgetLast
  obtain ⟨vFirst, hvFirst, heFirst⟩ := JsMap.get?_of_mem_keys table dFirst hmemFirst
  obtain ⟨vLast, hvLast, heLast⟩ := JsMap.get?_of_mem_keys table dLast hmemLast
  obtain ⟨first, rfl⟩ := Option.ne_none_iff_exists'.mp (hnum _ heFirst)
  obtain ⟨last, rfl⟩ := Option.ne_none_iff_exists'.mp (hnum _ heLast)
  refine ⟨dFirst, dLast, first, last, hmemFirst, hmemLast, hfl,
    fun k hk => hleast k (hperm.symm.subset hk),
    fun k hk => hgreatest k (hperm.symm.subset hk), hvFirst, hvLast, ?_⟩
  have hge : (sortedKeys table).length ≥ 2 := by omega
  simp only [generateSentimentTrends, hge, if_true, hhead, hgetLast, Option.some_bind, hvFirst,
    hvLast, id, Option.map_some', numGt, trendStatement, decide_eq_true_eq, gt_iff_lt]
  split_ifs <;> rfl

/-- C24, amended. For every table of the averages by day with two distinct
days or more, `generateSentimentTrends` returns one statement, made from the
average `first` of the day that comes first in the order of strings (the
earliest day, for days written as in ISO timestamps) and the average `last` of
the day that comes last: improvement when `last > first + 10`, decline when
`last < first - 10`, and stability otherwise. -/
theorem generateSentimentTrends_thresholds (table : JsMap (Option ℤ))
    (hdistinct : table.keys.Nodup) (htwo : 2 ≤ table.length)
    (hnum : ∀ e ∈ table, e.2 ≠ none) :
    ∃ dFirst dLast first last,
      dFirst ∈ table.keys ∧ dLast ∈ table.keys ∧ dFirst ≠ dLast ∧
      (∀ k ∈ table.keys, stringLe dFirst k = true) ∧
      (∀ k ∈ table.keys, stringLe k dLast = true) ∧
      table.get? dFirst = some (some first) ∧ table.get? dLast = some (some last) ∧
      generateSentimentTrends table = [trendStatement first last] :=
  generateSentimentTrends_two_days table hdistinct htwo hnum

/-- Witness for C24: from an average of 40 to an average of 65 the statement
is the one of improvement, and from 55 to 58 the one of stability. -/
theorem generateSentimentTrends_thresholds_witness :
    (∃ dFirst dLast first last,
      dFirst ∈ JsMap.keys [("2024-01-01", some (40 : ℤ)), ("2024-01-02", some 65)] ∧
      dLast ∈ JsMap.keys [("2024-01-01", some (40 : ℤ)), ("2024-01-02", some 65)] ∧
      dFirst ≠ dLast ∧
      (∀ k ∈ JsMap.keys [("2024-01-01", some (40 : ℤ)), ("2024-01-02", some 65)],
        stringLe dFirst k = true) ∧
      (∀ k ∈ JsMap.keys [("2024-01-01", some (40 : ℤ)), ("2024-01-02", some 65)],
        stringLe k dLast = true) ∧
      JsMap.get? [("2024-01-01", some (40 : ℤ)), ("2024-01-02", some 65)] dFirst
        = some (some first) ∧
      JsMap.get? [("2024-01-01", some (40 : ℤ)), ("2024-01-02", some 65)] dLast
        = some (some last) ∧
      generateSentimentTrends [("2024-01-01", some 40), ("2024-01-02", some 65)]
        = [trendStatement first last]) ∧
    generateSentimentTrends [("2024-01-01", some 40), ("2024-01-02", some 65)]
      = ["Sentiment has improved over time"] ∧
    generateSentimentTrends [("2024-01-01", some 55), ("2024-01-02", some 58)]
      = ["Sentiment has remained relatively stable"] :=
  ⟨generateSentimentTrends_thresholds [("2024-01-01", some 40), ("2024-01-02", some 65)]
    (by decide) (by decide) (by simp), by decide, by decide⟩

/-! ## Tables built by a loop -/

/-- The keys after `set`: a key that is there keeps its place, a new key goes
last. -/
theorem JsMap.keys_set {V : Type} (m : JsMap V) (k : String) (v : V) :
    (m.set k v).keys = if k ∈ m.keys then m.keys else m.keys ++ [k] := by
  induction m with
  | nil => simp [JsMap.set, JsMap.keys]
  | cons e rest ih =>
    obtain ⟨k', v'⟩ := e
    by_cases h : k' = k
    · subst h
      simp [JsMap.set, JsMap.keys]
    · have hne : ¬ k = k' := fun e => h e.symm
      simp only [JsMap.keys] at ih
      simp only [JsMap.set, h, if_false, JsMap.keys, List.map_cons, List.mem_cons, hne,
        false_or, ih]
      split_ifs <;> simp

/-- An entry after `set` is an entry from before or the entry set. -/
theorem JsMap.mem_set {V : Type} (m : JsMap V) (k : String) (v : V) (e : String × V)
    (he : e ∈ m.set k v) : e ∈ m ∨ e = (k, v) := by
  induction m with
  | nil =>
    simp only [JsMap.set, List.mem_singleton] at he
    exact Or.inr he
  | cons e' rest ih =>
    obtain ⟨k', v'⟩ := e'
    by_cases h : k' = k
    · subst h
      simp only [JsMap.set, if_true, List.mem_cons] at he
      rcases he with he | he
      · exact Or.inr he
      · exact Or.inl (List.mem_cons_of_mem _ he)
    · simp only [JsMap.set, h, if_false, List.mem_cons] at he
      rcases he with he | he
      · exact Or.inl (he ▸ List.mem_cons_self _ _)
      · rcases ih he with h' | h'
        · exact Or.inl (List.mem_cons_of_mem _ h')
        · exact Or.inr h'

/-- A loop that sets one key for each element of a list keeps the keys of the
table distinct. -/
theorem nodup_keys_foldl_set {V P : Type} (key : P → String) (val : JsMap V → P → V)
    (ps : List P) (table : JsMap V) (h : table.keys.Nodup) :
    (ps.foldl (fun t p => t.set (key p) (val t p)) table).keys.Nodup := by
  induction ps generalizing table with
  | nil => exact h
  | cons p rest ih =>
    rw [List.foldl_cons]
    apply ih
    rw [JsMap.keys_set]
    split_ifs with hk
    · exact h
    · exact List.Nodup.append h (List.nodup_singleton _) (by simpa using hk)

/-- The keys after a loop that sets one key for each element of a list: the
keys from before and the keys set. -/
theorem mem_keys_foldl_set {V P : Type} (key : P → String) (val : JsMap V → P → V)
    (ps : List P) (table : JsMap V) (k : String) :
    k ∈ (ps.foldl (fun t p => t.set (key p) (val t p)) table).keys
      ↔ k ∈ table.keys ∨ k ∈ ps.map key := by
  induction ps generalizing table with
  | nil => simp
  | cons p rest ih =>
    rw [List.foldl_cons, ih, JsMap.keys_set]
    split_ifs with hk
    · simp only [List.map_cons, List.mem_cons]
      constructor
      · rintro (h | h)
        · exact Or.inl h
        · exact Or.inr (Or.inr h)
      · rintro (h | h | h)
        · exact Or.inl h
        · exact Or.inl (h ▸ hk)
        · exact Or.inr h
    · simp only [List.mem_append, List.mem_singleton, List.map_cons, List.mem_cons]
      tauto

/-- A table built from nothing by such a loop has as many entries as there
are distinct keys in the list. -/
theorem length_foldl_set {V P : Type} (key : P → String) (val : JsMap V → P → V)
    (ps : List P) :
    (ps.foldl (fun (t : JsMap V) p => JsMap.set t (key p) (val t p)) ([] : JsMap V)).length
      = ((ps.map key).dedup).length := by
  have hnodup := nodup_keys_foldl_set key val ps ([] : JsMap V) (by simp [JsMap.keys])
  have hperm : (JsMap.keys
      (ps.foldl (fun (t : JsMap V) p => JsMap.set t (key p) (val t p)) ([] : JsMap V))).Perm
      ((ps.map key).dedup) := by
    rw [List.perm_ext_iff_of_nodup hnodup (List.nodup_dedup _)]
    intro k
    rw [mem_keys_foldl_set, List.mem_dedup]
    simp [JsMap.keys]
  have h := hperm.length_eq
  simpa [JsMap.keys] using h

/-- The values of a table built by such a loop have a property that the
values from before have and that every value set has. -/
theorem forall_foldl_set {V P : Type} (key : P → String) (val : JsMap V → P → V)
    (Q : V → Prop) (hval : ∀ t p, Q (val t p)) (ps : List P) (table : JsMap V)
    (h : ∀ e ∈ table, Q e.2) :
    ∀ e ∈ ps.foldl (fun t p => t.set (key p) (val t p)) table, Q e.2 := by
  induction ps generalizing table with
  | nil => exact h
  | cons p rest ih =>
    rw [List.foldl_cons]
    apply ih
    intro e he
    rcases JsMap.mem_set _ _ _ e he with h' | h'
    · exact h e h'
    · rw [h']
      exact hval _ _

/-! ## The loop of the sentiment trends -/

/-- A table is not empty after `set`. -/
theorem JsMap.set_ne_nil {V : Type} (m : JsMap V) (k : String) (v : V) : m.set k v ≠ [] := by
  cases m with
  | nil => simp [JsMap.set]
  | cons e rest =>
    obtain ⟨k', v'⟩ := e
    by_cases h : k' = k <;> simp [JsMap.set, h]

/-- A property that is read from a table is one of its entries. -/
theorem JsMap.mem_of_get? {V : Type} (m : JsMap V) (k : String) (v : V)
    (h : m.get? k = some v) : (k, v) ∈ m := by
  induction m with
  | nil => simp [JsMap.get?] at h
  | cons e rest ih =>
    obtain ⟨k', v'⟩ := e
    by_cases hk : k' = k
    · subst hk
      simp only [JsMap.get?, if_true, Option.some.injEq] at h
      subst h
      exact List.mem_cons_self _ _
    · simp only [JsMap.get?, hk, if_false] at h
      exact List.mem_cons_of_mem _ (ih h)

/-- On a distribution with an entry `getDominantSentiment` returns a label. -/
theorem getDominantSentiment_ok (distribution : JsMap (Option Nat)) (h : distribution ≠ []) :
    ∃ label, getDominantSentiment distribution = .ok label := by
  cases distribution with
  | nil => exact absurd rfl h
  | cons first rest => exact ⟨_, rfl⟩

/-- The entries of `bySource` are made without an error when every source has
a distribution with an entry. -/
theorem sourceTrends_ok (F : Float64) (table : JsMap SourceSentiment)
    (h : ∀ e ∈ table, e.2.distribution ≠ []) : ∃ trends, sourceTrends F table = .ok trends := by
  induction table with
  | nil => exact ⟨[], rfl⟩
  | cons e rest ih =>
    obtain ⟨source, data⟩ := e
    obtain ⟨label, hlabel⟩ := getDominantSentiment_ok data.distribution
      (h (source, data) (List.mem_cons_self _ _))
    obtain ⟨trends, htrends⟩ := ih (fun e he => h e (List.mem_cons_of_mem _ he))
    simp only [sourceTrends, hlabel, htrends]
    exact ⟨_, rfl⟩

/-- A distribution with an entry has an entry after `distribution[label]++`. -/
theorem increment_ne_nil (distribution : JsMap (Option Nat)) (label : String)
    (h : distribution ≠ []) : increment distribution label ≠ [] := by
  unfold increment
  split
  · exact JsMap.set_ne_nil _ _ _
  · exact JsMap.set_ne_nil _ _ _
  · split
    · exact h
    · exact JsMap.set_ne_nil _ _ _

/-- Counting labels leaves a distribution with an entry. -/
theorem foldl_increment_ne_nil (labels : List String) (distribution : JsMap (Option Nat))
    (h : distribution ≠ []) : labels.foldl increment distribution ≠ [] := by
  induction labels generalizing distribution with
  | nil => exact h
  | cons l rest ih => exact ih _ (increment_ne_nil _ _ h)

/-- The entry that the loop updates for a source: for a source that is no
name of `Object.prototype` there is one, and when there is one the source is
no such name or has an entry of its own. -/
theorem sourceEntry_eq (table : JsMap SourceSentiment) (source : String) :
    (source ∉ objectPrototypeNames → ∃ entry, sourceEntry table source = some entry) ∧
    ∀ entry, sourceEntry table source = some entry →
      (table.get? source = some entry ∨
        (source ∉ objectPrototypeNames ∧ entry.distribution = emptyDistribution)) := by
  unfold sourceEntry
  cases hg : table.get? source with
  | some entry =>
    refine ⟨fun _ => ⟨entry, rfl⟩, ?_⟩
    intro entry' h
    simp only [Option.some.injEq] at h
    subst h
    exact Or.inl rfl
  | none =>
    by_cases hp : source ∈ objectPrototypeNames
    · simp [hp]
    · refine ⟨fun _ => ⟨⟨0, 0, emptyDistribution⟩, by simp [hp]⟩, ?_⟩
      intro entry h
      simp only [hp, if_false, Option.some.injEq] at h
      subst h
      exact Or.inr ⟨hp, rfl⟩

/-- One round of the loop of `analyzeSentimentTrends` that does not throw. -/
theorem analyzeSentimentTrendsStep_ok (F : Float64) (acc acc₁ : TrendsLoop)
    (article : EnrichedArticle) (h : analyzeSentimentTrendsStep F acc article = .ok acc₁)
    (hsource : ∀ e ∈ acc.sourceSentiments,
      e.1 ∉ objectPrototypeNames ∧ e.2.distribution ≠ []) :
    (∃ s, article.publishedAt = .str s) ∧
    acc₁.totalScore = F.add acc.totalScore article.scoreOrFifty ∧
    acc₁.dateSentiments = addToDay F acc.dateSentiments article ∧
    acc₁.distribution = increment acc.distribution article.sentimentOrNeutral ∧
    article.sourceOrUnknown ∉ objectPrototypeNames ∧
    (∀ e ∈ acc₁.sourceSentiments, e.1 ∉ objectPrototypeNames ∧ e.2.distribution ≠ []) := by
  unfold analyzeSentimentTrendsStep at h
  cases hse : sourceEntry acc.sourceSentiments article.sourceOrUnknown with
  | none => simp [hse] at h
  | some bySource =>
    have hentry : article.sourceOrUnknown ∉ objectPrototypeNames ∧ bySource.distribution ≠ [] := by
      rcases (sourceEntry_eq _ _).2 bySource hse with hg | ⟨hp, hd⟩
      · exact hsource _ (JsMap.mem_of_get? _ _ _ hg)
      · exact ⟨hp, by rw [hd]; simp [emptyDistribution]⟩
    cases hp : article.publishedAt with
    | str s =>
      simp only [hse, dayKey, hp, Except.ok.injEq] at h
      subst h
      refine ⟨⟨s, rfl⟩, rfl, ?_, rfl, hentry.1, ?_⟩
      · simp only [addToDay, dayOfArticle, hp]
      · intro e he
        rcases JsMap.mem_set _ _ _ e he with h' | h'
        · exact hsource e h'
        · rw [h']
          exact ⟨hentry.1, increment_ne_nil _ _ hentry.2⟩
    | undefined => simp [hse, dayKey, hp] at h
    | null => simp [hse, dayKey, hp] at h
    | bool b => simp [hse, dayKey, hp] at h
    | num n => simp [hse, dayKey, hp] at h

/-- One round of the loop of `analyzeSentimentTrends` does not throw for an
article whose `publishedAt` is a string and whose source is no name of
`Object.prototype`. -/
theorem analyzeSentimentTrendsStep_total (F : Float64) (acc : TrendsLoop)
    (article : EnrichedArticle) (h : ∃ s, article.publishedAt = .str s)
    (hsource : article.sourceOrUnknown ∉ objectPrototypeNames) :
    ∃ acc₁, analyzeSentimentTrendsStep F acc article = .ok acc₁ := by
  obtain ⟨s, hs⟩ := h
  obtain ⟨entry, hentry⟩ := (sourceEntry_eq acc.sourceSentiments _).1 hsource
  simp only [analyzeSentimentTrendsStep, hentry, dayKey, hs]
  exact ⟨_, rfl⟩

/-- The loop of `analyzeSentimentTrends`, when it does not throw: every
`publishedAt` is a string, no source is a name of `Object.prototype`, and the
variables hold the sum of the scores, the table by day, the distribution of
the labels and, for every source, a distribution with an entry. -/
theorem analyzeSentimentTrendsLoop_ok (F : Float64) (articles : List EnrichedArticle)
    (acc acc₁ : TrendsLoop) (h : analyzeSentimentTrendsLoop F acc articles = .ok acc₁)
    (hsource : ∀ e ∈ acc.sourceSentiments,
      e.1 ∉ objectPrototypeNames ∧ e.2.distribution ≠ []) :
    (∀ a ∈ articles, ∃ s, a.publishedAt = .str s) ∧
    acc₁.totalScore
      = (articles.map EnrichedArticle.scoreOrFifty).foldl F.add acc.totalScore ∧
    acc₁.dateSentiments = articles.foldl (addToDay F) acc.dateSentiments ∧
    acc₁.distribution
      = (articles.map EnrichedArticle.sentimentOrNeutral).foldl increment acc.distribution ∧
    (∀ a ∈ articles, a.sourceOrUnknown ∉ objectPrototypeNames) ∧
    (∀ e ∈ acc₁.sourceSentiments, e.2.distribution ≠ []) := by
  induction articles generalizing acc with
  | nil =>
    simp only [analyzeSentimentTrendsLoop, Except.ok.injEq] at h
    subst h
    exact ⟨by simp, rfl, rfl, rfl, by simp, fun e he => (hsource e he).2⟩
  | cons a rest ih =>
    unfold analyzeSentimentTrendsLoop at h
    cases hstep : analyzeSentimentTrendsStep F acc a with
    | error message => simp [hstep] at h
    | ok acc₂ =>
      simp only [hstep] at h
      obtain ⟨hstr, htotal, hdate, hdist, hname, hsrc⟩ :=
        analyzeSentimentTrendsStep_ok F acc acc₂ a hstep hsource
      obtain ⟨hstrs, htotal', hdate', hdist', hnames, hsrc'⟩ := ih acc₂ h hsrc
      refine ⟨?_, ?_, ?_, ?_, ?_, hsrc'⟩
      · intro b hb
        rcases List.mem_cons.mp hb with rfl | hb
        · exact hstr
        · exact hstrs b hb
      · rw [htotal', htotal]
        rfl
      · rw [hdate', hdate]
        rfl
      · rw [hdist', hdist]
        rfl
      · intro b hb
        rcases List.mem_cons.mp hb with rfl | hb
        · exact hname
        · exact hnames b hb

/-- The loop of `analyzeSentimentTrends` does not throw when every
`publishedAt` is a string and no source is a name of `Object.prototype`. -/
theorem analyzeSentimentTrendsLoop_total (F : Float64) (articles : List EnrichedArticle)
    (acc : TrendsLoop) (h : ∀ a ∈ articles, ∃ s, a.publishedAt = .str s)
    (hsource : ∀ a ∈ articles, a.sourceOrUnknown ∉ objectPrototypeNames) :
    ∃ acc₁, analyzeSentimentTrendsLoop F acc articles = .ok acc₁ := by
  induction articles generalizing acc with
  | nil => exact ⟨acc, rfl⟩
  | cons a rest ih =>
    obtain ⟨acc₂, hstep⟩ := analyzeSentimentTrendsStep_total F acc a
      (h a (List.mem_cons_self _ _)) (hsource a (List.mem_cons_self _ _))
    obtain ⟨acc₁, hrest⟩ := ih acc₂ (fun b hb => h b (List.mem_cons_of_mem _ hb))
      (fun b hb => hsource b (List.mem_cons_of_mem _ hb))
    simp only [analyzeSentimentTrendsLoop, hstep, hrest]
    exact ⟨_, rfl⟩

/-- The value of `analyzeSentimentTrends` when it does not throw, and it does
not throw when every `publishedAt` is a string and no source is a name of
`Object.prototype`. -/
theorem analyzeSentimentTrends_eq (F : Float64) (articles : List EnrichedArticle) :
    ((∀ a ∈ articles, ∃ s, a.publishedAt = .str s) →
      (∀ a ∈ articles, a.sourceOrUnknown ∉ objectPrototypeNames) →
      ∃ trends, analyzeSentimentTrends F articles = .ok trends) ∧
    ∀ trends, analyzeSentimentTrends F articles = .ok trends →
      (∀ a ∈ articles, ∃ s, a.publishedAt = .str s) ∧
      (∀ a ∈ articles, a.sourceOrUnknown ∉ objectPrototypeNames) ∧
      trends.overall.averageScore
        = roundedAverage F ((articles.map EnrichedArticle.scoreOrFifty).foldl F.add 0)
            articles.length ∧
      trends.overall.distribution
        = (articles.map EnrichedArticle.sentimentOrNeutral).foldl increment emptyDistribution ∧
      trends.byDate = dateTrends F (articles.foldl (addToDay F) []) ∧
      trends.trends = generateSentimentTrends (dateTrends F (articles.foldl (addToDay F) [])) := by
  have hloop : ∀ acc, analyzeSentimentTrendsLoop F ⟨0, [], [], emptyDistribution⟩ articles
      = .ok acc →
      ∃ dominant bySource, analyzeSentimentTrends F articles
        = .ok { overall :=
                  { dominant := dominant
                    averageScore := roundedAverage F acc.totalScore articles.length
                    distribution := acc.distribution }
                bySource := bySource
                byDate := dateTrends F acc.dateSentiments
                trends := generateSentimentTrends (dateTrends F acc.dateSentiments) } := by
    intro acc hacc
    obtain ⟨_, _, _, hdist, _, hsrc⟩ := analyzeSentimentTrendsLoop_ok F articles _ acc hacc
      (by simp)
    have hne : acc.distribution ≠ [] := by
      rw [hdist]
      exact foldl_increment_ne_nil _ _ (by simp [emptyDistribution])
    obtain ⟨dominant, hdom⟩ := getDominantSentiment_ok _ hne
    obtain ⟨bySource, hby⟩ := sourceTrends_ok F _ hsrc
    simp only [analyzeSentimentTrends, hacc, hdom, hby]
    exact ⟨_, _, rfl⟩
  constructor
  · intro hstr hsource
    obtain ⟨acc, hacc⟩ := analyzeSentimentTrendsLoop_total F articles
      ⟨0, [], [], emptyDistribution⟩ hstr hsource
    obtain ⟨dominant, bySource, h⟩ := hloop acc hacc
    exact ⟨_, h⟩
  · intro trends htrends
    cases hacc : analyzeSentimentTrendsLoop F ⟨0, [], [], emptyDistribution⟩ articles with
    | error message => simp [analyzeSentimentTrends, hacc] at htrends
    | ok acc =>
      obtain ⟨dominant, bySource, h⟩ := hloop acc hacc
      rw [h] at htrends
      simp only [Except.ok.injEq] at htrends
      subst htrends
      obtain ⟨hstr, htotal, hdate, hdist, hnames, _⟩ := analyzeSentimentTrendsLoop_ok F articles _
        acc hacc (by simp)
      exact ⟨hstr, hnames, by rw [htotal], by rw [hdist], by rw [hdate], by rw [hdate]⟩

/-! ## Days written as in ISO timestamps -/

/-- The characters of a day written as `YYYY-MM-DD`. -/
theorem isIsoDay_data (s : String) (h : isIsoDay s = true) :
    ∃ y₁ y₂ y₃ y₄ h₁ m₁ m₂ h₂ d₁ d₂ : Char,
      s.data = [y₁, y₂, y₃, y₄, h₁, m₁, m₂, h₂, d₁, d₂] ∧
      isDigit y₁ = true ∧ isDigit y₂ = true ∧ isDigit y₃ = true ∧ isDigit y₄ = true ∧
      h₁.toNat = 45 ∧ isDigit m₁ = true ∧ isDigit m₂ = true ∧ h₂.toNat = 45 ∧
      isDigit d₁ = true ∧ isDigit d₂ = true := by
  unfold isIsoDay at h
  split at h
  · rename_i y₁ y₂ y₃ y₄ h₁ m₁ m₂ h₂ d₁ d₂ heq
    simp only [Bool.and_eq_true, decide_eq_true_eq] at h
    exact ⟨y₁, y₂, y₃, y₄, h₁, m₁, m₂, h₂, d₁, d₂, heq, by tauto⟩
  · exact absurd h (by simp)

/-- For days written as `YYYY-MM-DD` the order of strings is the order of the
days in the calendar. -/
theorem stringLe_iff_dayNumber_le (a b : String) (ha : isIsoDay a = true)
    (hb : isIsoDay b = true) : stringLe a b = true ↔ dayNumber a ≤ dayNumber b := by
  obtain ⟨a₁, a₂, a₃, a₄, a₅, a₆, a₇, a₈, a₉, a₀, hda, p₁, p₂, p₃, p₄, p₅, p₆, p₇, p₈, p₉, p₀⟩ :=
    isIsoDay_data a ha
  obtain ⟨b₁, b₂, b₃, b₄, b₅, b₆, b₇, b₈, b₉, b₀, hdb, q₁, q₂, q₃, q₄, q₅, q₆, q₇, q₈, q₉, q₀⟩ :=
    isIsoDay_data b hb
  simp only [isDigit, Bool.and_eq_true, decide_eq_true_eq]
    at p₁ p₂ p₃ p₄ p₆ p₇ p₉ p₀ q₁ q₂ q₃ q₄ q₆ q₇ q₉ q₀
  have u : ∀ c : Char, c.toNat ≤ 57 → utf16 c = [c.toNat] := by
    intro c hc
    have : c.toNat < 0x10000 := by omega
    simp [utf16, this]
  simp only [stringLe, codeUnits, dayNumber, hda, hdb, List.map_cons, List.map_nil,
    u a₁ p₁.2, u a₂ p₂.2, u a₃ p₃.2, u a₄ p₄.2, u a₅ (by omega), u a₆ p₆.2, u a₇ p₇.2,
    u a₈ (by omega), u a₉ p₉.2, u a₀ p₀.2,
    u b₁ q₁.2, u b₂ q₂.2, u b₃ q₃.2, u b₄ q₄.2, u b₅ (by omega), u b₆ q₆.2, u b₇ q₇.2,
    u b₈ (by omega), u b₉ q₉.2, u b₀ q₀.2, List.flatten, List.singleton_append, List.nil_append,
    lexLe, Bool.or_eq_true, Bool.and_eq_true, decide_eq_true_eq, digitValue, p₅, p₈, q₅, q₈,
    true_and, and_true, Nat.lt_irrefl, false_or]
  omega

/-! ## The trend statement of a list of articles -/

/-- The sorted keys are as many as the entries of the table. -/
theorem length_sortedKeys {V : Type} (table : JsMap V) :
    (sortedKeys table).length = table.length := by
  rw [(sortedKeys_sorted table).1.length_eq, JsMap.keys, List.length_map]

/-- On a table with fewer than two days `generateSentimentTrends` returns no
statement. -/
theorem generateSentimentTrends_lt_two (table : JsMap (Option ℤ)) (h : table.length < 2) :
    generateSentimentTrends table = [] := by
  have hlt : ¬ (sortedKeys table).length ≥ 2 := by
    rw [length_sortedKeys]
    omega
  simp only [generateSentimentTrends, hlt, if_false]

/-- A day written as in ISO timestamps is no name of `Object.prototype`. -/
theorem not_mem_objectPrototypeNames_of_isIsoDay (d : String) (h : isIsoDay d = true) :
    d ∉ objectPrototypeNames := by
  intro hd
  have hall : ∀ n ∈ objectPrototypeNames, isIsoDay n = false := by decide
  rw [hall d hd] at h
  exact Bool.false_ne_true h

/-- For a day that is no name of `Object.prototype` the statements of the loop
on `dateSentiments` set the entry of the day. -/
theorem addScore_eq_set (F : Float64) (table : JsMap DateSentiment) (date : String) (score : ℚ)
    (hdate : date ∉ objectPrototypeNames) :
    addScore F table date score
      = table.set date ⟨F.add ((table.get? date).getD ⟨0, 0⟩).total score,
          ((table.get? date).getD ⟨0, 0⟩).count + 1⟩ := by
  unfold addScore
  cases hg : table.get? date with
  | some entry => rfl
  | none => simp [hdate]

/-- The loop on `dateSentiments` for articles whose days are no names of
`Object.prototype`. -/
theorem foldl_addToDay_eq (F : Float64) (articles : List EnrichedArticle)
    (table : JsMap DateSentiment)
    (hdays : ∀ a ∈ articles, dayOfArticle a ∉ objectPrototypeNames) :
    articles.foldl (addToDay F) table
      = articles.foldl (fun (t : JsMap DateSentiment) a => JsMap.set t (dayOfArticle a)
          ⟨F.add ((t.get? (dayOfArticle a)).getD ⟨0, 0⟩).total a.scoreOrFifty,
            ((t.get? (dayOfArticle a)).getD ⟨0, 0⟩).count + 1⟩) table := by
  induction articles generalizing table with
  | nil => rfl
  | cons a rest ih =>
    rw [List.foldl_cons, List.foldl_cons, addToDay,
      addScore_eq_set F table _ _ (hdays a (List.mem_cons_self _ _)),
      ih _ (fun b hb => hdays b (List.mem_cons_of_mem _ hb))]

/-- Reading the entry of a day that is no name of `Object.prototype` after the
statements of the loop for one score. -/
theorem get?_addScore (F : Float64) (table : JsMap DateSentiment) (date d : String) (score : ℚ)
    (hd : d ∉ objectPrototypeNames) :
    (addScore F table date score).get? d
      = if date = d then
          some ⟨F.add ((table.get? d).getD ⟨0, 0⟩).total score,
            ((table.get? d).getD ⟨0, 0⟩).count + 1⟩
        else table.get? d := by
  by_cases h : date = d
  · subst h
    rw [addScore_eq_set F table date score hd, JsMap.get?_set_self, if_pos rfl]
  · have hne : d ≠ date := fun e => h e.symm
    rw [if_neg h]
    unfold addScore
    cases hg : table.get? date with
    | some entry => exact JsMap.get?_set_of_ne _ _ hne
    | none =>
      by_cases hp : date ∈ objectPrototypeNames
      · simp [hp]
      · simp only [hp, if_false]
        exact JsMap.get?_set_of_ne _ _ hne

/-- The entry of a day that is no name of `Object.prototype` after the loop:
the scores of the day added up in the order of the list, and their number. -/
theorem get?_foldl_addToDay (F : Float64) (articles : List EnrichedArticle)
    (table : JsMap DateSentiment) (d : String) (hd : d ∉ objectPrototypeNames) :
    (articles.foldl (addToDay F) table).get? d
      = if dayScores articles d = [] then table.get? d
        else some ⟨(dayScores articles d).foldl F.add ((table.get? d).getD ⟨0, 0⟩).total,
          ((table.get? d).getD ⟨0, 0⟩).count + (dayScores articles d).length⟩ := by
  induction articles generalizing table with
  | nil => simp [dayScores]
  | cons a rest ih =>
    rw [List.foldl_cons, ih, addToDay, get?_addScore F table _ d _ hd]
    by_cases h : dayOfArticle a = d
    · have hs : dayScores (a :: rest) d = a.scoreOrFifty :: dayScores rest d := by
        simp [dayScores, h]
      rw [hs, if_pos h]
      by_cases h0 : dayScores rest d = []
      · simp [h0]
      · simp only [h0, if_false, Option.getD_some, List.foldl_cons, List.length_cons,
          reduceCtorEq]
        congr 2
        omega
    · have hs : dayScores (a :: rest) d = dayScores rest d := by
        simp [dayScores, h]
      rw [hs, if_neg h]

/-- A day of the list has a score. -/
theorem dayScores_ne_nil (articles : List EnrichedArticle) (d : String)
    (hd : d ∈ distinctDays articles) : dayScores articles d ≠ [] := by
  rw [distinctDays, List.mem_dedup] at hd
  obtain ⟨a, ha, hda⟩ := List.mem_map.mp hd
  intro h
  have hmem : a.scoreOrFifty ∈ dayScores articles d := by
    simp only [dayScores, List.mem_map, List.mem_filter, decide_eq_true_eq]
    exact ⟨a, ⟨ha, hda⟩, rfl⟩
  rw [h] at hmem
  exact List.not_mem_nil _ hmem

/-- The average of a day of the list in `byDate`, for a day that is no name of
`Object.prototype`: the rounded quotient of the sum of the scores of the day
by their number. -/
theorem get?_dateTrends (F : Float64) (articles : List EnrichedArticle) (d : String)
    (hp : d ∉ objectPrototypeNames) (hd : d ∈ distinctDays articles) :
    (dateTrends F (articles.foldl (addToDay F) [])).get? d
      = some (some (dayAverage F articles d)) := by
  have hne := dayScores_ne_nil articles d hd
  have hlen : ¬ (dayScores articles d).length = 0 := by
    intro h
    exact hne (List.length_eq_zero.mp h)
  refine (JsMap.get?_mapValues (fun v : DateSentiment => roundedAverage F v.total v.count)
    _ d).trans ?_
  rw [get?_foldl_addToDay F articles [] d hp]
  simp [hne, JsMap.get?, roundedAverage, hlen, dayAverage]

/-- The table by day after the loop of `analyzeSentimentTrends` for articles
whose days are no names of `Object.prototype`: its keys are distinct, they are
the days of the articles, and every day has an average that is a number. -/
theorem dateTrends_foldl_addToDay (F : Float64) (articles : List EnrichedArticle)
    (hdays : ∀ a ∈ articles, dayOfArticle a ∉ objectPrototypeNames) :
    (dateTrends F (articles.foldl (addToDay F) [])).keys.Nodup ∧
    (∀ k, k ∈ (dateTrends F (articles.foldl (addToDay F) [])).keys ↔ k ∈ distinctDays articles) ∧
    (dateTrends F (articles.foldl (addToDay F) [])).length = (distinctDays articles).length ∧
    (∀ e ∈ dateTrends F (articles.foldl (addToDay F) []), e.2 ≠ none) := by
  have hfold := foldl_addToDay_eq F articles [] hdays
  have hkeys : (dateTrends F (articles.foldl (addToDay F) [])).keys
      = JsMap.keys (articles.foldl (addToDay F) []) := by
    simp only [dateTrends, JsMap.keys, List.map_map]
    rfl
  refine ⟨?_, ?_, ?_, ?_⟩
  · rw [hkeys, hfold]
    exact nodup_keys_foldl_set _ _ _ _ (by simp [JsMap.keys])
  · intro k
    rw [hkeys, hfold, mem_keys_foldl_set, distinctDays, List.mem_dedup]
    simp [JsMap.keys]
  · rw [dateTrends, List.length_map, hfold, length_foldl_set]
    rfl
  · have hcount : ∀ e ∈ articles.foldl (addToDay F) [], 1 ≤ e.2.count := by
      rw [hfold]
      exact forall_foldl_set dayOfArticle _ (fun v : DateSentiment => 1 ≤ v.count)
        (fun _ _ => Nat.le_add_left _ _) articles ([] : JsMap DateSentiment)
        (fun e he => absurd he (List.not_mem_nil e))
    intro e he
    simp only [dateTrends, List.mem_map] at he
    obtain ⟨e', he', rfl⟩ := he
    have h1 := hcount e' he'
    have h0 : ¬ e'.2.count = 0 := by omega
    simp [roundedAverage, h0]

/-- Counterexample for C25. Two articles, one of 9 January 2024 with the score
40 and one of 10 January 2024 with the score 65, the days written without
leading zeros. The day keys are `2024-1-9` and `2024-1-10`; in the order of
strings `2024-1-10` comes first, so `analyzeSentimentTrends` compares the
average 65 of the later day with the average 40 of the earlier day and states
that the sentiment has declined. From the earliest day, with the average 40,
to the latest day, with the average 65, the sentiment has improved. -/
theorem trends_days_counterexample :
    ∃ trends, analyzeSentimentTrends Float64.exact januaryNinthAndTenth = .ok trends ∧
      januaryNinthAndTenth.map dayOfArticle = ["2024-1-9", "2024-1-10"] ∧
      yearMonthDay? "2024-1-9" = some (2024, 1, 9) ∧
      yearMonthDay? "2024-1-10" = some (2024, 1, 10) ∧
      dayAverage Float64.exact januaryNinthAndTenth "2024-1-9" = 40 ∧
      dayAverage Float64.exact januaryNinthAndTenth "2024-1-10" = 65 ∧
      trends.byDate = [("2024-1-9", some 40), ("2024-1-10", some 65)] ∧
      trends.trends = ["Sentiment has declined over time"] ∧
      trendStatement 40 65 = "Sentiment has improved over time" := by
  obtain ⟨trends, htrends⟩ := (analyzeSentimentTrends_eq Float64.exact januaryNinthAndTenth).1
    (by simp [januaryNinthAndTenth, enriched]) (by decide)
  obtain ⟨_, _, _, _, hby, htr⟩ :=
    (analyzeSentimentTrends_eq Float64.exact januaryNinthAndTenth).2 trends htrends
  have hdays : januaryNinthAndTenth.map dayOfArticle = ["2024-1-9", "2024-1-10"] := by decide
  have hnine : dayAverage Float64.exact januaryNinthAndTenth "2024-1-9" = 40 := by
    have hs : dayScores januaryNinthAndTenth "2024-1-9" = [40] := by
      simp [dayScores, januaryNinthAndTenth, enriched, dayOfArticle, dayOf,
        EnrichedArticle.scoreOrFifty, List.filter]
    rw [dayAverage, hs]
    norm_num [Float64.add, Float64.div, Float64.exact, Math.round]
  have hten : dayAverage Float64.exact januaryNinthAndTenth "2024-1-10" = 65 := by
    have hs : dayScores januaryNinthAndTenth "2024-1-10" = [65] := by
      simp [dayScores, januaryNinthAndTenth, enriched, dayOfArticle, dayOf,
        EnrichedArticle.scoreOrFifty, List.filter]
    rw [dayAverage, hs]
    norm_num [Float64.add, Float64.div, Float64.exact, Math.round]
  have htable : dateTrends Float64.exact (januaryNinthAndTenth.foldl (addToDay Float64.exact) [])
      = [("2024-1-9", some 40), ("2024-1-10", some 65)] := by
    have hkeys : (januaryNinthAndTenth.foldl (addToDay Float64.exact) []).map Prod.fst
        = ["2024-1-9", "2024-1-10"] := by
      rw [foldl_addToDay_eq Float64.exact januaryNinthAndTenth [] (by decide)]
      decide
    have h9 := get?_dateTrends Float64.exact januaryNinthAndTenth "2024-1-9" (by decide)
      (by decide)
    have h10 := get?_dateTrends Float64.exact januaryNinthAndTenth "2024-1-10" (by decide)
      (by decide)
    rw [hnine] at h9
    rw [hten] at h10
    generalize hT : januaryNinthAndTenth.foldl (addToDay Float64.exact) [] = table at hkeys h9 h10
    match table, hkeys, h9, h10 with
    | [(k₁, v₁), (k₂, v₂)], hkeys, h9, h10 =>
      simp only [List.map_cons, List.map_nil, List.cons.injEq, and_true] at hkeys
      obtain ⟨rfl, rfl⟩ := hkeys
      simp only [dateTrends, List.map_cons, List.map_nil, JsMap.get?, if_true,
        Option.some.injEq] at h9 h10
      have hne : ¬ "2024-1-9" = "2024-1-10" := by decide
      simp only [hne, if_false, if_true, Option.some.injEq] at h10
      simp only [dateTrends, List.map_cons, List.map_nil, h9, h10]
  refine ⟨trends, htrends, hdays, by decide, by decide, hnine, hten, ?_, ?_, by decide⟩
  · rw [hby, htable]
  · rw [htr, htable]
    decide

/-- C25, amended. Trend statement only with two days. For every list of
enriched articles whose day keys (the text of `publishedAt` before the first
`T`) are written as in ISO timestamps, `YYYY-MM-DD`, and whose source names
are no names of properties of `Object.prototype`, `analyzeSentimentTrends`
returns no trend statement when the articles fall on fewer than two distinct
days, and exactly one statement when they fall on two distinct days or more:
the statement made from the average score of the earliest day and the average
score of the latest day of the calendar, whatever the order of the articles.
The average score of a day is the rounded quotient of the sum of the scores
of its articles by their number. -/
theorem trends_two_days (F : Float64) (articles : List EnrichedArticle)
    (hiso : ∀ a ∈ articles, isIsoDay (dayOfArticle a) = true)
    (hsources : ∀ a ∈ articles, sourceName a ∉ objectPrototypeNames) :
    ∃ trends, analyzeSentimentTrends F articles = .ok trends ∧
      ((distinctDays articles).length < 2 → trends.trends = []) ∧
      (2 ≤ (distinctDays articles).length →
        ∃ dFirst dLast,
          dFirst ∈ distinctDays articles ∧ dLast ∈ distinctDays articles ∧
          dFirst ≠ dLast ∧
          (∀ d ∈ distinctDays articles, dayNumber dFirst ≤ dayNumber d) ∧
          (∀ d ∈ distinctDays articles, dayNumber d ≤ dayNumber dLast) ∧
          trends.byDate.get? dFirst = some (some (dayAverage F articles dFirst)) ∧
          trends.byDate.get? dLast = some (some (dayAverage F articles dLast)) ∧
          trends.trends
            = [trendStatement (dayAverage F articles dFirst) (dayAverage F articles dLast)]) := by
  have hstr : ∀ a ∈ articles, ∃ s, a.publishedAt = .str s := by
    intro a ha
    have h := hiso a ha
    cases hp : a.publishedAt with
    | str s => exact ⟨s, rfl⟩
    | undefined => simp [dayOfArticle, hp, isIsoDay] at h
    | null => simp [dayOfArticle, hp, isIsoDay] at h
    | bool b => simp [dayOfArticle, hp, isIsoDay] at h
    | num n => simp [dayOfArticle, hp, isIsoDay] at h
  have hisoDay : ∀ d ∈ distinctDays articles, isIsoDay d = true := by
    intro d hd
    rw [distinctDays, List.mem_dedup] at hd
    obtain ⟨a, ha, rfl⟩ := List.mem_map.mp hd
    exact hiso a ha
  have hnames : ∀ a ∈ articles, a.sourceOrUnknown ∉ objectPrototypeNames := by
    intro a ha
    rw [sourceOrUnknown_eq_sourceName]
    exact hsources a ha
  have hdays : ∀ a ∈ articles, dayOfArticle a ∉ objectPrototypeNames :=
    fun a ha => not_mem_objectPrototypeNames_of_isIsoDay _ (hiso a ha)
  obtain ⟨trends, htrends⟩ := (analyzeSentimentTrends_eq F articles).1 hstr hnames
  obtain ⟨_, _, _, _, hby, htr⟩ := (analyzeSentimentTrends_eq F articles).2 trends htrends
  obtain ⟨hnodup, hmem, hlen, hnum⟩ := dateTrends_foldl_addToDay F articles hdays
  refine ⟨trends, htrends, ?_, ?_⟩
  · intro hlt
    rw [htr]
    exact generateSentimentTrends_lt_two _ (by omega)
  · intro htwo
    obtain ⟨dFirst, dLast, first, last, hF, hL, hne, hleast, hgreatest, hvF, hvL, hgen⟩ :=
      generateSentimentTrends_two_days _ hnodup (by omega) hnum
    have hF' := (hmem dFirst).mp hF
    have hL' := (hmem dLast).mp hL
    have hgF := get?_dateTrends F articles dFirst
      (not_mem_objectPrototypeNames_of_isIsoDay _ (hisoDay _ hF')) hF'
    have hgL := get?_dateTrends F articles dLast
      (not_mem_objectPrototypeNames_of_isIsoDay _ (hisoDay _ hL')) hL'
    have hfirst : first = dayAverage F articles dFirst := by
      rw [hvF] at hgF
      simpa using hgF
    have hlast : last = dayAverage F articles dLast := by
      rw [hvL] at hgL
      simpa using hgL
    subst hfirst hlast
    refine ⟨dFirst, dLast, hF', hL', hne, ?_, ?_, ?_, ?_, ?_⟩
    · intro d hd
      exact (stringLe_iff_dayNumber_le dFirst d (hisoDay _ hF') (hisoDay _ hd)).mp
        (hleast d ((hmem d).mpr hd))
    · intro d hd
      exact (stringLe_iff_dayNumber_le d dLast (hisoDay _ hd) (hisoDay _ hL')).mp
        (hgreatest d ((hmem d).mpr hd))
    · rw [hby]
      exact hvF
    · rw [hby]
      exact hvL
    · rw [htr]
      exact hgen

/-- Witness for C25: three articles of three days that arrive out of order;
the earliest day has the average 30 and the latest day the average 80. -/
theorem trends_two_days_witness :
    distinctDays threeDays = ["2024-01-03", "2024-01-01", "2024-01-05"] ∧
    dayAverage Float64.exact threeDays "2024-01-01" = 30 ∧
    dayAverage Float64.exact threeDays "2024-01-05" = 80 ∧
    ∃ trends, analyzeSentimentTrends Float64.exact threeDays = .ok trends ∧
      trends.byDate.get? "2024-01-01" = some (some 30) ∧
      trends.byDate.get? "2024-01-05" = some (some 80) ∧
      trends.trends = ["Sentiment has improved over time"] := by
  have hdays : distinctDays threeDays = ["2024-01-03", "2024-01-01", "2024-01-05"] := by decide
  have hone : dayAverage Float64.exact threeDays "2024-01-01" = 30 := by
    have hs : dayScores threeDays "2024-01-01" = [30] := by
      simp [dayScores, threeDays, enriched, dayOfArticle, dayOf, EnrichedArticle.scoreOrFifty,
        List.filter]
    rw [dayAverage, hs]
    norm_num [Float64.add, Float64.div, Float64.exact, Math.round]
  have hfive : dayAverage Float64.exact threeDays "2024-01-05" = 80 := by
    have hs : dayScores threeDays "2024-01-05" = [80] := by
      simp [dayScores, threeDays, enriched, dayOfArticle, dayOf, EnrichedArticle.scoreOrFifty,
        List.filter]
    rw [dayAverage, hs]
    norm_num [Float64.add, Float64.div, Float64.exact, Math.round]
  obtain ⟨trends, htrends, _, htwo⟩ :=
    trends_two_days Float64.exact threeDays (by decide) (by decide)
  obtain ⟨dFirst, dLast, hF, hL, _, hleast, hgreatest, hvF, hvL, hstatement⟩ :=
    htwo (by rw [hdays]; decide)
  have h1 := hleast "2024-01-01" (by rw [hdays]; decide)
  have h5 := hgreatest "2024-01-05" (by rw [hdays]; decide)
  have hFirst : dFirst = "2024-01-01" := by
    rw [hdays] at hF
    simp only [List.mem_cons, List.mem_singleton, List.not_mem_nil, or_false] at hF
    rcases hF with rfl | rfl | rfl
    · exact absurd h1 (by decide)
    · rfl
    · exact absurd h1 (by decide)
  have hLast : dLast = "2024-01-05" := by
    rw [hdays] at hL
    simp only [List.mem_cons, List.mem_singleton, List.not_mem_nil, or_false] at hL
    rcases hL with rfl | rfl | rfl
    · exact absurd h5 (by decide)
    · exact absurd h5 (by decide)
    · rfl
  subst hFirst hLast
  rw [hone] at hvF hstatement
  rw [hfive] at hvL hstatement
  exact ⟨hdays, hone, hfive, trends, htrends, hvF, hvL, by rw [hstatement]; decide⟩

/-! ## The insights -/

/-- The five top sources are as many as the entries of the table, up to
five. -/
theorem length_topFive (engine : ArraySort) (table : JsMap Counted) :
    (topFive engine table).length = min 5 table.length := by
  simp only [topFive, List.length_take, (engine.perm compareCounts table).length_eq]

/-- The table `sources` of `calculateStatistics` has one entry for each
distinct source name when no source is a name of `Object.prototype`. -/
theorem length_sources (engine : ArraySort) (F : Float64) (time : JsVal → Option Int)
    (articles : List EnrichedArticle)
    (hnames : ∀ a ∈ articles, a.sourceOrUnknown ∉ objectPrototypeNames) :
    (calculateStatistics engine F time articles).sources.length
      = (distinctSources articles).length := by
  have hkeys : ∀ k ∈ articles.map EnrichedArticle.sourceOrUnknown, k ∉ objectPrototypeNames := by
    intro k hk
    obtain ⟨a, ha, rfl⟩ := List.mem_map.mp hk
    exact hnames a ha
  have hcount : (articles.map EnrichedArticle.sourceOrUnknown).foldl countUp []
      = Counted.ofNumbers ((articles.map EnrichedArticle.sourceOrUnknown).foldl tallyUp []) :=
    foldl_countUp_ofNumbers _ [] hkeys
  have hfold : (articles.map EnrichedArticle.sourceOrUnknown).foldl tallyUp []
      = (articles.map EnrichedArticle.sourceOrUnknown).foldl
          (fun (t : JsMap Nat) k => JsMap.set t (id k) ((t.get? k).getD 0 + 1)) [] := rfl
  simp only [calculateStatistics, foldl_sources, StatisticsLoop.start, hcount, Counted.ofNumbers,
    List.length_map, hfold, length_foldl_set, distinctSources, List.map_id]

/-- One `distribution[label]++` with a label outside the four labels leaves
the four counts as they are; the labels outside the four have the value `NaN`
before and after. -/
theorem increment_append_other (p n u m : Nat) (extras : JsMap (Option Nat)) (l : String)
    (hl : l ∉ sentimentLabels) (hex : ∀ e ∈ extras, e.2 = none) :
    ∃ extras', increment (distributionOf p n u m ++ extras) l = distributionOf p n u m ++ extras' ∧
      ∀ e ∈ extras', e.2 = none := by
  simp only [sentimentLabels, List.mem_cons, List.mem_singleton, List.not_mem_nil, or_false,
    not_or] at hl
  obtain ⟨h₁, h₂, h₃, h₄⟩ := hl
  have e₁ : ¬ "positive" = l := fun e => h₁ e.symm
  have e₂ : ¬ "negative" = l := fun e => h₂ e.symm
  have e₃ : ¬ "neutral" = l := fun e => h₃ e.symm
  have e₄ : ¬ "mixed" = l := fun e => h₄ e.symm
  have hset : ∀ e ∈ extras.set l none, e.2 = none := by
    intro e he
    rcases JsMap.mem_set _ _ _ e he with h | h
    · exact hex e h
    · rw [h]
  cases hg : extras.get? l with
  | none =>
    by_cases hp : l = "__proto__"
    · refine ⟨extras, ?_, hex⟩
      subst hp
      simp [increment, distributionOf, JsMap.get?, hg]
    · refine ⟨extras.set l none, ?_, hset⟩
      simp [increment, distributionOf, JsMap.get?, JsMap.set, e₁, e₂, e₃, e₄, hg, hp]
  | some v =>
    have hv := hex _ (JsMap.mem_of_get? extras l v hg)
    simp only at hv
    subst hv
    refine ⟨extras.set l none, ?_, hset⟩
    simp [increment, distributionOf, JsMap.get?, JsMap.set, e₁, e₂, e₃, e₄, hg]

/-- One `distribution[label]++` with one of the four labels adds one to the
count of that label, whatever the labels outside the four. -/
theorem increment_append_four (p n u m : Nat) (extras : JsMap (Option Nat)) (l : String)
    (hl : l ∈ sentimentLabels) :
    increment (distributionOf p n u m ++ extras) l
      = distributionOf (p + [l].count "positive") (n + [l].count "negative")
          (u + [l].count "neutral") (m + [l].count "mixed") ++ extras := by
  simp only [sentimentLabels, List.mem_cons, List.mem_singleton, List.not_mem_nil,
    or_false] at hl
  rcases hl with rfl | rfl | rfl | rfl <;>
    simp [increment, distributionOf, JsMap.get?, JsMap.set]

/-- The distribution after counting any list of labels: the four counts are
the numbers of occurrences of the four labels, and the other properties hold
`NaN`. -/
theorem foldl_increment_append (labels : List String) (p n u m : Nat)
    (extras : JsMap (Option Nat)) (hex : ∀ e ∈ extras, e.2 = none) :
    ∃ extras', labels.foldl increment (distributionOf p n u m ++ extras)
        = distributionOf (p + labels.count "positive") (n + labels.count "negative")
            (u + labels.count "neutral") (m + labels.count "mixed") ++ extras' ∧
      ∀ e ∈ extras', e.2 = none := by
  induction labels generalizing p n u m extras with
  | nil => exact ⟨extras, by simp, hex⟩
  | cons l rest ih =>
    rw [List.foldl_cons]
    by_cases hl : l ∈ sentimentLabels
    · rw [increment_append_four p n u m extras l hl]
      obtain ⟨extras', h, hex'⟩ := ih _ _ _ _ extras hex
      refine ⟨extras', ?_, hex'⟩
      rw [h]
      simp only [List.count_cons, List.count_nil, Nat.zero_add]
      congr 2 <;> omega
    · obtain ⟨extras₁, h₁, hex₁⟩ := increment_append_other p n u m extras l hl hex
      rw [h₁]
      obtain ⟨extras', h, hex'⟩ := ih p n u m extras₁ hex₁
      refine ⟨extras', ?_, hex'⟩
      rw [h]
      simp only [sentimentLabels, List.mem_cons, List.mem_singleton, List.not_mem_nil, or_false,
        not_or] at hl
      obtain ⟨h₁, h₂, h₃, h₄⟩ := hl
      simp [List.count_cons, h₁, h₂, h₃, h₄]

/-- The number of non-zero buckets of the distribution made by the loop of
`analyzeSentimentTrends`: the number of labels among the four that at least
one article carries. A bucket of another label holds `NaN` and is not
counted. -/
theorem nonZero_buckets (articles : List EnrichedArticle) :
    ((((articles.map EnrichedArticle.sentimentOrNeutral).foldl increment
        emptyDistribution).map Prod.snd).filter (fun count => numGt count (some 0))).length
      = (labelsInUse articles).length := by
  obtain ⟨extras, h, hex⟩ := foldl_increment_append
    (articles.map EnrichedArticle.sentimentOrNeutral) 0 0 0 0 [] (by simp)
  have hstart : distributionOf 0 0 0 0 ++ [] = emptyDistribution := rfl
  rw [hstart] at h
  have hextras : (extras.map Prod.snd).filter (fun count => numGt count (some 0)) = [] := by
    rw [List.filter_eq_nil_iff]
    intro v hv
    obtain ⟨e, he, rfl⟩ := List.mem_map.mp hv
    rw [hex e he]
    simp [numGt]
  have hg : ∀ x : Nat, numGt (some x) (some 0) = decide (0 < x) := fun _ => rfl
  rw [h]
  simp only [distributionOf, List.cons_append, List.nil_append, List.map_cons, List.filter_cons,
    hg, Nat.zero_add, hextras, labelsInUse, sentimentLabels, List.filter_nil]
  by_cases h₁ : 0 < (articles.map EnrichedArticle.sentimentOrNeutral).count "positive" <;>
  by_cases h₂ : 0 < (articles.map EnrichedArticle.sentimentOrNeutral).count "negative" <;>
  by_cases h₃ : 0 < (articles.map EnrichedArticle.sentimentOrNeutral).count "neutral" <;>
  by_cases h₄ : 0 < (articles.map EnrichedArticle.sentimentOrNeutral).count "mixed" <;>
  simp [h₁, h₂, h₃, h₄]

/-- C27. Insights. For every list of enriched articles for which
`analyzeSentimentTrends` returns, with the statistics and the trends computed
from the list, `generateInsights` returns exactly the notes whose trigger
holds, in this order: the note on positive coverage when the overall average
score is above 70, otherwise the note on negative coverage when it is below
30; the note on balanced coverage when the articles come from more than 3
distinct sources; the note on high interest when there are more than 15
articles; the note on mixed sentiment when more than 2 of the four labels are
carried by an article. The overall average score is the rounded quotient of
the sum of the values `score || 50` by the number of articles. -/
theorem generateInsights_triggers (engine : ArraySort) (F : Float64)
    (time : JsVal → Option Int) (articles : List EnrichedArticle) (trends : SentimentTrends)
    (htrends : analyzeSentimentTrends F articles = .ok trends) :
    trends.overall.averageScore
      = roundedAverage F ((articles.map EnrichedArticle.scoreOrFifty).foldl F.add 0)
          articles.length ∧
    generateInsights articles (calculateStatistics engine F time articles) trends
      = (if numGt trends.overall.averageScore (some 70) then
          ["Overall positive sentiment suggests optimistic coverage"]
        else if numGt (some 30) trends.overall.averageScore then
          ["Overall negative sentiment indicates concerning developments"]
        else []) ++
        (if 3 < (distinctSources articles).length then
          ["Good source diversity provides balanced perspective"]
        else []) ++
        (if 15 < articles.length then
          ["High article volume indicates significant public interest"]
        else []) ++
        (if 2 < (labelsInUse articles).length then
          ["Mixed sentiment suggests complex or controversial topic"]
        else []) := by
  obtain ⟨_, hnames, haverage, hdist, _, _⟩ :=
    (analyzeSentimentTrends_eq F articles).2 trends htrends
  refine ⟨haverage, ?_⟩
  have hsources : (calculateStatistics engine F time articles).topSources.length > 3
      ↔ 3 < (distinctSources articles).length := by
    have h : (calculateStatistics engine F time articles).topSources
        = topFive engine (calculateStatistics engine F time articles).sources := rfl
    rw [h, length_topFive, length_sources engine F time articles hnames]
    omega
  have hvariation := nonZero_buckets articles
  rw [← hdist] at hvariation
  simp only [generateInsights, hsources, hvariation, gt_iff_lt, List.nil_append]
  split_ifs <;> simp

/-- Witness for C27: four articles from four sources with three labels and the
average 60 get the note on balanced coverage and the note on mixed sentiment. -/
theorem generateInsights_triggers_witness :
    ∃ trends, analyzeSentimentTrends Float64.exact fourSources = .ok trends ∧
      trends.overall.averageScore = some 60 ∧
      generateInsights fourSources
          (calculateStatistics ArraySort.insertion Float64.exact timeOfSample fourSources) trends
        = ["Good source diversity provides balanced perspective",
           "Mixed sentiment suggests complex or controversial topic"] := by
  obtain ⟨trends, htrends⟩ := (analyzeSentimentTrends_eq Float64.exact fourSources).1
    (by simp [fourSources, enriched]) (by decide)
  obtain ⟨haverage, hinsights⟩ :=
    generateInsights_triggers ArraySort.insertion Float64.exact timeOfSample fourSources trends
      htrends
  have h60 : trends.overall.averageScore = some 60 := by
    rw [haverage]
    norm_num [roundedAverage, fourSources, EnrichedArticle.scoreOrFifty, enriched, Float64.add,
      Float64.div, Float64.exact, Math.round]
  have hsources : (distinctSources fourSources).length = 4 := by decide
  have hlabels : (labelsInUse fourSources).length = 3 := by decide
  refine ⟨trends, htrends, h60, ?_⟩
  rw [hinsights, h60, hsources, hlabels]
  decide

end BriefSync
